import Mathlib

/-!
Verification development for the curriculum-builder optimization core
(`learning_compiler`): a shallow embedding, in Lean, of the Python modules
`dag.py`, `agent/planning/spec.py`, `agent/planning/node_builder.py`,
`agent/planning/proposer.py`, `agent/pedagogy_critic.py`,
`agent/quality_rules.py`, `agent/quality/content_rules.py`,
`agent/quality/quality_model.py`, `agent/quality/planner.py`,
`agent/repair_executor.py` and `agent/optimizer.py`, together with theorems
settling the specification claims about those modules.

Modelling conventions:
* Python `str` is modelled by Lean `String`, with self-contained executable
  helpers (`pyLower`, `pyStrip`, `pyStrLe`, `pyContains`, ...) written over
  `String.data` so that every definition reduces inside the kernel.  The
  helpers implement the ASCII behaviour, which covers every string the
  embedded code manipulates.
* Python `float` arithmetic is modelled exactly, by the fraction type
  `Frac` (an integer numerator with a positive integer denominator);
  `int(x)` is truncation toward zero and `round(x)` is round-half-to-even,
  as in Python.
* Python lists and dicts are modelled by `List` and by insertion-ordered
  association lists with in-place value update (`assocUpd`), matching
  CPython's dict semantics.
* `copy.deepcopy` on the (immutable) embedded values is the identity.
* Side-effect-free calls whose results are discarded (the critic's
  synthetic `run_json` call) are omitted.
-/

/-- Python `sorted` (stable) as an insertion sort with a boolean `le`. -/
def insertLe (le : α → α → Bool) (x : α) : List α → List α
  | [] => [x]
  | y :: ys => if le y x then y :: insertLe le x ys else x :: y :: ys

/-- Stable sort used to model Python's `sorted` and `list.sort`. -/
def pySorted (le : α → α → Bool) : List α → List α
  | [] => []
  | x :: xs => insertLe le x (pySorted le xs)

/-- Insertion-ordered association-list update: replace the first binding of
`k` in place, else append, as CPython dict assignment does. -/
def assocUpd (k : String) (v : α) : List (String × α) → List (String × α)
  | [] => [(k, v)]
  | (k', v') :: rest =>
      if k' = k then (k, v) :: rest else (k', v') :: assocUpd k v rest

/-- First binding of `k`, as dict lookup. -/
def assocFind (k : String) : List (String × α) → Option α
  | [] => none
  | (k', v) :: rest => if k' = k then some v else assocFind k rest

/-- ASCII lower-casing of one character (models `str.lower` on the ASCII
strings manipulated by the embedded code). -/
def lowerCh (c : Char) : Char :=
  if 'A' ≤ c ∧ c ≤ 'Z' then Char.ofNat (c.toNat + 32) else c

/-- Python `str.lower`. -/
def pyLower (s : String) : String := String.mk (s.data.map lowerCh)

/-- Whitespace recognised by Python `str.strip` (ASCII part). -/
def pyIsSpace (c : Char) : Bool :=
  c = ' ' ∨ c = '\t' ∨ c = '\n' ∨ c = '\r' ∨ c = Char.ofNat 11 ∨ c = Char.ofNat 12

/-- Python `str.strip()`. -/
def pyStrip (s : String) : String :=
  String.mk (((s.data.dropWhile pyIsSpace).reverse.dropWhile pyIsSpace).reverse)

/-- Lexicographic char-list comparison by code point (Python `str` `<=`). -/
def chListLe : List Char → List Char → Bool
  | [], _ => true
  | _ :: _, [] => false
  | a :: as, b :: bs =>
      if a = b then chListLe as bs else decide (a < b)

/-- Python string `<=` (code-point lexicographic). -/
def pyStrLe (a b : String) : Bool := chListLe a.data b.data

/-- `l₂` occurs as a contiguous run of `l₁`. -/
def chListIsPrefixB : List Char → List Char → Bool
  | [], _ => true
  | _ :: _, [] => false
  | a :: as, b :: bs => a = b && chListIsPrefixB as bs

/-- Substring membership on char lists (Python `needle in haystack`). -/
def chListInfixB (needle : List Char) : List Char → Bool
  | [] => needle.isEmpty
  | c :: rest => chListIsPrefixB needle (c :: rest) || chListInfixB needle rest

/-- Python substring test `needle in haystack`. -/
def pyContains (haystack needle : String) : Bool :=
  chListInfixB needle.data haystack.data

/-- Python `str.startswith`. -/
def pyStartsWith (s pre : String) : Bool := chListIsPrefixB pre.data s.data

/-- ASCII decimal digit test (Python `str.isdigit` on ASCII input). -/
def isDigitCh (c : Char) : Bool := '0' ≤ c ∧ c ≤ '9'

/-- Python `str.isdigit` (false on the empty string). -/
def pyIsDigit (s : String) : Bool := !s.data.isEmpty && s.data.all isDigitCh

/-- Digit character for `n < 10`. -/
def digitCh (n : Nat) : Char := Char.ofNat (48 + n % 10)

/-- Little-endian digit characters of `n`, with explicit fuel. -/
def digitsRevAux : Nat → Nat → List Char
  | 0, _ => []
  | fuel + 1, n => if n < 10 then [digitCh n] else digitCh n :: digitsRevAux fuel (n / 10)

/-- Python decimal rendering `str(n)` of a nonnegative integer. -/
def pyDecimal (n : Nat) : String := String.mk (digitsRevAux (n + 1) n).reverse

/-- Numeric value of a decimal digit character. -/
def digitVal (c : Char) : Nat := c.toNat - 48

/-- Value of a little-endian digit-character list. -/
def decodeLE : List Char → Nat
  | [] => 0
  | c :: rest => digitVal c + 10 * decodeLE rest

/-- Numeric value of a big-endian ASCII digit string (Python `int(s)` for a
digit-only `s`). -/
def pyParseNat (s : String) : Nat := decodeLE s.data.reverse

/-- Exact fraction: numerator over a (by construction positive) denominator.
Models Python float arithmetic exactly on the rational values the embedded
code computes with. -/
structure Frac where
  num : Int
  den : Int
deriving DecidableEq, Repr

/-- Embed an integer. -/
def Frac.ofInt (n : Int) : Frac := ⟨n, 1⟩

/-- Fraction addition (denominators multiply; no reduction). -/
def Frac.add (a b : Frac) : Frac := ⟨a.num * b.den + b.num * a.den, a.den * b.den⟩

/-- Fraction multiplication. -/
def Frac.mul (a b : Frac) : Frac := ⟨a.num * b.num, a.den * b.den⟩

/-- Fraction division (assumes a positive divisor, as at every use site). -/
def Frac.div (a b : Frac) : Frac := ⟨a.num * b.den, a.den * b.num⟩

/-- `a ≤ b` by cross-multiplication (valid for positive denominators). -/
def Frac.le (a b : Frac) : Bool := decide (a.num * b.den ≤ b.num * a.den)

/-- `a < b` by cross-multiplication. -/
def Frac.lt (a b : Frac) : Bool := decide (a.num * b.den < b.num * a.den)

/-- Exact equality of the represented rationals. -/
def Frac.eq (a b : Frac) : Bool := decide (a.num * b.den = b.num * a.den)

/-- `math.floor` on a fraction with positive denominator. -/
def Frac.floor (a : Frac) : Int := a.num.fdiv a.den

/-- Python `int(x)`: truncation toward zero. -/
def Frac.trunc (a : Frac) : Int :=
  if 0 ≤ a.num then a.num.fdiv a.den else -((-a.num).fdiv a.den)

/-- Python `round(x)`: round half to even. -/
def Frac.pyRound (a : Frac) : Int :=
  let f := a.num.fdiv a.den
  let rem := a.num - f * a.den
  if 2 * rem < a.den then f
  else if a.den < 2 * rem then f + 1
  else if Even f then f else f + 1

/-- The rational value of a fraction. -/
def Frac.toQ (a : Frac) : ℚ := (a.num : ℚ) / (a.den : ℚ)

namespace Dag

/-!
Embedding of `learning_compiler/dag.py`.

A node mapping is modelled by `DagNode`: `id` is the `"id"` entry when that
entry is a string (`none` models a missing or non-string entry, which
`node_map` drops), and `prerequisites` is the `"prerequisites"` entry when it
is a list (`none` models a missing or non-list entry, which edge construction
skips); prerequisite list elements are modelled post-`str()` coercion.
-/

structure DagNode where
  id : Option String
  prerequisites : Option (List String)
deriving DecidableEq, Repr

/-- `node_map`: normalize a list of node mappings into an ID-indexed,
insertion-ordered map (later duplicate ids overwrite in place). -/
def node_map (nodes : List DagNode) : List (String × DagNode) :=
  nodes.foldl
    (fun mapping node =>
      match node.id with
      | none => mapping
      | some node_id => assocUpd node_id node mapping)
    []

/-- One raw-prerequisite step of `_graph_from_nodes` edge construction:
skip self-loops, unknown ids and already-seen ids, else record the edge
(`acc` is the pair of the edge list and the `seen` list). -/
def edgeStep (keys : List String) (node_id : String)
    (acc : List String × List String) (prereq : String) :
    List String × List String :=
  if prereq = node_id then acc
  else if ¬ keys.contains prereq then acc
  else if acc.2.contains prereq then acc
  else (acc.1 ++ [prereq], acc.2 ++ [prereq])

/-- The deduplicated known non-self prerequisites of one node, in order:
the edges `_graph_from_nodes` creates for it. -/
def edgePreds (keys : List String) (node_id : String) (node : DagNode) : List String :=
  match node.prerequisites with
  | none => []
  | some raw => (raw.foldl (edgeStep keys node_id) ([], [])).1

/-- `_graph_from_nodes`: the id-indexed map, indegrees and dependents. -/
def graph_from_nodes (nodes : List DagNode) :
    List (String × DagNode) × (String → Int) × (String → List String) :=
  let nodes_by_id := node_map nodes
  let keys := nodes_by_id.map Prod.fst
  let indegree : String → Int := fun k =>
    match assocFind k nodes_by_id with
    | none => 0
    | some node => ((edgePreds keys k node).length : Int)
  let dependents : String → List String := fun k =>
    nodes_by_id.foldl
      (fun acc (p : String × DagNode) =>
        if (edgePreds keys p.1 p.2).contains k then acc ++ [p.1] else acc)
      []
  (nodes_by_id, indegree, dependents)

/-- The predecessor list `_graph_from_nodes` counts for one key: the
deduplicated known non-self prerequisites of that key's entry (empty for an
unknown key). -/
def predsOf (nodes : List DagNode) (k : String) : List String :=
  match assocFind k (node_map nodes) with
  | none => []
  | some node => edgePreds ((node_map nodes).map Prod.fst) k node

/-- One dependent-decrement step of Kahn's loop: lower the dependent's
indegree by one and enqueue it when the new indegree is zero (`acc` is the
pair of the indegree map and the list of newly enqueued ids). -/
def kahnStep (acc : (String → Int) × List String) (dependent : String) :
    (String → Int) × List String :=
  let ind' : String → Int := fun k =>
    if k = dependent then acc.1 dependent - 1 else acc.1 k
  if acc.1 dependent - 1 = 0 then (ind', acc.2 ++ [dependent])
  else (ind', acc.2)

/-- One pass of Kahn's queue loop: pop the head, append it to `ordered`,
decrement its dependents in ascending-id order and enqueue those whose
indegree reaches zero.  `fuel` bounds the number of pops; the start state
supplies enough fuel for the loop to always drain its queue. -/
def kahnLoop (dependents : String → List String) :
    Nat → (String → Int) → List String → List String → List String
  | 0, _, _, ordered => ordered
  | _ + 1, _, [], ordered => ordered
  | fuel + 1, indegree, current :: queue, ordered =>
      let step :=
        (pySorted pyStrLe (dependents current)).foldl kahnStep (indegree, [])
      kahnLoop dependents fuel step.1 (queue ++ step.2) (ordered ++ [current])

/-- The Kahn pass of `topological_order`: the FIFO loop run from the
zero-indegree roots in ascending id, with fuel covering every possible pop. -/
def kahnOrdered (nodes : List DagNode) : List String :=
  let g := graph_from_nodes nodes
  let indegree := g.2.1
  let dependents := g.2.2
  let keys := g.1.map Prod.fst
  let queue := pySorted pyStrLe (keys.filter (fun k => indegree k = 0))
  kahnLoop dependents (keys.length + 1) indegree queue []

/-- `topological_order`: deterministic topological order for node mappings,
via Kahn's algorithm with a FIFO queue seeded with the roots in ascending id;
on an unresolved cycle (with the default fallback) all node ids are returned
in ascending order instead. -/
def topological_order (nodes : List DagNode)
    (fallback_sorted_on_cycle : Bool := true) : List String :=
  let ordered := kahnOrdered nodes
  if ordered.length = (node_map nodes).length then ordered
  else if ¬ fallback_sorted_on_cycle then ordered
  else pySorted pyStrLe ((node_map nodes).map Prod.fst)

/-- The Kahn loop as the SPEC describes it, for comparison with the code's
`kahnLoop`: the claim's "ties among simultaneously available nodes are broken
by ascending id" means the least available id is popped next, so the worklist
is re-sorted after every enqueue (a priority queue) instead of being used
first-in-first-out. -/
def kahnMinLoop (dependents : String → List String) :
    Nat → (String → Int) → List String → List String → List String
  | 0, _, _, ordered => ordered
  | _ + 1, _, [], ordered => ordered
  | fuel + 1, indegree, current :: queue, ordered =>
      let step :=
        (pySorted pyStrLe (dependents current)).foldl kahnStep (indegree, [])
      kahnMinLoop dependents fuel step.1 (pySorted pyStrLe (queue ++ step.2))
        (ordered ++ [current])

/-- `topological_order` as the SPEC describes it, for comparison with the
code: Kahn's algorithm popping the least available id each step, and on an
unresolved cycle the resolved prefix is preserved with the remaining
(cycle) ids appended after it in ascending order. -/
def topological_order_spec (nodes : List DagNode) : List String :=
  let g := graph_from_nodes nodes
  let indegree := g.2.1
  let dependents := g.2.2
  let keys := g.1.map Prod.fst
  let queue := pySorted pyStrLe (keys.filter (fun k => indegree k = 0))
  let ordered := kahnMinLoop dependents (keys.length + 1) indegree queue []
  if ordered.length = (node_map nodes).length then ordered
  else ordered ++ pySorted pyStrLe (keys.filter (fun k => ¬ ordered.contains k))

end Dag

/-!
Embedding of the typed domain models (`domain/models.py`) used by the
planning, critique, judging and repair modules.
-/

structure ContextPack where
  domain : Option String
  focus_terms : List String
  local_paths : List String
  preferred_resource_kinds : List String
  required_outcomes : List String
deriving DecidableEq, Repr

structure Constraints where
  hours_per_week : Frac
  total_hours_min : Frac
  total_hours_max : Frac
  depth : String
  node_count_min : Option Int
  node_count_max : Option Int
  max_prerequisites_per_node : Option Int
deriving DecidableEq, Repr

structure TopicSpec where
  spec_version : String
  goal : String
  audience : String
  prerequisites : List String
  scope_in : List String
  scope_out : List String
  constraints : Constraints
  domain_mode : String
  evidence_mode : String
  misconceptions : List String
  context_pack : Option ContextPack
deriving DecidableEq, Repr

structure Resource where
  title : String
  url : String
  kind : String
  role : String
  citation : Option String
deriving DecidableEq, Repr

structure MasteryCheck where
  task : String
  pass_criteria : String
deriving DecidableEq, Repr

/-- A curriculum node, in the shape produced by `CurriculumNode.to_dict`
(the node mappings circulating through critic, judge and executor). -/
structure Node where
  id : String
  title : String
  capability : String
  prerequisites : List String
  core_ideas : List String
  pitfalls : List String
  mastery_check : MasteryCheck
  estimate_minutes : Int
  resources : List Resource
  estimate_confidence : Option Frac
deriving DecidableEq, Repr

structure OpenQuestion where
  question : String
  related_nodes : List String
  status : String
deriving DecidableEq, Repr

/-- A draft curriculum payload `{topic, nodes, open_questions?}`; the
`open_questions` key is present only when the proposer runs in strict mode. -/
structure Curriculum where
  topic : String
  nodes : List Node
  open_questions : Option (List OpenQuestion)
deriving DecidableEq, Repr

namespace PlanSpec

/-!
Embedding of `agent/planning/spec.py`.  The markdown phrase extractor
(`markdown_scope.markdown_phrase_candidates`, an excluded collaborator) and
the filesystem read performed by `_read_scope_document` are passed in
explicitly: `mp` is the extractor and the `scope_document_path/text` pair is
the read result.
-/

structure GenerationSpec where
  topic_spec : TopicSpec
  topic_label : String
  evidence_mode : String
  strict_mode : Bool
  target_nodes : Int
  max_prerequisites_per_node : Int
  titles : List String
  minutes : List Int
  misconceptions : List String
  scope_document_path : Option String
  scope_document_text : Option String
deriving DecidableEq, Repr

/-- The raw `evidence_mode` entry of a topic-spec mapping: absent, `None`,
or a string.  `TopicSpec.from_mapping` renders it with
`str(payload.get("evidence_mode", "minimal"))`. -/
inductive EvRaw where
  | missing
  | pynone
  | pystr (s : String)
deriving DecidableEq, Repr

/-- `str(payload.get("evidence_mode", "minimal"))`. -/
def evidenceFieldOfRaw : EvRaw → String
  | .missing => "minimal"
  | .pynone => "None"
  | .pystr s => s

/-- Python `value or default` on an optional integer field (`0` is falsy). -/
def pyOrInt (v : Option Int) (d : Int) : Int :=
  match v with
  | none => d
  | some n => if n = 0 then d else n

/-- `normalize_evidence_mode`; the `Option` input models a Python `None`
argument (`value or "minimal"` also swallows the empty string). -/
def normalize_evidence_mode (value : Option String) : String :=
  let mode := pyLower (pyStrip (match value with
    | none => "minimal"
    | some s => if s = "" then "minimal" else s))
  if mode = "minimal" ∨ mode = "standard" ∨ mode = "strict" then mode else "minimal"

/-- Python right-strip. -/
def pyRstrip (s : String) : String :=
  String.mk ((s.data.reverse.dropWhile pyIsSpace).reverse)

/-- `derive_topic_label`. -/
def derive_topic_label (topic_spec : TopicSpec) : String :=
  let goal := topic_spec.goal
  if goal.data.length ≤ 72 then goal
  else pyRstrip (String.mk (goal.data.take 69)) ++ "..."

/-- Python list slicing `l[:n]` (a negative bound drops from the end). -/
def pySliceTo (n : Int) (l : List α) : List α :=
  if 0 ≤ n then l.take n.toNat
  else l.take (l.length - min l.length n.natAbs)

/-- `seed_titles`; `mp` is the (excluded) markdown phrase extractor used
when a scope document text is present. -/
def seed_titles (mp : String → List String) (topic_spec : TopicSpec)
    (target_nodes : Int) (scope_document_text : Option String) : List String :=
  let seeds0 : List String := ["Capability framing and success criteria"]
  let seeds1 := if ¬ topic_spec.prerequisites.isEmpty
    then seeds0 ++ ["Prerequisite bridge and terminology alignment"] else seeds0
  let seeds2 :=
    match scope_document_text with
    | some text =>
        if text ≠ "" then
          seeds1 ++ pySliceTo (max 12 (target_nodes * 3)) (mp text)
        else seeds1 ++ ((topic_spec.scope_in.map pyStrip).filter (· ≠ ""))
    | none => seeds1 ++ ((topic_spec.scope_in.map pyStrip).filter (· ≠ ""))
  let seeds3 :=
    match topic_spec.context_pack with
    | some context =>
        seeds2 ++ ((context.required_outcomes.map pyStrip).filter (· ≠ "")).map
          (fun outcome => "Deliverable: " ++ outcome)
    | none => seeds2
  let seeds := seeds3 ++ ["Interface integration strategy", "Verification checklist design"]
  let deduped := (seeds.foldl
    (fun (acc : List String × List String) title =>
      let key := pyLower title
      if acc.2.contains key then acc else (acc.1 ++ [title], acc.2 ++ [key]))
    ([], [])).1
  let need := (target_nodes - deduped.length).toNat
  let padded := deduped ++ (List.range need).map
    (fun j => "Applied implementation cycle " ++ pyDecimal (deduped.length + j + 1))
  pySliceTo target_nodes padded

/-- `_title_weight`. -/
def title_weight (index : Nat) (count : Nat) (title : String) : Frac :=
  let posFrac : Frac := Frac.div (Frac.ofInt index) (Frac.ofInt (max 1 ((count : Int) - 1)))
  let weight := Frac.add (Frac.ofInt 1) (Frac.mul ⟨2, 5⟩ posFrac)
  let boosts : List (String × Frac) :=
    [("integration", ⟨1, 4⟩), ("verification", ⟨1, 4⟩), ("reliability", ⟨1, 5⟩),
     ("trade-off", ⟨3, 20⟩), ("deliverable", ⟨1, 10⟩), ("architecture", ⟨1, 5⟩),
     ("orchestration", ⟨1, 5⟩), ("testing", ⟨1, 5⟩)]
  let lowered := pyLower title
  let weight := boosts.foldl
    (fun w tb => if pyContains lowered tb.1 then Frac.add w tb.2 else w) weight
  if (index : Int) = (count : Int) - 1 then Frac.add weight ⟨3, 20⟩ else weight

/-- The per-title weights of `distribute_minutes`. -/
def distWeights (titles : List String) : List Frac :=
  titles.mapIdx (fun i title => title_weight i titles.length title)

/-- `sum(weights) or 1.0`. -/
def distWeightSum (titles : List String) : Frac :=
  let wsum0 := (distWeights titles).foldl Frac.add (Frac.ofInt 0)
  if Frac.eq wsum0 (Frac.ofInt 0) then Frac.ofInt 1 else wsum0

/-- The per-node floor: `min(20, total // count)` when the total covers one
minute per node, else zero. -/
def distMinimum (total_minutes : Int) (count : Nat) : Int :=
  if (count : Int) ≤ total_minutes then min 20 (total_minutes.fdiv count) else 0

/-- The truncated proportional increments. -/
def distIncrements (remainder : Int) (titles : List String) : List Int :=
  (distWeights titles).map
    (fun w => (Frac.mul (Frac.ofInt remainder) (Frac.div w (distWeightSum titles))).trunc)

/-- The largest-fractional-shortfall sort order of `distribute_minutes`:
indices sorted by descending shortfall, ties by ascending index. -/
def distOrder (remainder : Int) (titles : List String) : List Nat :=
  let increments := distIncrements remainder titles
  let shortfall := fun (idx : Nat) =>
    Frac.add
      (Frac.mul (Frac.ofInt remainder)
        (Frac.div ((distWeights titles).getD idx (Frac.ofInt 0))
          (distWeightSum titles)))
      (Frac.ofInt (-(increments.getD idx 0)))
  let keyLe := fun (i j : Nat) =>
    Frac.lt (shortfall j) (shortfall i) ||
      (Frac.eq (shortfall i) (shortfall j) && decide (i ≤ j))
  pySorted keyLe (List.range titles.length)

/-- One `increments[idx] += 1` step. -/
def bumpAt (acc : List Int) (idx : Nat) : List Int :=
  acc.set idx (acc.getD idx 0 + 1)

/-- `distribute_minutes`: a floor allocation plus a proportional remainder,
with the truncation shortfall repaid to the indices of largest fractional
shortfall (ties by ascending index). -/
def distribute_minutes (total_minutes : Int) (titles : List String) : List Int :=
  let count := titles.length
  if count = 0 then []
  else
    let minimum := distMinimum total_minutes count
    let base_total := minimum * count
    let remainder := max 0 (total_minutes - base_total)
    let increments := distIncrements remainder titles
    let distributed := increments.foldl (· + ·) 0
    let increments :=
      if distributed < remainder then
        ((distOrder remainder titles).take (remainder - distributed).toNat).foldl
          bumpAt increments
      else increments
    increments.map (fun extra => minimum + extra)

/-- `target_nodes`. -/
def target_nodes (topic_spec : TopicSpec) : Int :=
  let min_nodes := pyOrInt topic_spec.constraints.node_count_min 8
  let max_nodes0 := pyOrInt topic_spec.constraints.node_count_max (max min_nodes 16)
  let max_nodes := if max_nodes0 < min_nodes then min_nodes else max_nodes0
  let scope_size : Int := topic_spec.scope_in.length
  max min_nodes (min max_nodes (max 6 (scope_size + 3)))

/-- `target_minutes`. -/
def target_minutes (topic_spec : TopicSpec) (titles : List String) : List Int :=
  let min_hours := topic_spec.constraints.total_hours_min
  let max_hours0 := topic_spec.constraints.total_hours_max
  let max_hours := if Frac.lt max_hours0 min_hours then min_hours else max_hours0
  let total_minutes :=
    (Frac.mul (Frac.div (Frac.add min_hours max_hours) (Frac.ofInt 2))
      (Frac.ofInt 60)).pyRound
  distribute_minutes total_minutes titles

/-- `build_generation_spec` (on an already-parsed `TopicSpec`; the scope
document read result and the markdown extractor are explicit inputs). -/
def build_generation_spec (mp : String → List String)
    (scope_document_path scope_document_text : Option String)
    (topic_spec : TopicSpec) : GenerationSpec :=
  let count := target_nodes topic_spec
  let evidence_mode := normalize_evidence_mode (some topic_spec.evidence_mode)
  let titles := seed_titles mp topic_spec count scope_document_text
  { topic_spec := topic_spec
    topic_label := derive_topic_label topic_spec
    evidence_mode := evidence_mode
    strict_mode := evidence_mode = "strict"
    target_nodes := count
    max_prerequisites_per_node :=
      max 1 (pyOrInt topic_spec.constraints.max_prerequisites_per_node 3)
    titles := titles
    minutes := target_minutes topic_spec titles
    misconceptions := topic_spec.misconceptions
    scope_document_path := scope_document_path
    scope_document_text := scope_document_text }

end PlanSpec

/-- Maximal runs of characters satisfying `p` (models `re.findall` with a
character-class-plus pattern). -/
def splitRunsAux (p : Char → Bool) : List Char → List Char → List (List Char)
  | [], cur => if cur.isEmpty then [] else [cur.reverse]
  | c :: rest, cur =>
      if p c then splitRunsAux p rest (c :: cur)
      else if cur.isEmpty then splitRunsAux p rest []
      else cur.reverse :: splitRunsAux p rest []

/-- Maximal runs of characters satisfying `p`. -/
def splitRuns (p : Char → Bool) (l : List Char) : List (List Char) :=
  splitRunsAux p l []

/-- Character class `[a-z0-9]`. -/
def isLowerAlnum (c : Char) : Bool := ('a' ≤ c ∧ c ≤ 'z') ∨ ('0' ≤ c ∧ c ≤ '9')

/-- Keep the first occurrence of each element. -/
def dedupKeepFirst [DecidableEq α] (l : List α) : List α :=
  (l.foldl (fun (acc : List α) x => if acc.contains x then acc else acc ++ [x]) [])

/-- `_tokens` of `pedagogy_critic.py` / `content_rules.py`:
`set(re.findall(r"[a-z0-9]{4,}", text.lower()))`, as a deduplicated list. -/
def tokens4 (s : String) : List String :=
  dedupKeepFirst
    (((splitRuns isLowerAlnum (pyLower s).data).filter (fun r => 4 ≤ r.length)).map
      String.mk)

/-- Signed decimal rendering (Python `str(i)`). -/
def pyDecimalInt (i : Int) : String :=
  if i < 0 then "-" ++ pyDecimal i.natAbs else pyDecimal i.toNat

namespace NodeBuilder

/-!
Embedding of `agent/planning/node_builder.py`.  The resource resolver is the
injected collaborator `ResourceResolver`, modelled as a function from the
request dataclass to the list of normalized resource mappings it returns.
-/

inductive NodeStage where
  | foundation
  | application
  | integration
  | validation
deriving DecidableEq, Repr

/-- `_stage_for_index` (also `_stage_for_repair` in `repair_executor.py`,
which has the identical body). -/
def stage_for_index (index : Nat) (total : Int) : NodeStage :=
  if total ≤ 3 then
    if index = 0 then .foundation else if index = 1 then .application else .validation
  else if (index : Int) ≤ max 1 (total.fdiv 4) then .foundation
  else if (index : Int) ≤ max 2 ((total * 2).fdiv 4) then .application
  else if (index : Int) ≤ max 3 ((total * 3).fdiv 4) then .integration
  else .validation

/-- `node_prerequisites`. -/
def node_prerequisites (index : Nat) (total : Int) (max_prereq : Int) : List String :=
  if index = 0 then []
  else
    let stage := stage_for_index index total
    let prereqs := ["N" ++ pyDecimal index]
    let prereqs :=
      if 2 ≤ max_prereq ∧ 3 ≤ index ∧ (stage = .integration ∨ stage = .validation)
      then prereqs ++ ["N" ++ pyDecimal (index - 1)] else prereqs
    let prereqs :=
      if 3 ≤ max_prereq ∧ 5 ≤ index ∧ stage = .validation
      then prereqs ++ ["N" ++ pyDecimal (index - 3)] else prereqs
    PlanSpec.pySliceTo max_prereq (dedupKeepFirst prereqs)

/-- `re.sub(r"\s+", " ", title)`: collapse whitespace runs to one space. -/
def collapseWs (l : List Char) : List Char :=
  ((l.foldl
    (fun (acc : List Char × Bool) c =>
      if pyIsSpace c then (if acc.2 then acc else (' ' :: acc.1, true))
      else (c :: acc.1, false))
    ([], false)).1).reverse

/-- `node_capability`. -/
def node_capability (title : String) (stage : NodeStage) : String :=
  let cleaned := pyLower (pyStrip (String.mk (collapseWs title.data)))
  match stage with
  | .foundation => "Define " ++ cleaned ++ " with precise concepts and assumptions."
  | .application => "Implement " ++ cleaned ++ " in a runnable workflow."
  | .integration => "Integrate " ++ cleaned ++ " with prior components."
  | .validation =>
      "Validate " ++ cleaned ++ " end-to-end with explicit quality criteria and evidence."

/-- `node_core_ideas`. -/
def node_core_ideas (title : String) (stage : NodeStage) : List String :=
  let lower := pyLower title
  let stage_idea :=
    match stage with
    | .foundation => "Vocabulary and conceptual boundaries for reliable reasoning."
    | .application => "Implementation mechanics and failure surface of the approach."
    | .integration => "Dependency interactions and coupling management across nodes."
    | .validation => "Verification criteria, regression checks, and evidence traceability."
  ["Core mechanism of " ++ lower ++ ".",
   "Assumptions and constraints behind " ++ lower ++ ".",
   stage_idea]

/-- `node_pitfalls`. -/
def node_pitfalls (index : Nat) (misconceptions : List String) (stage : NodeStage) :
    List String :=
  match misconceptions.length with
  | 0 =>
      let stage_pitfall :=
        match stage with
        | .foundation => "Skipping precise definitions and relying on vague intuition."
        | .application => "Implementing quickly without evaluating constraints and edge cases."
        | .integration => "Combining components without explicit interface contracts."
        | .validation => "Declaring success without reproducible quality checks."
      [stage_pitfall, "Confusing familiarity with demonstrated mastery."]
  | _ + 1 =>
      let current := misconceptions.getD (index % misconceptions.length) ""
      let nxt := misconceptions.getD ((index + 1) % misconceptions.length) ""
      [current, nxt]

/-- Python `int(node_id[1:]) - 1`, the index recovered from a node id. -/
def idIndex (node_id : String) : Int :=
  (pyParseNat (String.mk (node_id.data.drop 1)) : Int) - 1

/-- `_outcome_hint` (the `index` argument is `int(node_id[1:]) - 1`; Python
`%` on a negative left operand is `Int.emod`). -/
def outcome_hint (spec : PlanSpec.GenerationSpec) (index : Int) : String :=
  match spec.topic_spec.context_pack with
  | none => "produce a concrete artifact"
  | some context =>
      if context.required_outcomes.isEmpty then "produce a concrete artifact"
      else
        let outcome := context.required_outcomes.getD
          (index.emod context.required_outcomes.length).toNat ""
        "produce `" ++ outcome ++ "`"

/-- `node_mastery`. -/
def node_mastery (node_id : String) (title : String) (stage : NodeStage)
    (spec : PlanSpec.GenerationSpec) : MasteryCheck :=
  let hint := outcome_hint spec (idIndex node_id)
  let local_hint :=
    match spec.topic_spec.context_pack with
    | none => ""
    | some context =>
        if context.local_paths.isEmpty then ""
        else
          let anchor := context.local_paths.getD
            ((idIndex node_id).emod context.local_paths.length).toNat ""
          " using `" ++ anchor ++ "` as a primary reference"
  match stage with
  | .foundation =>
      ⟨"Write a concise technical note for " ++ title ++ local_hint ++ " and " ++ hint ++
        " that states assumptions and one counterexample.",
       "Pass criteria: must include precise definitions, explicit assumptions, " ++
        "and one counterexample that demonstrates a real boundary condition."⟩
  | .application =>
      ⟨"Implement a minimal working example for " ++ title ++ local_hint ++
        ", execute it, and document one failure mode with mitigation.",
       "Pass criteria: implementation must run successfully, include interpretable " ++
        "output, and document mitigation for the stated failure mode."⟩
  | .integration =>
      ⟨"Integrate " ++ title ++ " with outputs from prerequisite nodes" ++ local_hint ++
        ", then write an interface decision record covering trade-offs.",
       "Pass criteria: integration must be functional, dependencies must be explicit, " ++
        "and trade-offs must include concrete evidence."⟩
  | .validation =>
      ⟨"Run a verification pass for " ++ title ++ local_hint ++ ": include tests, a quality " ++
        "checklist, and a short risk memo with next actions.",
       "Pass criteria: include tests/checks, explicit acceptance criteria, and a risk memo. " ++
        "Failures must be explained and next actions prioritized."⟩

/-- The request dataclass handed to the injected resource resolver. -/
structure ResourceRequest where
  topic_spec : TopicSpec
  node_id : String
  node_index : Nat
  node_title : String
  prerequisites : List String
  evidence_mode : String
  used_resource_urls : List String
deriving DecidableEq, Repr

/-- The injected `ResourceResolver` collaborator: a function from the request
to the normalized resource mappings it returns. -/
def ResourceResolver : Type := ResourceRequest → List Resource

/-- `round(x, 2)` (half to even at two decimal places). -/
def roundTo2 (x : Frac) : Frac := ⟨(Frac.mul x (Frac.ofInt 100)).pyRound, 100⟩

/-- `build_node`. -/
def build_node (index : Nat) (spec : PlanSpec.GenerationSpec)
    (resolver : ResourceResolver) (used_resource_urls : List String) : Node :=
  let node_id := "N" ++ pyDecimal (index + 1)
  let title := spec.titles.getD index ""
  let stage := stage_for_index index spec.target_nodes
  let prerequisites := node_prerequisites index spec.target_nodes spec.max_prerequisites_per_node
  let resources := resolver
    ⟨spec.topic_spec, node_id, index, title, prerequisites, spec.evidence_mode,
      used_resource_urls⟩
  let confidence :=
    if spec.strict_mode then
      let raw := Frac.add ⟨3, 5⟩ (Frac.mul (Frac.ofInt index) ⟨1, 40⟩)
      some (roundTo2 (if Frac.le ⟨9, 10⟩ raw then ⟨9, 10⟩ else raw))
    else none
  { id := node_id
    title := title
    capability := node_capability title stage
    prerequisites := prerequisites
    core_ideas := node_core_ideas title stage
    pitfalls := node_pitfalls index spec.misconceptions stage
    mastery_check := node_mastery node_id title stage spec
    estimate_minutes := spec.minutes.getD index 0
    resources := resources
    estimate_confidence := confidence }

end NodeBuilder

namespace Proposer

/-!
Embedding of `agent/planning/proposer.py` for the internal provider: the
draft assembly path that returns the synthesized payload unchanged (the
external-collaborator branch is the excluded text-generation client).
-/

/-- `node_id`. -/
def node_id (index : Int) : String := "N" ++ pyDecimalInt (index + 1)

/-- One node-assembly step of the internal-provider draft: build the node
from the sorted used-URL pool, then extend the pool with the node's
resource URLs (`acc` is the pair of built nodes and the URL pool). -/
def buildStep (spec : PlanSpec.GenerationSpec)
    (resolver : NodeBuilder.ResourceResolver)
    (acc : List Node × List String) (index : Nat) : List Node × List String :=
  let node := NodeBuilder.build_node index spec resolver (pySorted pyStrLe acc.2)
  let used := node.resources.foldl
    (fun (urls : List String) resource =>
      if urls.contains resource.url then urls else urls ++ [resource.url])
    acc.2
  (acc.1 ++ [node], used)

/-- `Proposer.propose` with `policy.provider == ModelProvider.INTERNAL`. -/
def propose (spec : PlanSpec.GenerationSpec) (resolver : NodeBuilder.ResourceResolver) :
    Curriculum :=
  let built := (List.range spec.target_nodes.toNat).foldl
    (buildStep spec resolver) ([], [])
  let open_questions :=
    if spec.strict_mode then
      some [({ question := "Which claims remain weakly evidenced or contradictory for " ++
                 "this topic under current references?"
               related_nodes := [node_id (max 0 (spec.target_nodes - 2)),
                                 node_id (spec.target_nodes - 1)]
               status := "open" } : OpenQuestion)]
    else none
  { topic := spec.topic_label, nodes := built.1, open_questions := open_questions }

end Proposer

namespace Critic

/-!
Embedding of `agent/pedagogy_critic.py` (`LLMCritic.critique`).  The
synthetic `run_json` trace call it makes through the internal client is
side-effect-free with a discarded result and is omitted.
-/

structure CriticDiagnostic where
  rule_id : String
  severity : String
  message : String
  node_id : Option String
deriving DecidableEq, Repr

structure PedagogyCritique where
  score : Int
  min_quality_met : Bool
  summary : String
  diagnostics : List CriticDiagnostic
deriving DecidableEq, Repr

/-- The fields of `PedagogyCritique.summary_dict`. -/
structure PedagogySummary where
  score : Int
  min_quality_met : Bool
  summary : String
  diagnostic_count : Nat
  high_severity_count : Nat
deriving DecidableEq, Repr

/-- `PedagogyCritique.summary_dict`. -/
def summary_dict (c : PedagogyCritique) : PedagogySummary :=
  { score := c.score
    min_quality_met := c.min_quality_met
    summary := c.summary
    diagnostic_count := c.diagnostics.length
    high_severity_count :=
      (c.diagnostics.filter (fun d => d.severity = "high" ∨ d.severity = "critical")).length }

/-- `_node_map` (dict comprehension keyed by id; a later duplicate id
overwrites the earlier binding in place). -/
def node_map_of (nodes : List Node) : List (String × Node) :=
  nodes.foldl (fun mapping node => assocUpd node.id node mapping) []

/-- `_max_prereq_estimate`. -/
def max_prereq_estimate (node : Node) (index : List (String × Node)) : Int :=
  let values := node.prerequisites.foldl
    (fun (acc : List Int) prereq =>
      match assocFind prereq index with
      | none => acc
      | some entry => acc ++ [entry.estimate_minutes])
    []
  match values with
  | [] => 0
  | v :: vs => vs.foldl max v

/-- The diagnostics `critique` emits for one node, in emission order. -/
def nodeDiagnostics (index : List (String × Node)) (node : Node) :
    List CriticDiagnostic :=
  let node_id := node.id
  let title_tokens := tokens4 node.title
  let cap_tokens := tokens4 node.capability
  let prereqs := node.prerequisites
  let d1 : List CriticDiagnostic :=
    if prereqs.isEmpty ∧
        (cap_tokens.contains "integrate" ∨ cap_tokens.contains "validate" ∨
          title_tokens.contains "integration") then
      [⟨"learner.hidden_prerequisite", "high",
        "Node appears advanced but has no prerequisites.", some node_id⟩]
    else []
  let d2 : List CriticDiagnostic :=
    if 3 ≤ prereqs.length then
      [⟨"learner.prerequisite_overload", "medium",
        "Too many prerequisites may increase novice confusion.", some node_id⟩]
    else []
  let d3 : List CriticDiagnostic :=
    if ¬ prereqs.isEmpty then
      let overlap := prereqs.foldl
        (fun (acc : Nat) prereq =>
          match assocFind prereq index with
          | none => acc
          | some prereq_node =>
              let prereq_tokens :=
                dedupKeepFirst (tokens4 prereq_node.title ++ tokens4 prereq_node.capability)
              if title_tokens.any (fun t => prereq_tokens.contains t) then acc + 1 else acc)
        0
      if overlap = 0 then
        [⟨"learner.concept_jump", "medium",
          "Weak lexical bridge with prerequisites suggests a concept jump.", some node_id⟩]
      else []
    else []
  let d4 : List CriticDiagnostic :=
    let prereq_peak := max_prereq_estimate node index
    if 0 < prereq_peak ∧
        (Frac.mul (Frac.ofInt prereq_peak) ⟨11, 5⟩).trunc < node.estimate_minutes then
      [⟨"learner.workload_jump", "medium",
        "Workload jump versus prerequisites may be too abrupt.", some node_id⟩]
    else []
  d1 ++ d2 ++ d3 ++ d4

/-- `LLMCritic.critique`. -/
def critique (curriculum : Curriculum) (_topic_spec : TopicSpec) : PedagogyCritique :=
  let nodes := curriculum.nodes
  let index := node_map_of nodes
  let diagnostics := nodes.foldl (fun acc node => acc ++ nodeDiagnostics index node) []
  let high :=
    (diagnostics.filter (fun d => d.severity = "high" ∨ d.severity = "critical")).length
  let medium := (diagnostics.filter (fun d => d.severity = "medium")).length
  let low := (diagnostics.filter (fun d => d.severity = "low")).length
  let score := max 0 (100 - (high * 18 : Int) - (medium * 9 : Int) - (low * 4 : Int))
  let met := high = 0 ∧ 72 ≤ score
  let summary :=
    if met then "Pedagogy critique indicates acceptable novice progression."
    else "Pedagogy critique found progression/coherence issues."
  { score := score, min_quality_met := met, summary := summary, diagnostics := diagnostics }

end Critic

namespace Quality

/-!
Embedding of `agent/quality_rules.py`, `agent/quality/content_rules.py` and
`agent/quality/quality_model.py`.  Each scorer returns its dimension score
together with the diagnostics it appends, in append order; `evaluate`
concatenates them in scorer order, exactly as the shared mutable list does.
-/

structure QualityDiagnostic where
  rule_id : String
  severity : String
  message : String
  node_id : Option String
  hard_fail : Bool
deriving DecidableEq, Repr

structure Dimensions where
  structural_validity : Int
  atomicity : Int
  pedagogical_progression : Int
  resource_relevance : Int
  mastery_actionability : Int
  effort_coherence : Int
  redundancy : Int
  learner_path_coherence : Int
deriving DecidableEq, Repr

structure QualityReport where
  dimensions : Dimensions
  total_score : Int
  hard_fail_count : Nat
  diagnostics : List QualityDiagnostic
deriving DecidableEq, Repr

/-- The fields of `QualityReport.score_summary`. -/
structure ScoreSummary where
  dimensions : Dimensions
  total_score : Int
  hard_fail_count : Nat
  diagnostic_count : Nat
deriving DecidableEq, Repr

/-- `QualityReport.score_summary`. -/
def score_summary (r : QualityReport) : ScoreSummary :=
  ⟨r.dimensions, r.total_score, r.hard_fail_count, r.diagnostics.length⟩

/-- One step of `contains_cycle`'s depth-first search, with state passed
explicitly: result flag, `visiting` and `visited`.  `fuel` bounds recursion
depth; the callers supply one more than the node count, which the
visited/visiting guards never exhaust. -/
def dfsCycle (nm : List (String × Node)) :
    Nat → String → List String → List String → Bool × List String × List String
  | 0, _, visiting, visited => (false, visiting, visited)
  | fuel + 1, node_id, visiting, visited =>
      if visited.contains node_id then (false, visiting, visited)
      else if visiting.contains node_id then (true, visiting, visited)
      else
        let visiting' := visiting ++ [node_id]
        let prereqs := ((assocFind node_id nm).map (·.prerequisites)).getD []
        let r := prereqs.foldl
          (fun (acc : Bool × List String × List String) prereq =>
            if acc.1 then acc
            else if (nm.map Prod.fst).contains prereq then
              dfsCycle nm fuel prereq acc.2.1 acc.2.2
            else acc)
          (false, visiting', visited)
        if r.1 then r
        else (false, r.2.1.filter (· ≠ node_id), r.2.2 ++ [node_id])

/-- `contains_cycle` (`quality_rules.py`): DFS over ids in ascending order,
short-circuiting at the first cycle. -/
def contains_cycle (nodes : List Node) : Bool :=
  let nm := nodes.foldl (fun acc node => assocUpd node.id node acc) []
  let keys := pySorted pyStrLe (nm.map Prod.fst)
  (keys.foldl
    (fun (acc : Bool × List String × List String) node_id =>
      if acc.1 then acc else dfsCycle nm (nm.length + 1) node_id acc.2.1 acc.2.2)
    (false, [], [])).1

/-- One BFS step queue loop of `max_depth`, with explicit state: indegree
function, depth map (an association list mirroring the Python dict and its
key set) and queue.  `fuel` bounds the pops and is amply supplied. -/
def bfsDepth (edges : List (String × String)) :
    Nat → (String → Int) → List (String × Int) → List String → List (String × Int)
  | 0, _, depth, _ => depth
  | _ + 1, _, depth, [] => depth
  | fuel + 1, indeg, depth, current :: rest =>
      let current_depth := (assocFind current depth).getD 0
      let step := (edges.filter (fun e => e.1 = current)).foldl
        (fun (acc : (String → Int) × List (String × Int) × List String) e =>
          let child := e.2
          let child_depth := current_depth + 1
          let depth' :=
            if (assocFind child acc.2.1).getD 0 < child_depth then
              assocUpd child child_depth acc.2.1
            else acc.2.1
          let indeg' : String → Int := fun k =>
            if k = child then acc.1 child - 1 else acc.1 k
          if acc.1 child - 1 = 0 then (indeg', depth', acc.2.2 ++ [child])
          else (indeg', depth', acc.2.2))
        (indeg, depth, [])
      bfsDepth edges fuel step.1 step.2.1 (rest ++ step.2.2)

/-- `max_depth` (`quality_rules.py`): longest-chain BFS from indegree-zero
roots.  The result is independent of the Python set-iteration order, which
the embedding fixes as first-occurrence order. -/
def max_depth (nodes : List Node) : Int :=
  let node_ids := dedupKeepFirst (nodes.map (fun n => n.id))
  let edges : List (String × String) := nodes.foldl
    (fun acc node =>
      acc ++ (node.prerequisites.filter (fun p => node_ids.contains p)).map
        (fun p => (p, node.id)))
    []
  let indeg0 : String → Int := fun k => ((edges.filter (fun e => e.2 = k)).length : Int)
  let queue0 := node_ids.filter (fun k => indeg0 k = 0)
  let depth0 : List (String × Int) := queue0.map (fun k => (k, 0))
  let depth := bfsDepth edges (edges.length + node_ids.length + 1) indeg0 depth0 queue0
  match depth with
  | [] => 0
  | p :: rest => rest.foldl (fun m q => max m q.2) p.2

end Quality

namespace Quality

/-- The per-key weights of `weighted_total`, modelled exactly. -/
def dimWeights (d : Dimensions) : List (Int × Frac) :=
  [(d.structural_validity, ⟨22, 100⟩), (d.atomicity, ⟨14, 100⟩),
   (d.pedagogical_progression, ⟨14, 100⟩), (d.resource_relevance, ⟨12, 100⟩),
   (d.mastery_actionability, ⟨14, 100⟩), (d.effort_coherence, ⟨8, 100⟩),
   (d.redundancy, ⟨8, 100⟩), (d.learner_path_coherence, ⟨8, 100⟩)]

/-- `weighted_total`: the weighted sum of the eight dimension scores,
rounded half-to-even to an integer. -/
def weighted_total (d : Dimensions) : Int :=
  ((dimWeights d).foldl
    (fun acc kw => Frac.add acc (Frac.mul (Frac.ofInt kw.1) kw.2))
    (Frac.ofInt 0)).pyRound

/-- `score_structural`: duplicate ids, dangling prerequisites and cycles;
all three diagnostics are hard fails. -/
def score_structural (nodes : List Node) : Int × List QualityDiagnostic :=
  let ids := nodes.map (fun n => n.id)
  let dup := ids.length ≠ (dedupKeepFirst ids).length
  let s0 : Int := 100
  let (s1, d1) :=
    if dup then
      (s0 - 60,
       [(⟨"structure.duplicate_node_ids", "critical", "Duplicate node IDs detected.",
          none, true⟩ : QualityDiagnostic)])
    else (s0, [])
  let (s2, d2) := nodes.foldl
    (fun (acc : Int × List QualityDiagnostic) node =>
      node.prerequisites.foldl
        (fun (acc2 : Int × List QualityDiagnostic) prereq =>
          if ids.contains prereq then acc2
          else
            (acc2.1 - 15,
             acc2.2 ++ [⟨"structure.missing_prerequisite", "critical",
               "Prerequisite " ++ prereq ++ " does not exist.", some node.id, true⟩]))
        acc)
    (s1, d1)
  let (s3, d3) :=
    if ¬ nodes.isEmpty ∧ contains_cycle nodes then
      (s2 - 50,
       d2 ++ [⟨"structure.cycle", "critical", "Cycle detected in prerequisite graph.",
         none, true⟩])
    else (s2, d2)
  (max 0 s3, d3)

/-- `score_atomicity`: compound capabilities; the threshold diagnostic is a
hard fail that does not change the score. -/
def score_atomicity (nodes : List Node) : Int × List QualityDiagnostic :=
  let step := nodes.foldl
    (fun (acc : Int × Nat × List QualityDiagnostic) node =>
      let capability := pyLower node.capability
      if pyContains capability " and " ∨ pyContains capability ";" then
        (acc.1 - 12, acc.2.1 + 1,
         acc.2.2 ++ [⟨"atomicity.compound_capability", "high",
           "Capability appears compound; should target one primary skill.",
           some node.id, false⟩])
      else acc)
    (100, 0, [])
  let d :=
    if ¬ nodes.isEmpty ∧ max 1 (nodes.length / 4) < step.2.1 then
      step.2.2 ++ [⟨"atomicity.threshold", "critical", "Too many non-atomic nodes.",
        none, true⟩]
    else step.2.2
  (max 0 step.1, d)

/-- `score_progression`: all-roots and too-shallow checks. -/
def score_progression (nodes : List Node) : Int × List QualityDiagnostic :=
  let roots := nodes.filter (fun n => n.prerequisites.isEmpty)
  let (s1, d1) :=
    if 4 ≤ nodes.length ∧ roots.length = nodes.length then
      ((100 : Int) - 45,
       [(⟨"progression.all_roots", "high", "All nodes are roots; progression is weak.",
          none, false⟩ : QualityDiagnostic)])
    else (100, [])
  let depth := max_depth nodes
  let (s2, d2) :=
    if 6 ≤ nodes.length ∧ depth < 2 then
      (s1 - 40,
       d1 ++ [⟨"progression.depth_too_shallow", "high",
         "Graph depth is too shallow for curriculum size.", none, false⟩])
    else (s1, d1)
  (max 0 s2, d2)

/-- `ACTION_VERBS` of `content_rules.py`. -/
def actionVerbs : List String :=
  ["analyze", "build", "compare", "define", "design", "document", "explain",
   "implement", "integrate", "measure", "run", "simulate", "test", "validate",
   "write"]

/-- `MEASURABLE_SIGNALS` of `content_rules.py`. -/
def measurableSignals : List String :=
  ["must ", "at least", "include", "pass", "threshold", "criteria"]

/-- `score_resource_relevance`. -/
def score_resource_relevance (nodes : List Node) (topic_spec : TopicSpec) :
    Int × List QualityDiagnostic :=
  let corpus0 := pyLower (String.intercalate " " (topic_spec.goal :: topic_spec.scope_in))
  let corpus :=
    match topic_spec.context_pack with
    | some context => corpus0 ++ " " ++ pyLower (String.intercalate " " context.focus_terms)
    | none => corpus0
  let corpus_tokens := tokens4 corpus
  let step := nodes.foldl
    (fun (acc : Int × List QualityDiagnostic × List String × Nat) node =>
      if node.resources.isEmpty then
        (acc.1 - 18,
         acc.2.1 ++ [⟨"resource.missing", "high", "Node has no resources.",
           some node.id, true⟩],
         acc.2.2.1, acc.2.2.2)
      else
        let material := pyLower (String.intercalate " "
          (node.resources.map (fun item => item.title ++ " " ++ item.url)))
        let material_tokens := tokens4 material
        let (s', d') :=
          if ¬ corpus_tokens.isEmpty ∧
              ¬ material_tokens.any (fun t => corpus_tokens.contains t) then
            (acc.1 - 8,
             acc.2.1 ++ [⟨"resource.weak_relevance", "medium",
               "Weak overlap between resources and topic context.", some node.id, false⟩])
          else (acc.1, acc.2.1)
        let urlStep := node.resources.foldl
          (fun (u : List String × Nat) resource =>
            if u.1.contains resource.url then (u.1, u.2 + 1)
            else (u.1 ++ [resource.url], u.2))
          (acc.2.2.1, acc.2.2.2)
        (s', d', urlStep.1, urlStep.2))
    (100, [], [], 0)
  let (s, d) :=
    if max 2 (nodes.length / 2) < step.2.2.2 then
      (step.1 - 10,
       step.2.1 ++ [⟨"resource.repetitive_anchor", "medium",
         "Resource anchors are highly repetitive across nodes.", none, false⟩])
    else (step.1, step.2.1)
  (max 0 s, d)

/-- `score_mastery_actionability`. -/
def score_mastery_actionability (nodes : List Node) : Int × List QualityDiagnostic :=
  let step := nodes.foldl
    (fun (acc : Int × List QualityDiagnostic) node =>
      let task := pyLower (pyStrip node.mastery_check.task)
      let criteria := pyLower (pyStrip node.mastery_check.pass_criteria)
      let acc :=
        if task.data.length < 20 ∨
            ¬ actionVerbs.any (fun verb => pyContains task (verb ++ " ")) then
          (acc.1 - 12,
           acc.2 ++ [⟨"mastery.non_actionable_task", "high",
             "Mastery task is not specific enough for implementation.",
             some node.id, true⟩])
        else acc
      if criteria.data.length < 20 ∨
          ¬ measurableSignals.any (fun token => pyContains criteria token) then
        (acc.1 - 12,
         acc.2 ++ [⟨"mastery.non_measurable_criteria", "high",
           "Pass criteria lacks measurable acceptance signals.", some node.id, true⟩])
      else acc)
    (100, [])
  (max 0 step.1, step.2)

/-- `statistics.median` of a nonempty integer list, as an exact fraction. -/
def medianFrac (estimates : List Int) : Frac :=
  let s := pySorted (fun a b => decide (a ≤ b)) estimates
  let n := s.length
  if n % 2 = 1 then Frac.ofInt (s.getD (n / 2) 0)
  else ⟨s.getD (n / 2 - 1) 0 + s.getD (n / 2) 0, 2⟩

/-- `score_effort_coherence` (every typed node's `estimate_minutes` is a
finite number, so the `is_number` filter keeps them all). -/
def score_effort_coherence (nodes : List Node) : Int × List QualityDiagnostic :=
  let estimates := nodes.map (fun n => n.estimate_minutes)
  if estimates.isEmpty then (0, [])
  else
    let (s1, d1) :=
      if 6 ≤ estimates.length ∧ (dedupKeepFirst estimates).length ≤ 2 then
        ((100 : Int) - 25,
         [(⟨"effort.flat_distribution", "medium",
            "Estimate distribution is too flat for curriculum size.", none, false⟩ :
            QualityDiagnostic)])
      else (100, [])
    let med := medianFrac estimates
    let (s2, d2) :=
      if Frac.lt (Frac.ofInt 0) med ∧
          ¬ (estimates.filter
              (fun item => Frac.lt (Frac.mul med (Frac.ofInt 3)) (Frac.ofInt item))).isEmpty
      then
        (s1 - 10,
         d1 ++ [⟨"effort.outlier", "low", "Detected very large estimate outliers.",
           none, false⟩])
      else (s1, d1)
    (max 0 s2, d2)

/-- The five-token title key of `score_redundancy`. -/
def titleKey (title : String) : String :=
  String.intercalate " "
    (((splitRuns isLowerAlnum (pyLower title).data).map String.mk).take 5)

/-- `score_redundancy`. -/
def score_redundancy (nodes : List Node) : Int × List QualityDiagnostic :=
  let keyCount := (dedupKeepFirst (nodes.map (fun n => titleKey n.title))).length
  if 6 ≤ nodes.length ∧ keyCount ≤ max 2 (nodes.length / 3) then
    ((max 0 (100 - 25) : Int),
     [(⟨"redundancy.title_repetition", "medium", "Node titles are overly repetitive.",
        none, false⟩ : QualityDiagnostic)])
  else (100, [])

/-- `score_learner_coherence`: folds the pedagogy critique into the report,
re-emitting hidden-prerequisite findings as hard fails. -/
def score_learner_coherence (pedagogy : Critic.PedagogyCritique) :
    Int × List QualityDiagnostic :=
  let step := pedagogy.diagnostics.foldl
    (fun (acc : Int × List QualityDiagnostic) item =>
      if item.rule_id = "learner.hidden_prerequisite" then
        (acc.1 - 25,
         acc.2 ++ [⟨item.rule_id, item.severity, item.message, item.node_id, true⟩])
      else if item.severity = "high" ∨ item.severity = "critical" then (acc.1 - 15, acc.2)
      else if item.severity = "medium" then (acc.1 - 8, acc.2)
      else (acc.1 - 3, acc.2))
    (100, [])
  (max 0 step.1, step.2)

/-- `DeterministicQualityJudge.evaluate`. -/
def evaluate (curriculum : Curriculum) (topic_spec : TopicSpec)
    (pedagogy : Critic.PedagogyCritique) : QualityReport :=
  let nodes := curriculum.nodes
  let (v1, d1) := score_structural nodes
  let (v2, d2) := score_atomicity nodes
  let (v3, d3) := score_progression nodes
  let (v4, d4) := score_resource_relevance nodes topic_spec
  let (v5, d5) := score_mastery_actionability nodes
  let (v6, d6) := score_effort_coherence nodes
  let (v7, d7) := score_redundancy nodes
  let (v8, d8) := score_learner_coherence pedagogy
  let dims : Dimensions := ⟨v1, v2, v3, v4, v5, v6, v7, v8⟩
  let diagnostics := d1 ++ d2 ++ d3 ++ d4 ++ d5 ++ d6 ++ d7 ++ d8
  { dimensions := dims
    total_score := weighted_total dims
    hard_fail_count := (diagnostics.filter (fun d => d.hard_fail)).length
    diagnostics := diagnostics }

end Quality

/-- Association-list update over an arbitrary decidable key type (CPython
dict assignment: replace in place, else append). -/
def assocUpdG [DecidableEq κ] (k : κ) (v : α) : List (κ × α) → List (κ × α)
  | [] => [(k, v)]
  | (k', v') :: rest =>
      if k' = k then (k, v) :: rest else (k', v') :: assocUpdG k v rest

/-- Association-list lookup over an arbitrary decidable key type. -/
def assocFindG [DecidableEq κ] (k : κ) : List (κ × α) → Option α
  | [] => none
  | (k', v) :: rest => if k' = k then some v else assocFindG k rest

/-- Python string `<` (strict code-point lexicographic order). -/
def pyStrLt (a b : String) : Bool := pyStrLe a b && a ≠ b

/-- Append the mapped element when the partial map hits (one step of the
candidate-collection loops). -/
def appendMatchStep (f : α → Option β) (acc : List β) (d : α) : List β :=
  match f d with
  | some a => acc ++ [a]
  | none => acc

namespace Repair

/-!
Embedding of `agent/repair_actions.py`, `agent/quality/planner.py` and
`agent/repair_executor.py`.
-/

inductive RepairActionType where
  | split_node
  | merge_nodes
  | rewrite_node
  | rewire_prereqs
  | retarget_resources
  | retime_node
  | reorder_nodes
deriving DecidableEq, Repr

/-- The string value of a `RepairActionType` member. -/
def RepairActionType.value : RepairActionType → String
  | .split_node => "split_node"
  | .merge_nodes => "merge_nodes"
  | .rewrite_node => "rewrite_node"
  | .rewire_prereqs => "rewire_prereqs"
  | .retarget_resources => "retarget_resources"
  | .retime_node => "retime_node"
  | .reorder_nodes => "reorder_nodes"

inductive ActionSeverity where
  | low
  | medium
  | high
  | critical
deriving DecidableEq, Repr

/-- `SEVERITY_RANK`. -/
def severityRank : ActionSeverity → Int
  | .critical => 4
  | .high => 3
  | .medium => 2
  | .low => 1

structure RepairAction where
  action_type : RepairActionType
  reason : String
  severity : ActionSeverity
  node_id : Option String
  node_a : Option String
  node_b : Option String
deriving DecidableEq, Repr

/-- `_RULE_ACTIONS`, in dict-literal order. -/
def ruleActions : List (String × RepairActionType) :=
  [("atomicity.compound_capability", .rewrite_node),
   ("atomicity.threshold", .rewrite_node),
   ("progression.all_roots", .rewire_prereqs),
   ("progression.depth_too_shallow", .rewire_prereqs),
   ("resource.weak_relevance", .retarget_resources),
   ("resource.repetitive_anchor", .retarget_resources),
   ("mastery.non_actionable_task", .rewrite_node),
   ("mastery.non_measurable_criteria", .rewrite_node),
   ("effort.flat_distribution", .retime_node),
   ("effort.outlier", .retime_node),
   ("redundancy.title_repetition", .rewrite_node),
   ("learner.hidden_prerequisite", .rewire_prereqs),
   ("learner.concept_jump", .rewrite_node),
   ("learner.workload_jump", .retime_node),
   ("learner.prerequisite_overload", .rewire_prereqs)]

/-- `_to_action_severity`. -/
def toActionSeverity (value : String) : ActionSeverity :=
  if value = "critical" then .critical
  else if value = "high" then .high
  else if value = "medium" then .medium
  else .low

/-- `RepairPlanner._action_from_quality`. -/
def actionFromQuality (d : Quality.QualityDiagnostic) : Option RepairAction :=
  match assocFind d.rule_id ruleActions with
  | none => none
  | some action_type =>
      some ⟨action_type, d.message, toActionSeverity d.severity, d.node_id, none, none⟩

/-- `RepairPlanner._action_from_critic`. -/
def actionFromCritic (d : Critic.CriticDiagnostic) : Option RepairAction :=
  match assocFind d.rule_id ruleActions with
  | none => none
  | some action_type =>
      some ⟨action_type, d.message, toActionSeverity d.severity, d.node_id, none, none⟩

/-- The single fallback action `plan` emits on an actionless low score. -/
def fallbackAction : RepairAction :=
  ⟨.reorder_nodes, "No targeted actions available; normalize progression order.",
   .low, none, none, none⟩

/-- The `sorted` key order of `plan`: severity descending, then node id
(`None` as `""`), then action-type value. -/
def planKeyLe (a b : RepairAction) : Bool :=
  if severityRank a.severity ≠ severityRank b.severity then
    decide (severityRank b.severity < severityRank a.severity)
  else if (a.node_id.getD "") ≠ (b.node_id.getD "") then
    pyStrLt (a.node_id.getD "") (b.node_id.getD "")
  else pyStrLe a.action_type.value b.action_type.value

/-- The candidate actions of `plan`: the quality diagnostics then the critic
diagnostics, each mapped through the rule table. -/
def planCandidates (report : Quality.QualityReport)
    (pedagogy : Critic.PedagogyCritique) : List RepairAction :=
  report.diagnostics.foldl (appendMatchStep actionFromQuality) []
  ++ pedagogy.diagnostics.foldl (appendMatchStep actionFromCritic) []

/-- One step of `plan`'s `(action_type, node_id)` deduplication: keep the
higher-severity instance (strictly higher replaces). -/
def planDedupStep (acc : List ((RepairActionType × Option String) × RepairAction))
    (action : RepairAction) :
    List ((RepairActionType × Option String) × RepairAction) :=
  let key := (action.action_type, action.node_id)
  match assocFindG key acc with
  | none => assocUpdG key action acc
  | some current =>
      if severityRank current.severity < severityRank action.severity then
        assocUpdG key action acc
      else acc

/-- `RepairPlanner.plan` (the planner's one field is
`max_actions_per_iteration`). -/
def plan (max_actions_per_iteration : Int) (report : Quality.QualityReport)
    (pedagogy : Critic.PedagogyCritique) : List RepairAction :=
  let deduped := (planCandidates report pedagogy).foldl planDedupStep []
  let ordered := pySorted planKeyLe (deduped.map Prod.snd)
  let selected := PlanSpec.pySliceTo max_actions_per_iteration ordered
  if selected.isEmpty ∧ report.total_score < 85 then [fallbackAction] else selected

/-- `_id_to_index`. -/
def id_to_index (node_id : String) : Int :=
  if pyStartsWith node_id "N" ∧ pyIsDigit (String.mk (node_id.data.drop 1)) then
    (pyParseNat (String.mk (node_id.data.drop 1)) : Int) - 1
  else -1

/-- ASCII upper-casing of one character (Python `str.upper` on one char). -/
def upperCh (c : Char) : Char :=
  if 'a' ≤ c ∧ c ≤ 'z' then Char.ofNat (c.toNat - 32) else c

/-- Position of the first occurrence of `needle` in `l`, if any. -/
def firstInfixPos (needle : List Char) : List Char → Option Nat
  | [] => if needle.isEmpty then some 0 else none
  | c :: rest =>
      if chListIsPrefixB needle (c :: rest) then some 0
      else match firstInfixPos needle rest with
        | some i => some (i + 1)
        | none => none

/-- Python `text.split(sep, 1)[0]`. -/
def splitFirst (text sep : String) : String :=
  match firstInfixPos sep.data text.data with
  | some i => String.mk (text.data.take i)
  | none => text

/-- `_atomic_phrase`: keep the first clause before a compound separator.
The separator scan is against the lower-cased text but the split is applied
to the original (merely stripped) text, exactly as in the source. -/
def atomic_phrase (text : String) : String :=
  let lowered := pyStrip text
  let separators : List String := [" and ", ";", " / ", " + "]
  let found := separators.foldl
    (fun (acc : Option String) separator =>
      match acc with
      | some _ => acc
      | none =>
          if pyContains (pyLower lowered) separator then
            let head := pyStrip (splitFirst lowered separator)
            if head ≠ "" then
              some (match head.data with
                | [] => ""
                | c :: rest => String.mk (upperCh c :: rest))
            else none
          else none)
    none
  match found with
  | some result => result
  | none => lowered

/-- `_collect_used_urls`. -/
def collect_used_urls (nodes : List Node) (skip_id : Option String) : List String :=
  let urls := nodes.foldl
    (fun (acc : List String) node =>
      if skip_id = some node.id then acc
      else node.resources.foldl
        (fun (inner : List String) resource =>
          if inner.contains resource.url then inner else inner ++ [resource.url])
        acc)
    []
  pySorted pyStrLe urls

/-- `_replace_node`: overwrite the first node whose id is `node_id`. -/
def replace_node (node_id : String) (payload : Node) : List Node → List Node
  | [] => []
  | node :: rest =>
      if node.id = node_id then payload :: rest
      else node :: replace_node node_id payload rest

/-- `LLMRepairExecutor._rewrite_node`. -/
def rewrite_node (node : Node) (index : Nat) (spec : PlanSpec.GenerationSpec) : Node :=
  let node_id := node.id
  let title0 := atomic_phrase node.title
  let title := if title0 = "" then spec.titles.getD index "" else title0
  let stage := NodeBuilder.stage_for_index index spec.titles.length
  let capability0 := atomic_phrase node.capability
  let capability :=
    if capability0 = "" then "Implement " ++ pyLower title ++ "." else capability0
  { node with
    title := title
    capability := capability
    core_ideas := NodeBuilder.node_core_ideas title stage
    pitfalls := NodeBuilder.node_pitfalls index spec.misconceptions stage
    mastery_check := NodeBuilder.node_mastery node_id title stage spec }

/-- `LLMRepairExecutor._retarget_resources`. -/
def retarget_resources (node : Node) (index : Nat) (nodes : List Node)
    (spec : PlanSpec.GenerationSpec) (resolver : NodeBuilder.ResourceResolver) :
    List Resource :=
  resolver
    ⟨spec.topic_spec, node.id, index, node.title, node.prerequisites,
      spec.evidence_mode, collect_used_urls nodes (some node.id)⟩

/-- `LLMRepairExecutor._retime_node`. -/
def retime_node (node : Node) (index : Nat) (nodes : List Node)
    (spec : PlanSpec.GenerationSpec) : Int :=
  let base := if index < spec.minutes.length then spec.minutes.getD index 0 else 90
  let by_id := nodes.foldl (fun acc item => assocUpd item.id item acc) []
  let prereq_estimates := node.prerequisites.foldl
    (fun (acc : List Int) prereq =>
      match assocFind prereq by_id with
      | none => acc
      | some parent => acc ++ [parent.estimate_minutes])
    []
  match prereq_estimates with
  | [] => base
  | v :: vs =>
      let anchor := vs.foldl max v
      let smoothed := max base (anchor + 10)
      min 220 smoothed

/-- The ordering key of the `reorder_nodes` stable sort:
`(len(prerequisites), id)`. -/
def reorderKeyLe (a b : Node) : Bool :=
  if a.prerequisites.length ≠ b.prerequisites.length then
    decide (a.prerequisites.length < b.prerequisites.length)
  else pyStrLe a.id b.id

/-- Processing of one repair action on the working node list
(the body of the `for action in actions` loop of `LLMRepairExecutor.apply`). -/
def applyAction (spec : PlanSpec.GenerationSpec)
    (resolver : NodeBuilder.ResourceResolver) (nodes : List Node)
    (action : RepairAction) : List Node :=
  if action.action_type = .reorder_nodes then pySorted reorderKeyLe nodes
  else
    match action.node_id with
    | none => nodes
    | some node_id =>
        let index := id_to_index node_id
        if index < 0 ∨ (nodes.length : Int) ≤ index then nodes
        else
          let i := index.toNat
          let node := nodes.getD i
            ⟨"", "", "", [], [], [], ⟨"", ""⟩, 0, [], none⟩
          let rewired :=
            NodeBuilder.node_prerequisites i (nodes.length : Int)
              spec.max_prerequisites_per_node
          let node :=
            if action.action_type = .rewrite_node then rewrite_node node i spec
            else if action.action_type = .rewire_prereqs then
              { node with prerequisites := rewired }
            else if action.action_type = .retarget_resources then
              { node with resources := retarget_resources node i nodes spec resolver }
            else if action.action_type = .retime_node then
              { node with estimate_minutes := retime_node node i nodes spec }
            else node
          replace_node node_id node nodes

/-- `LLMRepairExecutor.apply`: sequential application of the actions to a
deep copy of the curriculum. -/
def apply (curriculum : Curriculum) (actions : List RepairAction)
    (spec : PlanSpec.GenerationSpec) (resolver : NodeBuilder.ResourceResolver) :
    Curriculum :=
  let nodes := actions.foldl (applyAction spec resolver) curriculum.nodes
  { curriculum with nodes := nodes }

end Repair

namespace Loop

/-!
Embedding of `agent/model_policy.py`, `agent/quality/trace.py` and
`agent/optimizer.py`.  `LoopController` takes its five collaborators by
dependency injection and is duck-typed in the draft-curriculum payload, so
`optimize` is embedded generically over the curriculum type `γ` with the
collaborators as a structure of functions (each field is the collaborator's
method applied to the loop-constant `spec`, `resolver` and `policy`
arguments it receives).
-/

inductive ModelProvider where
  | internal
  | remote_llm
  | codex_exec
deriving DecidableEq, Repr

/-- The string value of a `ModelProvider` member. -/
def ModelProvider.value : ModelProvider → String
  | .internal => "internal"
  | .remote_llm => "remote_llm"
  | .codex_exec => "codex_exec"

structure ModelPolicy where
  provider : ModelProvider
  model_id : String
  temperature : Frac
  max_iterations : Int
  max_actions_per_iteration : Int
  target_score : Int
  timeout_seconds : Int
  retry_budget : Int
  schema_version : String
deriving DecidableEq, Repr

/-- The fields of `ModelPolicy.snapshot`. -/
structure PolicySnapshot where
  provider : String
  model : String
  temperature : Frac
  max_iterations : Int
  max_actions_per_iteration : Int
  target_score : Int
  timeout_seconds : Int
  retry_budget : Int
  schema_version : String
deriving DecidableEq, Repr

/-- `ModelPolicy.snapshot`. -/
def snapshot (p : ModelPolicy) : PolicySnapshot :=
  ⟨p.provider.value, p.model_id, p.temperature, p.max_iterations,
   p.max_actions_per_iteration, p.target_score, p.timeout_seconds, p.retry_budget,
   p.schema_version⟩

/-- `IterationTrace` (`agent/quality/trace.py`), with the summary dicts as
their typed renderings. -/
structure IterationTrace where
  iteration : Int
  model_policy : PolicySnapshot
  pedagogy_summary : Critic.PedagogySummary
  score_summary : Quality.ScoreSummary
  learner_path_diagnostics : List Quality.QualityDiagnostic
  selected_actions : List Repair.RepairAction
  post_score_summary : Quality.ScoreSummary
deriving DecidableEq, Repr

structure OptimizationTrace where
  schema_version : String
  stop_reason : String
  iterations : List IterationTrace
  best_score : Int
  accepted : Bool
deriving DecidableEq, Repr

structure OptimizeResult (γ : Type) where
  curriculum : γ
  trace : OptimizationTrace
deriving DecidableEq, Repr

/-- The injected collaborators of `LoopController`, as the functions its
loop body calls (the loop-constant `spec`, `resolver` and `policy` arguments
are already applied). -/
structure LoopComponents (γ : Type) where
  propose : γ
  critique : γ → Critic.PedagogyCritique
  evaluate : γ → Critic.PedagogyCritique → Quality.QualityReport
  plan : Quality.QualityReport → Critic.PedagogyCritique → List Repair.RepairAction
  applyRepair : γ → List Repair.RepairAction → γ

/-- The acceptance test of `LoopController.optimize`:
`hard_fail_count == 0 and total_score >= target_score and min_quality_met`. -/
def acceptCond (policy : ModelPolicy) (report : Quality.QualityReport)
    (pedagogy : Critic.PedagogyCritique) : Prop :=
  report.hard_fail_count = 0 ∧ policy.target_score ≤ report.total_score ∧
    pedagogy.min_quality_met

instance (policy : ModelPolicy) (report : Quality.QualityReport)
    (pedagogy : Critic.PedagogyCritique) :
    Decidable (acceptCond policy report pedagogy) := by
  unfold acceptCond; infer_instance

/-- The trace entry built for one iteration. -/
def mkEntry (policy : ModelPolicy) (iteration : Int)
    (pedagogy : Critic.PedagogyCritique) (report : Quality.QualityReport)
    (actions : List Repair.RepairAction) : IterationTrace :=
  { iteration := iteration
    model_policy := snapshot policy
    pedagogy_summary := Critic.summary_dict pedagogy
    score_summary := Quality.score_summary report
    learner_path_diagnostics :=
      report.diagnostics.filter (fun d => pyStartsWith d.rule_id "learner.")
    selected_actions := actions
    post_score_summary := Quality.score_summary report }

/-- The loop state at exit: `best`, `accepted`, `stop_reason`, the
iteration traces and `best_score`. -/
structure LoopOut (γ : Type) where
  best : γ
  accepted : Bool
  stop_reason : String
  iterations : List IterationTrace
  best_score : Int

/-- The iteration loop of `LoopController.optimize` (`for iteration in
range(1, max_iterations + 1)` with its two `break`s), with the loop state
passed explicitly. -/
def loopGo {γ : Type} (c : LoopComponents γ) (policy : ModelPolicy) :
    Nat → Int → γ → γ → Int → List IterationTrace → LoopOut γ
  | 0, _, _, best, best_score, iterations =>
      ⟨best, false, "max_iterations_reached", iterations, best_score⟩
  | remaining + 1, iteration, draft, best, best_score, iterations =>
      let pedagogy := c.critique draft
      let report := c.evaluate draft pedagogy
      let best' := if best_score < report.total_score then draft else best
      let best_score' :=
        if best_score < report.total_score then report.total_score else best_score
      let actions := c.plan report pedagogy
      let iterations' := iterations ++ [mkEntry policy iteration pedagogy report actions]
      if acceptCond policy report pedagogy then
        ⟨best', true, "accepted_threshold_met", iterations', best_score'⟩
      else if actions.isEmpty then
        ⟨best', false, "no_actions_available", iterations', best_score'⟩
      else
        loopGo c policy remaining (iteration + 1) (c.applyRepair draft actions)
          best' best_score' iterations'

/-- `LoopController.optimize`. -/
def optimize {γ : Type} (c : LoopComponents γ) (policy : ModelPolicy) :
    OptimizeResult γ :=
  let draft := c.propose
  let r := loopGo c policy policy.max_iterations.toNat 1 draft draft (-1) []
  { curriculum := r.best
    trace :=
      { schema_version := policy.schema_version
        stop_reason := r.stop_reason
        iterations := r.iterations
        best_score := max 0 r.best_score
        accepted := r.accepted } }

/-- The acceptance test of an iteration as recorded in its trace entry:
no hard fails, total score at threshold, critic gate met. -/
def entryAccept (policy : ModelPolicy) (it : IterationTrace) : Prop :=
  it.score_summary.hard_fail_count = 0 ∧
    policy.target_score ≤ it.score_summary.total_score ∧
    it.pedagogy_summary.min_quality_met = true

/-- Observer of the same loop: the sequence of drafts `optimize` judges,
in iteration order (the drafts `c.evaluate` is called on). -/
def draftsGo {γ : Type} (c : LoopComponents γ) (policy : ModelPolicy) :
    Nat → γ → List γ
  | 0, _ => []
  | remaining + 1, draft =>
      let pedagogy := c.critique draft
      let report := c.evaluate draft pedagogy
      let actions := c.plan report pedagogy
      if acceptCond policy report pedagogy then [draft]
      else if actions.isEmpty then [draft]
      else draft :: draftsGo c policy remaining (c.applyRepair draft actions)

/-- The judged drafts of one `optimize` run. -/
def judgedDrafts {γ : Type} (c : LoopComponents γ) (policy : ModelPolicy) : List γ :=
  draftsGo c policy policy.max_iterations.toNat c.propose

/-- The recomputed quality total score of a draft: judge it again on its
fresh critique. -/
def recompute {γ : Type} (c : LoopComponents γ) (draft : γ) : Int :=
  (c.evaluate draft (c.critique draft)).total_score

/-- Immediate acceptance: the very first judged iteration meets the
acceptance test. -/
def immediateAccept {γ : Type} (c : LoopComponents γ) (policy : ModelPolicy) : Prop :=
  acceptCond policy (c.evaluate c.propose (c.critique c.propose))
    (c.critique c.propose)

end Loop

namespace Pipeline

/-!
The internal-provider pipeline wiring: `LoopController` driven by the
concrete `Proposer`, `LLMCritic`, `DeterministicQualityJudge`,
`RepairPlanner` and `LLMRepairExecutor`, on a generation spec built by
`build_generation_spec`.
-/

/-- The concrete collaborators for one run, with the loop-constant `spec`,
`resolver` and `policy` arguments applied. -/
def components (spec : PlanSpec.GenerationSpec)
    (resolver : NodeBuilder.ResourceResolver) (policy : Loop.ModelPolicy) :
    Loop.LoopComponents Curriculum :=
  { propose := Proposer.propose spec resolver
    critique := fun draft => Critic.critique draft spec.topic_spec
    evaluate := fun draft pedagogy => Quality.evaluate draft spec.topic_spec pedagogy
    plan := fun report pedagogy =>
      Repair.plan policy.max_actions_per_iteration report pedagogy
    applyRepair := fun draft actions => Repair.apply draft actions spec resolver }

/-- One full internal-provider pipeline run on a topic spec: build the
generation spec, then `optimize`. -/
def run (mp : String → List String) (scope_path scope_text : Option String)
    (ts : TopicSpec) (resolver : NodeBuilder.ResourceResolver)
    (policy : Loop.ModelPolicy) : Loop.OptimizeResult Curriculum :=
  Loop.optimize
    (components (PlanSpec.build_generation_spec mp scope_path scope_text ts)
      resolver policy)
    policy

end Pipeline

namespace Ex

/-! Concrete inputs used by witnesses and counterexamples. -/

/-- A small topic spec: one node, a 10-hour budget. -/
def ts1 : TopicSpec :=
  { spec_version := "1.0"
    goal := "g"
    audience := "a"
    prerequisites := []
    scope_in := []
    scope_out := []
    constraints :=
      { hours_per_week := ⟨6, 1⟩
        total_hours_min := ⟨10, 1⟩
        total_hours_max := ⟨10, 1⟩
        depth := "practical"
        node_count_min := some 1
        node_count_max := some 1
        max_prerequisites_per_node := none }
    domain_mode := "mature"
    evidence_mode := "minimal"
    misconceptions := []
    context_pack := none }

/-- The same topic spec with an inverted hour range
(`total_hours_max < total_hours_min`). -/
def tsInverted : TopicSpec :=
  { ts1 with constraints := { ts1.constraints with total_hours_max := ⟨0, 1⟩ } }

/-- A stub resolver returning one fixed resource. -/
def resolver1 : NodeBuilder.ResourceResolver :=
  fun _ => [{ title := "R", url := "u", kind := "article", role := "definition",
              citation := none }]

/-- A small policy for the internal provider. -/
def policy1 : Loop.ModelPolicy :=
  { provider := .internal
    model_id := "internal-heuristic-v1"
    temperature := ⟨0, 1⟩
    max_iterations := 1
    max_actions_per_iteration := 4
    target_score := 82
    timeout_seconds := 30
    retry_budget := 1
    schema_version := "1.0" }

/-- The trivial markdown extractor (no scope document is ever supplied). -/
def mp0 : String → List String := fun _ => []

end Ex

namespace Ex

/-- A single node carrying id `"N2"` (so the node list order disagrees with
the position its id encodes). -/
def nodeC6 : Node :=
  { id := "N2", title := "t", capability := "c", prerequisites := []
    core_ideas := ["i1"], pitfalls := ["p1"], mastery_check := ⟨"mt", "mc"⟩
    estimate_minutes := 10
    resources := [{ title := "R", url := "u", kind := "article", role := "definition",
                    citation := none }]
    estimate_confidence := none }

/-- A one-node curriculum whose only node is `nodeC6`. -/
def curC6 : Curriculum := ⟨"topic", [nodeC6], none⟩

/-- The generation spec built from `ts1` (one node, 600 total minutes). -/
def specC6 : PlanSpec.GenerationSpec :=
  PlanSpec.build_generation_spec mp0 none none ts1

/-- A retime action targeting node `"N2"`. -/
def actC6 : Repair.RepairAction := ⟨.retime_node, "r", .medium, some "N2", none, none⟩

/-- A reorder action. -/
def actC6r : Repair.RepairAction := ⟨.reorder_nodes, "r", .low, none, none, none⟩

/-- Toy loop collaborators over `Nat` drafts: scores equal the draft value,
the critic gate never passes, the planner always returns one action, repair
increments the draft. -/
def toyC : Loop.LoopComponents Nat :=
  { propose := 0
    critique := fun _ => ⟨100, false, "s", []⟩
    evaluate := fun d _ => ⟨⟨100, 100, 100, 100, 100, 100, 100, 100⟩, (d : Int), 0, []⟩
    plan := fun _ _ => [actC6r]
    applyRepair := fun d _ => d + 1 }

/-- A two-iteration policy for the toy components. -/
def toyP : Loop.ModelPolicy := { policy1 with max_iterations := 2 }

/-- A cyclic graph whose only resolvable node is `"B"`: `"A"` and `"C"`
require each other. -/
def cycNodes : List Dag.DagNode :=
  [⟨some "B", some []⟩, ⟨some "A", some ["C"]⟩, ⟨some "C", some ["A"]⟩]

/-- An acyclic graph with a tie: after `"A"` and `"B"` are processed both
`"C"` (needs `"B"`) and `"X"` (needs `"A"`) are available, and `"C"` < `"X"`
while `"X"` was enqueued first. -/
def tieNodes : List Dag.DagNode :=
  [⟨some "A", some []⟩, ⟨some "B", some []⟩, ⟨some "C", some ["B"]⟩,
   ⟨some "X", some ["A"]⟩]

end Ex

/-! ## Claim theorems -/

/-- The normalized evidence mode is the trimmed, lower-cased raw value when
that lands in the allowed set, else `"minimal"`. -/
theorem normalize_evidence_mode_spec (s : String) :
    PlanSpec.normalize_evidence_mode (some s) =
      (if s = "" then "minimal"
       else if pyLower (pyStrip s) = "minimal" ∨ pyLower (pyStrip s) = "standard" ∨
           pyLower (pyStrip s) = "strict" then pyLower (pyStrip s)
       else "minimal") := by
  unfold PlanSpec.normalize_evidence_mode
  by_cases h : s = ""
  · subst h; decide
  · simp [h]

/-- The `evidence_mode` field of a built generation spec. -/
theorem build_generation_spec_evidence (mp : String → List String)
    (sp st : Option String) (ts : TopicSpec) :
    (PlanSpec.build_generation_spec mp sp st ts).evidence_mode =
      PlanSpec.normalize_evidence_mode (some ts.evidence_mode) := rfl

/-- The `strict_mode` field of a built generation spec. -/
theorem build_generation_spec_strict (mp : String → List String)
    (sp st : Option String) (ts : TopicSpec) :
    (PlanSpec.build_generation_spec mp sp st ts).strict_mode =
      decide ((PlanSpec.build_generation_spec mp sp st ts).evidence_mode = "strict") := rfl

/-- C10: `build_generation_spec` normalizes `evidence_mode` by trimming and
lower-casing; any raw value outside `{"minimal", "standard", "strict"}` —
including a missing or `None` mapping entry, which `TopicSpec.from_mapping`
renders as `"minimal"` resp. `"None"` — is silently mapped to `"minimal"`,
and `strict_mode` holds exactly when the normalized mode is `"strict"`. -/
theorem C10_evidence_mode_normalization
    (raw : PlanSpec.EvRaw) (mp : String → List String) (sp st : Option String)
    (ts : TopicSpec) (hev : ts.evidence_mode = PlanSpec.evidenceFieldOfRaw raw) :
    let g := PlanSpec.build_generation_spec mp sp st ts
    (g.evidence_mode = "minimal" ∨ g.evidence_mode = "standard" ∨
      g.evidence_mode = "strict")
    ∧ (¬ (pyLower (pyStrip ts.evidence_mode) = "minimal" ∨
          pyLower (pyStrip ts.evidence_mode) = "standard" ∨
          pyLower (pyStrip ts.evidence_mode) = "strict") →
        g.evidence_mode = "minimal")
    ∧ (ts.evidence_mode ≠ "" →
        (pyLower (pyStrip ts.evidence_mode) = "minimal" ∨
          pyLower (pyStrip ts.evidence_mode) = "standard" ∨
          pyLower (pyStrip ts.evidence_mode) = "strict") →
        g.evidence_mode = pyLower (pyStrip ts.evidence_mode))
    ∧ ((raw = .missing ∨ raw = .pynone) → g.evidence_mode = "minimal")
    ∧ (g.strict_mode = true ↔ g.evidence_mode = "strict") := by
  intro g
  have hg : g.evidence_mode =
      (if ts.evidence_mode = "" then "minimal"
       else if pyLower (pyStrip ts.evidence_mode) = "minimal" ∨
           pyLower (pyStrip ts.evidence_mode) = "standard" ∨
           pyLower (pyStrip ts.evidence_mode) = "strict" then
         pyLower (pyStrip ts.evidence_mode)
       else "minimal") := by
    show (PlanSpec.build_generation_spec mp sp st ts).evidence_mode = _
    rw [build_generation_spec_evidence, normalize_evidence_mode_spec]
  refine ⟨?_, ?_, ?_, ?_, ?_⟩
  · rw [hg]
    by_cases h0 : ts.evidence_mode = ""
    · simp [h0]
    · by_cases hm : pyLower (pyStrip ts.evidence_mode) = "minimal" ∨
          pyLower (pyStrip ts.evidence_mode) = "standard" ∨
          pyLower (pyStrip ts.evidence_mode) = "strict"
      · simp only [h0, hm, if_true, if_false, ite_true, ite_false]
      · simp [h0, hm]
  · intro hout
    rw [hg]
    by_cases h0 : ts.evidence_mode = ""
    · simp [h0]
    · simp [h0, hout]
  · intro h0 hin
    rw [hg]
    simp [h0, hin]
  · intro hraw
    rw [hg, hev]
    rcases hraw with h | h <;> (subst h; decide)
  · rw [show g.strict_mode = decide (g.evidence_mode = "strict") from rfl]
    constructor
    · intro h; exact of_decide_eq_true h
    · intro h; exact decide_eq_true h

/-- Witness for C10 at the `None` raw value: the built spec's evidence mode
is `"minimal"` and strict mode is off. -/
theorem C10_witness :
    (PlanSpec.build_generation_spec Ex.mp0 none none
      { Ex.ts1 with evidence_mode := "None" }).evidence_mode = "minimal" :=
  (C10_evidence_mode_normalization .pynone Ex.mp0 none none
    { Ex.ts1 with evidence_mode := "None" } rfl).2.2.2.1 (Or.inr rfl)

/-- C8: the Pedagogy Critic's score is
`max(0, 100 - 18*high - 9*medium - 4*low)` over the diagnostics it emits
(`high` counting both `high` and `critical` severities), and
`min_quality_met` holds exactly when there are no high/critical diagnostics
and the score is at least 72. -/
theorem C8_critic_score_and_gate (cur : Curriculum) (ts : TopicSpec) :
    (Critic.critique cur ts).score =
      max 0 (100
        - 18 * (((Critic.critique cur ts).diagnostics.filter
            (fun d => d.severity = "high" ∨ d.severity = "critical")).length : Int)
        - 9 * (((Critic.critique cur ts).diagnostics.filter
            (fun d => d.severity = "medium")).length : Int)
        - 4 * (((Critic.critique cur ts).diagnostics.filter
            (fun d => d.severity = "low")).length : Int))
    ∧ ((Critic.critique cur ts).min_quality_met = true ↔
        ((Critic.critique cur ts).diagnostics.filter
            (fun d => d.severity = "high" ∨ d.severity = "critical")).length = 0 ∧
          72 ≤ (Critic.critique cur ts).score) := by
  constructor
  · have base : (Critic.critique cur ts).score =
        max 0 (100
          - (((Critic.critique cur ts).diagnostics.filter
              (fun d => d.severity = "high" ∨ d.severity = "critical")).length : Int) * 18
          - (((Critic.critique cur ts).diagnostics.filter
              (fun d => d.severity = "medium")).length : Int) * 9
          - (((Critic.critique cur ts).diagnostics.filter
              (fun d => d.severity = "low")).length : Int) * 4) := rfl
    rw [base]
    congr 1
    ring
  · have base : (Critic.critique cur ts).min_quality_met =
        decide (((Critic.critique cur ts).diagnostics.filter
            (fun d => d.severity = "high" ∨ d.severity = "critical")).length = 0 ∧
          72 ≤ (Critic.critique cur ts).score) := rfl
    rw [base]
    simp

/-- The accumulate-matches fold is `filterMap`. -/
theorem foldl_appendMatch (f : α → Option β) :
    ∀ (l : List α) (acc : List β),
      l.foldl (appendMatchStep f) acc = acc ++ l.filterMap f
  | [], acc => by simp
  | d :: rest, acc => by
      cases h : f d <;>
        simp [List.foldl_cons, List.filterMap_cons, appendMatchStep, h,
          foldl_appendMatch f rest]

theorem insertLe_length (le : α → α → Bool) (x : α) :
    ∀ l : List α, (insertLe le x l).length = l.length + 1
  | [] => rfl
  | y :: ys => by
      unfold insertLe
      by_cases h : le y x = true <;> simp [h, insertLe_length le x ys]

theorem pySorted_length (le : α → α → Bool) :
    ∀ l : List α, (pySorted le l).length = l.length
  | [] => rfl
  | x :: xs => by simp [pySorted, insertLe_length, pySorted_length le xs]

theorem mem_insertLe (le : α → α → Bool) (x y : α) :
    ∀ l : List α, (y ∈ insertLe le x l ↔ y = x ∨ y ∈ l)
  | [] => by simp [insertLe]
  | z :: zs => by
      unfold insertLe
      by_cases h : le z x = true <;> simp [h, mem_insertLe le x y zs] <;> tauto

theorem mem_pySorted (le : α → α → Bool) (y : α) :
    ∀ l : List α, (y ∈ pySorted le l ↔ y ∈ l)
  | [] => Iff.rfl
  | x :: xs => by simp [pySorted, mem_insertLe, mem_pySorted le y xs]

theorem assocFind_mem {α : Type} (k : String) (v : α) :
    ∀ l : List (String × α), assocFind k l = some v → (k, v) ∈ l
  | [] => by simp [assocFind]
  | (k', v') :: rest => by
      unfold assocFind
      by_cases h : k' = k
      · intro hv
        simp [h] at hv
        simp [h, hv]
      · intro hv
        simp [h] at hv
        exact List.mem_cons_of_mem _ (assocFind_mem k v rest hv)

theorem assocUpdG_ne_nil [DecidableEq κ] (k : κ) (v : α) :
    ∀ l : List (κ × α), assocUpdG k v l ≠ []
  | [] => by simp [assocUpdG]
  | (k', v') :: rest => by
      unfold assocUpdG
      by_cases h : k' = k <;> simp [h]

theorem assocFindG_ne_nil [DecidableEq κ] (k : κ) (v : α) (l : List (κ × α))
    (h : assocFindG k l = some v) : l ≠ [] := by
  cases l with
  | nil => simp [assocFindG] at h
  | cons p rest => simp

theorem mem_assocUpdG [DecidableEq κ] (k : κ) (v : α) (p : κ × α) :
    ∀ l : List (κ × α), p ∈ assocUpdG k v l → p = (k, v) ∨ p ∈ l
  | [] => by simp [assocUpdG]
  | (k', v') :: rest => by
      unfold assocUpdG
      by_cases h : k' = k
      · simp [h]
        tauto
      · simp [h]
        intro hp
        rcases hp with hp | hp
        · exact Or.inr (Or.inl hp)
        · rcases mem_assocUpdG k v p rest hp with h1 | h1
          · exact Or.inl h1
          · exact Or.inr (Or.inr h1)

/-- Every rule-table action type is a targeted action, never a reorder. -/
theorem ruleActions_no_reorder (r : String) (t : Repair.RepairActionType)
    (h : assocFind r Repair.ruleActions = some t) : t ≠ .reorder_nodes := by
  have hm := assocFind_mem r t Repair.ruleActions h
  have : ∀ p ∈ Repair.ruleActions, p.2 ≠ Repair.RepairActionType.reorder_nodes := by
    decide
  exact this _ hm

/-- `planCandidates` as a `filterMap`. -/
theorem planCandidates_eq (report : Quality.QualityReport)
    (pedagogy : Critic.PedagogyCritique) :
    Repair.planCandidates report pedagogy =
      report.diagnostics.filterMap Repair.actionFromQuality ++
        pedagogy.diagnostics.filterMap Repair.actionFromCritic := by
  unfold Repair.planCandidates
  rw [foldl_appendMatch, foldl_appendMatch]
  simp

/-- Candidate actions always carry a rule-table action type. -/
theorem planCandidates_no_reorder (report : Quality.QualityReport)
    (pedagogy : Critic.PedagogyCritique) (a : Repair.RepairAction)
    (ha : a ∈ Repair.planCandidates report pedagogy) :
    a.action_type ≠ .reorder_nodes := by
  rw [planCandidates_eq] at ha
  rcases List.mem_append.1 ha with h | h
  · rcases List.mem_filterMap.1 h with ⟨d, _, hd⟩
    unfold Repair.actionFromQuality at hd
    cases hfind : assocFind d.rule_id Repair.ruleActions with
    | none => rw [hfind] at hd; exact absurd hd (by simp)
    | some t =>
        rw [hfind] at hd
        simp at hd
        have := ruleActions_no_reorder _ _ hfind
        rw [← hd]
        exact this
  · rcases List.mem_filterMap.1 h with ⟨d, _, hd⟩
    unfold Repair.actionFromCritic at hd
    cases hfind : assocFind d.rule_id Repair.ruleActions with
    | none => rw [hfind] at hd; exact absurd hd (by simp)
    | some t =>
        rw [hfind] at hd
        simp at hd
        have := ruleActions_no_reorder _ _ hfind
        rw [← hd]
        exact this

theorem planDedupStep_ne_nil
    (acc : List ((Repair.RepairActionType × Option String) × Repair.RepairAction))
    (a : Repair.RepairAction) : Repair.planDedupStep acc a ≠ [] := by
  unfold Repair.planDedupStep
  dsimp only
  split
  · exact assocUpdG_ne_nil _ _ _
  · split
    · exact assocUpdG_ne_nil _ _ _
    · rename_i current heq _
      exact assocFindG_ne_nil _ _ _ heq

theorem foldl_planDedup_ne_nil :
    ∀ (l : List Repair.RepairAction)
      (acc : List ((Repair.RepairActionType × Option String) × Repair.RepairAction)),
      acc ≠ [] → l.foldl Repair.planDedupStep acc ≠ []
  | [], acc => fun h => h
  | a :: rest, acc => fun _ =>
      foldl_planDedup_ne_nil rest (Repair.planDedupStep acc a) (planDedupStep_ne_nil acc a)

theorem planDedup_values (p : (Repair.RepairActionType × Option String) × Repair.RepairAction) :
    ∀ (l : List Repair.RepairAction)
      (acc : List ((Repair.RepairActionType × Option String) × Repair.RepairAction)),
      p ∈ l.foldl Repair.planDedupStep acc → p.2 ∈ l ∨ p ∈ acc
  | [], acc => fun h => Or.inr h
  | a :: rest, acc => by
      intro h
      rcases planDedup_values p rest (Repair.planDedupStep acc a) h with h1 | h1
      · exact Or.inl (List.mem_cons_of_mem _ h1)
      · unfold Repair.planDedupStep at h1
        dsimp only at h1
        split at h1
        · rcases mem_assocUpdG _ _ _ _ h1 with h2 | h2
          · rw [h2]
            exact Or.inl (List.mem_cons_self _ _)
          · exact Or.inr h2
        · split at h1
          · rcases mem_assocUpdG _ _ _ _ h1 with h2 | h2
            · rw [h2]
              exact Or.inl (List.mem_cons_self _ _)
            · exact Or.inr h2
          · exact Or.inr h1

theorem actionFromQuality_none (d : Quality.QualityDiagnostic) :
    Repair.actionFromQuality d = none ↔
      assocFind d.rule_id Repair.ruleActions = none := by
  unfold Repair.actionFromQuality
  cases assocFind d.rule_id Repair.ruleActions <;> simp

theorem actionFromCritic_none (d : Critic.CriticDiagnostic) :
    Repair.actionFromCritic d = none ↔
      assocFind d.rule_id Repair.ruleActions = none := by
  unfold Repair.actionFromCritic
  cases assocFind d.rule_id Repair.ruleActions <;> simp

/-- No-actionable-diagnostics characterization of an empty candidate list. -/
theorem planCandidates_eq_nil (report : Quality.QualityReport)
    (pedagogy : Critic.PedagogyCritique) :
    Repair.planCandidates report pedagogy = [] ↔
      ((∀ d ∈ report.diagnostics, assocFind d.rule_id Repair.ruleActions = none) ∧
        ∀ d ∈ pedagogy.diagnostics, assocFind d.rule_id Repair.ruleActions = none) := by
  rw [planCandidates_eq, List.append_eq_nil, List.filterMap_eq_nil_iff,
    List.filterMap_eq_nil_iff]
  constructor
  · rintro ⟨h1, h2⟩
    exact ⟨fun d hd => (actionFromQuality_none d).1 (h1 d hd),
      fun d hd => (actionFromCritic_none d).1 (h2 d hd)⟩
  · rintro ⟨h1, h2⟩
    exact ⟨fun d hd => (actionFromQuality_none d).2 (h1 d hd),
      fun d hd => (actionFromCritic_none d).2 (h2 d hd)⟩

theorem pySliceTo_nil (n : Int) : PlanSpec.pySliceTo n ([] : List α) = [] := by
  unfold PlanSpec.pySliceTo
  split <;> simp

theorem pySliceTo_ne_nil (n : Int) (l : List α) (hn : 1 ≤ n) (hl : l ≠ []) :
    PlanSpec.pySliceTo n l ≠ [] := by
  unfold PlanSpec.pySliceTo
  have h0 : (0 : Int) ≤ n := le_trans (by norm_num) hn
  simp only [h0, if_true]
  cases l with
  | nil => exact absurd rfl hl
  | cons x xs =>
      have : 1 ≤ n.toNat := by omega
      cases hnat : n.toNat with
      | zero => omega
      | succ m => simp [List.take_succ_cons]

/-- C7: with a positive action budget, `RepairPlanner.plan` returns exactly
the single low-severity `reorder_nodes` fallback when no diagnostic is
actionable and the total score is below 85, and the empty plan when no
diagnostic is actionable and the total score is at least 85. -/
theorem C7_planner_fallback_gate (max_actions : Int)
    (report : Quality.QualityReport) (pedagogy : Critic.PedagogyCritique)
    (hmax : 1 ≤ max_actions) :
    (Repair.plan max_actions report pedagogy = [Repair.fallbackAction] ↔
      ((∀ d ∈ report.diagnostics, assocFind d.rule_id Repair.ruleActions = none) ∧
        (∀ d ∈ pedagogy.diagnostics, assocFind d.rule_id Repair.ruleActions = none) ∧
        report.total_score < 85))
    ∧ (Repair.plan max_actions report pedagogy = [] ↔
      ((∀ d ∈ report.diagnostics, assocFind d.rule_id Repair.ruleActions = none) ∧
        (∀ d ∈ pedagogy.diagnostics, assocFind d.rule_id Repair.ruleActions = none) ∧
        85 ≤ report.total_score)) := by
  by_cases hc : Repair.planCandidates report pedagogy = []
  · have hna := (planCandidates_eq_nil report pedagogy).1 hc
    have hplan : Repair.plan max_actions report pedagogy =
        (if report.total_score < 85 then [Repair.fallbackAction] else []) := by
      unfold Repair.plan
      rw [hc]
      simp only [List.foldl_nil, List.map_nil]
      rw [show pySorted Repair.planKeyLe ([] : List Repair.RepairAction) = [] from rfl,
        pySliceTo_nil]
      simp
    rw [hplan]
    by_cases hs : report.total_score < 85
    · rw [if_pos hs]
      constructor
      · constructor
        · intro _; exact ⟨hna.1, hna.2, hs⟩
        · intro _; rfl
      · constructor
        · intro h; exact absurd h (by simp)
        · rintro ⟨-, -, h3⟩; omega
    · rw [if_neg hs]
      constructor
      · constructor
        · intro h; exact absurd h.symm (by simp)
        · rintro ⟨-, -, h3⟩; omega
      · constructor
        · intro _; exact ⟨hna.1, hna.2, by omega⟩
        · intro _; rfl
  · have hrhs : ¬ ((∀ d ∈ report.diagnostics,
        assocFind d.rule_id Repair.ruleActions = none) ∧
        (∀ d ∈ pedagogy.diagnostics, assocFind d.rule_id Repair.ruleActions = none)) := by
      intro h
      exact hc ((planCandidates_eq_nil report pedagogy).2 h)
    have hdedup : (Repair.planCandidates report pedagogy).foldl Repair.planDedupStep []
        ≠ [] := by
      cases hcs : Repair.planCandidates report pedagogy with
      | nil => exact absurd hcs hc
      | cons a rest =>
          rw [List.foldl_cons]
          exact foldl_planDedup_ne_nil rest _ (planDedupStep_ne_nil [] a)
    have hord : pySorted Repair.planKeyLe
        (((Repair.planCandidates report pedagogy).foldl Repair.planDedupStep []).map
          Prod.snd) ≠ [] := by
      intro h
      have hlen := pySorted_length Repair.planKeyLe
        (((Repair.planCandidates report pedagogy).foldl Repair.planDedupStep []).map
          Prod.snd)
      rw [h] at hlen
      simp only [List.length_nil, List.length_map] at hlen
      exact hdedup (List.length_eq_zero.1 hlen.symm)
    have hsel : PlanSpec.pySliceTo max_actions
        (pySorted Repair.planKeyLe
          (((Repair.planCandidates report pedagogy).foldl Repair.planDedupStep []).map
            Prod.snd)) ≠ [] := pySliceTo_ne_nil _ _ hmax hord
    have hplan : Repair.plan max_actions report pedagogy =
        PlanSpec.pySliceTo max_actions
          (pySorted Repair.planKeyLe
            (((Repair.planCandidates report pedagogy).foldl Repair.planDedupStep []).map
              Prod.snd)) := by
      unfold Repair.plan
      have : (PlanSpec.pySliceTo max_actions
          (pySorted Repair.planKeyLe
            (((Repair.planCandidates report pedagogy).foldl Repair.planDedupStep []).map
              Prod.snd))).isEmpty = false := by
        rw [List.isEmpty_eq_false_iff_exists_mem]
        cases hx : PlanSpec.pySliceTo max_actions
            (pySorted Repair.planKeyLe
              (((Repair.planCandidates report pedagogy).foldl
                  Repair.planDedupStep []).map Prod.snd)) with
        | nil => exact absurd hx hsel
        | cons x xs => exact ⟨x, by simp [hx]⟩
      simp [this]
    have hmem : ∀ a ∈ Repair.plan max_actions report pedagogy,
        a.action_type ≠ Repair.RepairActionType.reorder_nodes := by
      intro a ha
      rw [hplan] at ha
      have h1 : a ∈ pySorted Repair.planKeyLe
          (((Repair.planCandidates report pedagogy).foldl Repair.planDedupStep []).map
            Prod.snd) := by
        revert ha
        unfold PlanSpec.pySliceTo
        split
        · exact fun ha => List.take_subset _ _ ha
        · exact fun ha => List.take_subset _ _ ha
      rw [mem_pySorted] at h1
      rcases List.mem_map.1 h1 with ⟨p, hp, hpa⟩
      rcases planDedup_values p _ _ hp with h2 | h2
      · rw [← hpa]
        exact planCandidates_no_reorder report pedagogy p.2 h2
      · simp at h2
    constructor
    · constructor
      · intro h
        have : Repair.fallbackAction ∈ Repair.plan max_actions report pedagogy := by
          rw [h]; exact List.mem_cons_self _ _
        exact absurd rfl (hmem _ this)
      · rintro ⟨h1, h2, _⟩
        exact absurd ⟨h1, h2⟩ hrhs
    · constructor
      · intro h
        rw [hplan] at h
        exact absurd h hsel
      · rintro ⟨h1, h2, _⟩
        exact absurd ⟨h1, h2⟩ hrhs

/-- Witness for C7: on an empty report with a sub-85 score the plan is the
single reorder fallback; with a score of 90 it is empty. -/
theorem C7_witness :
    Repair.plan 4 ⟨⟨100, 100, 100, 100, 100, 100, 100, 100⟩, 80, 0, []⟩
        ⟨100, true, "s", []⟩ = [Repair.fallbackAction] ∧
      Repair.plan 4 ⟨⟨100, 100, 100, 100, 100, 100, 100, 100⟩, 90, 0, []⟩
        ⟨100, true, "s", []⟩ = [] := by
  constructor
  · exact (C7_planner_fallback_gate 4 ⟨⟨100, 100, 100, 100, 100, 100, 100, 100⟩, 80, 0, []⟩
      ⟨100, true, "s", []⟩ (by decide)).1.2 (by simp)
  · exact (C7_planner_fallback_gate 4 ⟨⟨100, 100, 100, 100, 100, 100, 100, 100⟩, 90, 0, []⟩
      ⟨100, true, "s", []⟩ (by decide)).2.2 (by simp)

/-- C6 counterexample: the executor does not look the target node up by id.
On a curriculum whose single node has id `"N2"`, a `retime_node` action
targeting `"N2"` is skipped (the id parses to position 1, which is out of
range), although the target node is present — and actually retiming that
node would change its estimate from 10 to 600. -/
theorem C6_counterexample :
    Repair.apply Ex.curC6 [Ex.actC6] Ex.specC6 Ex.resolver1 = Ex.curC6 ∧
    Ex.curC6.nodes.map (fun n => n.id) = ["N2"] ∧
    Ex.nodeC6.estimate_minutes = 10 ∧
    Repair.retime_node Ex.nodeC6 0 Ex.curC6.nodes Ex.specC6 = 600 := by
  refine ⟨?_, by decide, by decide, by decide⟩
  decide

/-- C6 (amended): the executor applies actions sequentially to a deep copy;
an empty action list returns the curriculum unchanged, and a targeted
(non-reorder) action whose id parses to a malformed or out-of-range index is
skipped without error while the remaining actions still apply. -/
theorem C6_amended_executor_skip (cur : Curriculum)
    (spec : PlanSpec.GenerationSpec) (resolver : NodeBuilder.ResourceResolver)
    (a : Repair.RepairAction) (actions : List Repair.RepairAction)
    (hna : a.action_type ≠ Repair.RepairActionType.reorder_nodes)
    (htar : ∀ nid, a.node_id = some nid →
      Repair.id_to_index nid < 0 ∨ (cur.nodes.length : Int) ≤ Repair.id_to_index nid) :
    Repair.apply cur [] spec resolver = cur ∧
    Repair.apply cur (a :: actions) spec resolver =
      Repair.apply cur actions spec resolver := by
  constructor
  · rfl
  · unfold Repair.apply
    have hstep : Repair.applyAction spec resolver cur.nodes a = cur.nodes := by
      unfold Repair.applyAction
      rw [if_neg (by simpa using hna)]
      cases hid : a.node_id with
      | none => rfl
      | some nid =>
          have := htar nid hid
          simp only []
          rw [if_pos this]
    simp only [List.foldl_cons, hstep]

/-- Witness for C6 (amended): a retime aimed at the absent id `"N9"` is
skipped and the subsequent reorder still applies. -/
theorem C6_amended_witness :
    Repair.apply Ex.curC6 []
        Ex.specC6 Ex.resolver1 = Ex.curC6 ∧
      Repair.apply Ex.curC6 [⟨.retime_node, "r", .medium, some "N9", none, none⟩, Ex.actC6r]
          Ex.specC6 Ex.resolver1 =
        Repair.apply Ex.curC6 [Ex.actC6r] Ex.specC6 Ex.resolver1 :=
  C6_amended_executor_skip Ex.curC6 Ex.specC6 Ex.resolver1
    ⟨.retime_node, "r", .medium, some "N9", none, none⟩ [Ex.actC6r]
    (by decide) (by intro nid h; injection h with h; rw [← h]; right; decide)

theorem entryAccept_mkEntry (policy : Loop.ModelPolicy) (i : Int)
    (p : Critic.PedagogyCritique) (r : Quality.QualityReport)
    (acts : List Repair.RepairAction) :
    Loop.entryAccept policy (Loop.mkEntry policy i p r acts) ↔
      Loop.acceptCond policy r p := Iff.rfl

theorem loopGo_zero {γ : Type} (c : Loop.LoopComponents γ) (policy : Loop.ModelPolicy)
    (i : Int) (draft best : γ) (bs : Int) (iters : List Loop.IterationTrace) :
    Loop.loopGo c policy 0 i draft best bs iters =
      ⟨best, false, "max_iterations_reached", iters, bs⟩ := rfl

theorem loopGo_succ_accept {γ : Type} (c : Loop.LoopComponents γ)
    (policy : Loop.ModelPolicy) (n : Nat) (i : Int) (draft best : γ) (bs : Int)
    (iters : List Loop.IterationTrace)
    (h1 : Loop.acceptCond policy (c.evaluate draft (c.critique draft))
      (c.critique draft)) :
    Loop.loopGo c policy (n + 1) i draft best bs iters =
      ⟨if bs < (c.evaluate draft (c.critique draft)).total_score then draft else best,
        true, "accepted_threshold_met",
        iters ++ [Loop.mkEntry policy i (c.critique draft)
          (c.evaluate draft (c.critique draft))
          (c.plan (c.evaluate draft (c.critique draft)) (c.critique draft))],
        if bs < (c.evaluate draft (c.critique draft)).total_score then
          (c.evaluate draft (c.critique draft)).total_score else bs⟩ := by
  show (if Loop.acceptCond policy (c.evaluate draft (c.critique draft))
      (c.critique draft) then _ else _) = _
  rw [if_pos h1]

theorem loopGo_succ_noact {γ : Type} (c : Loop.LoopComponents γ)
    (policy : Loop.ModelPolicy) (n : Nat) (i : Int) (draft best : γ) (bs : Int)
    (iters : List Loop.IterationTrace)
    (h1 : ¬ Loop.acceptCond policy (c.evaluate draft (c.critique draft))
      (c.critique draft))
    (h2 : (c.plan (c.evaluate draft (c.critique draft)) (c.critique draft)).isEmpty
      = true) :
    Loop.loopGo c policy (n + 1) i draft best bs iters =
      ⟨if bs < (c.evaluate draft (c.critique draft)).total_score then draft else best,
        false, "no_actions_available",
        iters ++ [Loop.mkEntry policy i (c.critique draft)
          (c.evaluate draft (c.critique draft))
          (c.plan (c.evaluate draft (c.critique draft)) (c.critique draft))],
        if bs < (c.evaluate draft (c.critique draft)).total_score then
          (c.evaluate draft (c.critique draft)).total_score else bs⟩ := by
  show (if Loop.acceptCond policy (c.evaluate draft (c.critique draft))
      (c.critique draft) then _ else _) = _
  rw [if_neg h1, if_pos h2]

theorem loopGo_succ_cont {γ : Type} (c : Loop.LoopComponents γ)
    (policy : Loop.ModelPolicy) (n : Nat) (i : Int) (draft best : γ) (bs : Int)
    (iters : List Loop.IterationTrace)
    (h1 : ¬ Loop.acceptCond policy (c.evaluate draft (c.critique draft))
      (c.critique draft))
    (h2 : ¬ (c.plan (c.evaluate draft (c.critique draft)) (c.critique draft)).isEmpty
      = true) :
    Loop.loopGo c policy (n + 1) i draft best bs iters =
      Loop.loopGo c policy n (i + 1)
        (c.applyRepair draft
          (c.plan (c.evaluate draft (c.critique draft)) (c.critique draft)))
        (if bs < (c.evaluate draft (c.critique draft)).total_score then draft else best)
        (if bs < (c.evaluate draft (c.critique draft)).total_score then
          (c.evaluate draft (c.critique draft)).total_score else bs)
        (iters ++ [Loop.mkEntry policy i (c.critique draft)
          (c.evaluate draft (c.critique draft))
          (c.plan (c.evaluate draft (c.critique draft)) (c.critique draft))]) := by
  show (if Loop.acceptCond policy (c.evaluate draft (c.critique draft))
      (c.critique draft) then _ else _) = _
  rw [if_neg h1, if_neg h2]

/-- The iteration accumulator only prefixes the fresh entries; the rest of
the loop result does not depend on it. -/
theorem loopGo_iterations_acc {γ : Type} (c : Loop.LoopComponents γ)
    (policy : Loop.ModelPolicy) :
    ∀ (n : Nat) (i : Int) (draft best : γ) (bs : Int)
      (iters : List Loop.IterationTrace),
      Loop.loopGo c policy n i draft best bs iters =
        { Loop.loopGo c policy n i draft best bs [] with
          iterations := iters ++ (Loop.loopGo c policy n i draft best bs []).iterations }
  | 0, i, draft, best, bs, iters => by
      rw [loopGo_zero, loopGo_zero]
      simp
  | n + 1, i, draft, best, bs, iters => by
      by_cases h1 : Loop.acceptCond policy (c.evaluate draft (c.critique draft))
          (c.critique draft)
      · rw [loopGo_succ_accept c policy n i draft best bs iters h1,
          loopGo_succ_accept c policy n i draft best bs [] h1]
        simp
      · by_cases h2 : (c.plan (c.evaluate draft (c.critique draft))
            (c.critique draft)).isEmpty = true
        · rw [loopGo_succ_noact c policy n i draft best bs iters h1 h2,
            loopGo_succ_noact c policy n i draft best bs [] h1 h2]
          simp
        · rw [loopGo_succ_cont c policy n i draft best bs iters h1 h2,
            loopGo_succ_cont c policy n i draft best bs [] h1 h2]
          rw [loopGo_iterations_acc c policy n (i + 1) _ _ _
              (iters ++ [Loop.mkEntry policy i (c.critique draft)
                (c.evaluate draft (c.critique draft))
                (c.plan (c.evaluate draft (c.critique draft)) (c.critique draft))]),
            loopGo_iterations_acc c policy n (i + 1) _ _ _
              ([] ++ [Loop.mkEntry policy i (c.critique draft)
                (c.evaluate draft (c.critique draft))
                (c.plan (c.evaluate draft (c.critique draft)) (c.critique draft))])]
          simp

/-- The loop accepts exactly when it stops with the acceptance stop
reason. -/
theorem loopGo_accepted_reason {γ : Type} (c : Loop.LoopComponents γ)
    (policy : Loop.ModelPolicy) :
    ∀ (n : Nat) (i : Int) (draft best : γ) (bs : Int)
      (iters : List Loop.IterationTrace),
      ((Loop.loopGo c policy n i draft best bs iters).accepted = true ↔
        (Loop.loopGo c policy n i draft best bs iters).stop_reason =
          "accepted_threshold_met")
  | 0, i, draft, best, bs, iters => by
      rw [loopGo_zero]
      constructor
      · intro h; exact absurd h (by simp)
      · intro h
        exact absurd
          (show ("max_iterations_reached" : String) = "accepted_threshold_met" from h)
          (by decide)
  | n + 1, i, draft, best, bs, iters => by
      by_cases h1 : Loop.acceptCond policy (c.evaluate draft (c.critique draft))
          (c.critique draft)
      · rw [loopGo_succ_accept c policy n i draft best bs iters h1]
        simp
      · by_cases h2 : (c.plan (c.evaluate draft (c.critique draft))
            (c.critique draft)).isEmpty = true
        · rw [loopGo_succ_noact c policy n i draft best bs iters h1 h2]
          constructor
          · intro h; exact absurd h (by simp)
          · intro h
            exact absurd
              (show ("no_actions_available" : String) = "accepted_threshold_met" from h)
              (by decide)
        · rw [loopGo_succ_cont c policy n i draft best bs iters h1 h2]
          exact loopGo_accepted_reason c policy n _ _ _ _ _

/-- The loop accepts exactly when some recorded fresh iteration meets the
acceptance test. -/
theorem loopGo_accepted_exists {γ : Type} (c : Loop.LoopComponents γ)
    (policy : Loop.ModelPolicy) :
    ∀ (n : Nat) (i : Int) (draft best : γ) (bs : Int),
      ((Loop.loopGo c policy n i draft best bs []).accepted = true ↔
        ∃ it ∈ (Loop.loopGo c policy n i draft best bs []).iterations,
          Loop.entryAccept policy it)
  | 0, i, draft, best, bs => by
      rw [loopGo_zero]
      simp
  | n + 1, i, draft, best, bs => by
      by_cases h1 : Loop.acceptCond policy (c.evaluate draft (c.critique draft))
          (c.critique draft)
      · rw [loopGo_succ_accept c policy n i draft best bs [] h1]
        constructor
        · intro _
          exact ⟨Loop.mkEntry policy i (c.critique draft)
            (c.evaluate draft (c.critique draft))
            (c.plan (c.evaluate draft (c.critique draft)) (c.critique draft)),
            by simp, (entryAccept_mkEntry _ _ _ _ _).2 h1⟩
        · intro _; rfl
      · by_cases h2 : (c.plan (c.evaluate draft (c.critique draft))
            (c.critique draft)).isEmpty = true
        · rw [loopGo_succ_noact c policy n i draft best bs [] h1 h2]
          constructor
          · intro h; exact absurd h (by simp)
          · rintro ⟨it, hit, ha⟩
            simp only [List.nil_append, List.mem_singleton] at hit
            subst hit
            exact absurd ((entryAccept_mkEntry _ _ _ _ _).1 ha) h1
        · rw [loopGo_succ_cont c policy n i draft best bs [] h1 h2,
            loopGo_iterations_acc c policy n (i + 1) _ _ _
              ([] ++ [Loop.mkEntry policy i (c.critique draft)
                (c.evaluate draft (c.critique draft))
                (c.plan (c.evaluate draft (c.critique draft)) (c.critique draft))])]
          simp only [List.nil_append, List.singleton_append, List.mem_cons]
          constructor
          · intro h
            rcases (loopGo_accepted_exists c policy n (i + 1) _ _ _).1 h with ⟨it, hit, ha⟩
            exact ⟨it, Or.inr hit, ha⟩
          · rintro ⟨it, hit | hit, ha⟩
            · subst hit
              exact absurd ((entryAccept_mkEntry _ _ _ _ _).1 ha) h1
            · exact (loopGo_accepted_exists c policy n (i + 1) _ _ _).2 ⟨it, hit, ha⟩

/-- C2: an `optimize` run accepts exactly when a recorded iteration meets
`hard_fail_count == 0 ∧ total_score ≥ target_score ∧ min_quality_met` —
equivalently, exactly when the loop stops with the acceptance stop reason —
and, with the deterministic quality judge, a draft carrying any hard-fail
diagnostic can never satisfy the acceptance test, regardless of its
aggregate score. -/
theorem C2_acceptance_characterization {γ : Type} (c : Loop.LoopComponents γ)
    (policy : Loop.ModelPolicy) :
    ((Loop.optimize c policy).trace.accepted = true ↔
      ∃ it ∈ (Loop.optimize c policy).trace.iterations, Loop.entryAccept policy it)
    ∧ ((Loop.optimize c policy).trace.accepted = true ↔
      (Loop.optimize c policy).trace.stop_reason = "accepted_threshold_met")
    ∧ (∀ (cur : Curriculum) (ts : TopicSpec) (p : Critic.PedagogyCritique),
        (Quality.evaluate cur ts p).diagnostics.any (fun d => d.hard_fail) = true →
        ¬ Loop.acceptCond policy (Quality.evaluate cur ts p) p) := by
  refine ⟨?_, ?_, ?_⟩
  · exact loopGo_accepted_exists c policy policy.max_iterations.toNat 1
      c.propose c.propose (-1)
  · exact loopGo_accepted_reason c policy policy.max_iterations.toNat 1
      c.propose c.propose (-1) []
  · intro cur ts p hany hacc
    have hc : (Quality.evaluate cur ts p).hard_fail_count =
        ((Quality.evaluate cur ts p).diagnostics.filter
          (fun d => d.hard_fail)).length := rfl
    rcases List.any_eq_true.1 hany with ⟨d, hd, hdf⟩
    have hmem : d ∈ (Quality.evaluate cur ts p).diagnostics.filter
        (fun d => d.hard_fail) := List.mem_filter.2 ⟨hd, hdf⟩
    have hpos : 0 < ((Quality.evaluate cur ts p).diagnostics.filter
        (fun d => d.hard_fail)).length :=
      List.length_pos.2 (List.ne_nil_of_mem hmem)
    have h0 := hacc.1
    rw [hc] at h0
    omega

/-- Witness for C2 at the toy components: the run does not accept and does
not stop with the acceptance reason. -/
theorem C2_witness :
    (Loop.optimize Ex.toyC Ex.toyP).trace.accepted = true ↔
      (Loop.optimize Ex.toyC Ex.toyP).trace.stop_reason = "accepted_threshold_met" :=
  (C2_acceptance_characterization Ex.toyC Ex.toyP).2.1

theorem le_foldl_max {γ : Type} (f : γ → Int) :
    ∀ (l : List γ) (b : Int), b ≤ l.foldl (fun m d => max m (f d)) b
  | [], _ => le_refl _
  | d :: rest, b =>
      le_trans (le_max_left b (f d)) (le_foldl_max f rest (max b (f d)))

theorem mem_le_foldl_max {γ : Type} (f : γ → Int) :
    ∀ (l : List γ) (b : Int) (d : γ), d ∈ l →
      f d ≤ l.foldl (fun m e => max m (f e)) b
  | [], _, _, h => absurd h (List.not_mem_nil _)
  | x :: rest, b, d, h => by
      rcases List.mem_cons.1 h with h | h
      · subst h
        exact le_trans (le_max_right b (f d)) (le_foldl_max f rest (max b (f d)))
      · exact mem_le_foldl_max f rest (max b (f x)) d h

theorem draftsGo_zero {γ : Type} (c : Loop.LoopComponents γ)
    (policy : Loop.ModelPolicy) (draft : γ) :
    Loop.draftsGo c policy 0 draft = [] := rfl

theorem draftsGo_succ_accept {γ : Type} (c : Loop.LoopComponents γ)
    (policy : Loop.ModelPolicy) (n : Nat) (draft : γ)
    (h1 : Loop.acceptCond policy (c.evaluate draft (c.critique draft))
      (c.critique draft)) :
    Loop.draftsGo c policy (n + 1) draft = [draft] := by
  show (if Loop.acceptCond policy (c.evaluate draft (c.critique draft))
      (c.critique draft) then _ else _) = _
  rw [if_pos h1]

theorem draftsGo_succ_noact {γ : Type} (c : Loop.LoopComponents γ)
    (policy : Loop.ModelPolicy) (n : Nat) (draft : γ)
    (h1 : ¬ Loop.acceptCond policy (c.evaluate draft (c.critique draft))
      (c.critique draft))
    (h2 : (c.plan (c.evaluate draft (c.critique draft)) (c.critique draft)).isEmpty
      = true) :
    Loop.draftsGo c policy (n + 1) draft = [draft] := by
  show (if Loop.acceptCond policy (c.evaluate draft (c.critique draft))
      (c.critique draft) then _ else _) = _
  rw [if_neg h1, if_pos h2]

theorem draftsGo_succ_cont {γ : Type} (c : Loop.LoopComponents γ)
    (policy : Loop.ModelPolicy) (n : Nat) (draft : γ)
    (h1 : ¬ Loop.acceptCond policy (c.evaluate draft (c.critique draft))
      (c.critique draft))
    (h2 : ¬ (c.plan (c.evaluate draft (c.critique draft)) (c.critique draft)).isEmpty
      = true) :
    Loop.draftsGo c policy (n + 1) draft =
      draft :: Loop.draftsGo c policy n
        (c.applyRepair draft
          (c.plan (c.evaluate draft (c.critique draft)) (c.critique draft))) := by
  show (if Loop.acceptCond policy (c.evaluate draft (c.critique draft))
      (c.critique draft) then _ else _) = _
  rw [if_neg h1, if_neg h2]

/-- Best-tracking invariant of the loop: starting from a `best` whose
recomputed score is the tracked `best_score`, the loop exits with
`best_score` equal to the running maximum over the judged drafts, with the
exit `best` scoring exactly `best_score`, and with the exit `best` being a
judged draft or the starting `best`. -/
theorem loopGo_best_tracks {γ : Type} (c : Loop.LoopComponents γ)
    (policy : Loop.ModelPolicy) :
    ∀ (n : Nat) (i : Int) (draft best : γ) (bs : Int),
      Loop.recompute c best = bs →
      (Loop.loopGo c policy n i draft best bs []).best_score =
        (Loop.draftsGo c policy n draft).foldl
          (fun m d => max m (Loop.recompute c d)) bs
      ∧ Loop.recompute c (Loop.loopGo c policy n i draft best bs []).best =
        (Loop.loopGo c policy n i draft best bs []).best_score
      ∧ ((Loop.loopGo c policy n i draft best bs []).best ∈
          Loop.draftsGo c policy n draft ∨
        (Loop.loopGo c policy n i draft best bs []).best = best)
  | 0, i, draft, best, bs, hinv => by
      rw [loopGo_zero, draftsGo_zero]
      exact ⟨rfl, hinv, Or.inr rfl⟩
  | n + 1, i, draft, best, bs, hinv => by
      have hs : Loop.recompute c draft =
          (c.evaluate draft (c.critique draft)).total_score := rfl
      by_cases h1 : Loop.acceptCond policy (c.evaluate draft (c.critique draft))
          (c.critique draft)
      · rw [loopGo_succ_accept c policy n i draft best bs [] h1,
          draftsGo_succ_accept c policy n draft h1]
        simp only [List.foldl_cons, List.foldl_nil]
        by_cases hlt : bs < (c.evaluate draft (c.critique draft)).total_score
        · simp only [if_pos hlt]
          refine ⟨(max_eq_right (le_of_lt hlt)).symm, hs, Or.inl (by simp)⟩
        · simp only [if_neg hlt]
          refine ⟨(max_eq_left (not_lt.1 hlt)).symm, hinv, Or.inr trivial⟩
      · by_cases h2 : (c.plan (c.evaluate draft (c.critique draft))
            (c.critique draft)).isEmpty = true
        · rw [loopGo_succ_noact c policy n i draft best bs [] h1 h2,
            draftsGo_succ_noact c policy n draft h1 h2]
          simp only [List.foldl_cons, List.foldl_nil]
          by_cases hlt : bs < (c.evaluate draft (c.critique draft)).total_score
          · simp only [if_pos hlt]
            refine ⟨(max_eq_right (le_of_lt hlt)).symm, hs, Or.inl (by simp)⟩
          · simp only [if_neg hlt]
            refine ⟨(max_eq_left (not_lt.1 hlt)).symm, hinv, Or.inr trivial⟩
        · rw [loopGo_succ_cont c policy n i draft best bs [] h1 h2,
            draftsGo_succ_cont c policy n draft h1 h2]
          rw [loopGo_iterations_acc c policy n (i + 1) _ _ _
            ([] ++ [Loop.mkEntry policy i (c.critique draft)
              (c.evaluate draft (c.critique draft))
              (c.plan (c.evaluate draft (c.critique draft)) (c.critique draft))])]
          simp only [List.foldl_cons]
          by_cases hlt : bs < (c.evaluate draft (c.critique draft)).total_score
          · simp only [if_pos hlt]
            have hmax : max bs (Loop.recompute c draft) =
                (c.evaluate draft (c.critique draft)).total_score := by
              rw [hs]; exact max_eq_right (le_of_lt hlt)
            have ih := loopGo_best_tracks c policy n (i + 1)
              (c.applyRepair draft
                (c.plan (c.evaluate draft (c.critique draft)) (c.critique draft)))
              draft ((c.evaluate draft (c.critique draft)).total_score) hs
            refine ⟨?_, ?_, ?_⟩
            · rw [hmax]
              exact ih.1
            · exact ih.2.1
            · rcases ih.2.2 with h | h
              · exact Or.inl (List.mem_cons_of_mem _ h)
              · exact Or.inl (by rw [h]; exact List.mem_cons_self _ _)
          · simp only [if_neg hlt]
            have hmax : max bs (Loop.recompute c draft) = bs := by
              rw [hs]; exact max_eq_left (not_lt.1 hlt)
            have ih := loopGo_best_tracks c policy n (i + 1)
              (c.applyRepair draft
                (c.plan (c.evaluate draft (c.critique draft)) (c.critique draft)))
              best bs hinv
            refine ⟨?_, ?_, ?_⟩
            · rw [hmax]
              exact ih.1
            · exact ih.2.1
            · rcases ih.2.2 with h | h
              · exact Or.inl (List.mem_cons_of_mem _ h)
              · exact Or.inr h

/-- C1: when acceptance is not immediate (and the judge's total scores are
nonnegative, as the deterministic judge's are), the curriculum emitted by
`optimize` is one of the judged drafts, its recomputed total score is the
maximum over all judged drafts, and in particular it is at least the
recomputed total score of the Proposer's initial draft. -/
theorem C1_emitted_is_best_tracked {γ : Type} (c : Loop.LoopComponents γ)
    (policy : Loop.ModelPolicy)
    (hiter : 1 ≤ policy.max_iterations)
    (hnn : ∀ d : γ, 0 ≤ Loop.recompute c d)
    (himm : ¬ Loop.immediateAccept c policy) :
    (∃ d ∈ Loop.judgedDrafts c policy, (Loop.optimize c policy).curriculum = d)
    ∧ (∀ d ∈ Loop.judgedDrafts c policy,
        Loop.recompute c d ≤ Loop.recompute c (Loop.optimize c policy).curriculum)
    ∧ Loop.recompute c c.propose ≤
        Loop.recompute c (Loop.optimize c policy).curriculum := by
  obtain ⟨m, hm⟩ : ∃ m, policy.max_iterations.toNat = m + 1 :=
    ⟨policy.max_iterations.toNat - 1, by omega⟩
  have hcur : (Loop.optimize c policy).curriculum =
      (Loop.loopGo c policy (m + 1) 1 c.propose c.propose (-1) []).best := by
    show (Loop.loopGo c policy policy.max_iterations.toNat 1
      c.propose c.propose (-1) []).best = _
    rw [hm]
  have hdr : Loop.judgedDrafts c policy = Loop.draftsGo c policy (m + 1) c.propose := by
    show Loop.draftsGo c policy policy.max_iterations.toNat c.propose = _
    rw [hm]
  have h1 : ¬ Loop.acceptCond policy (c.evaluate c.propose (c.critique c.propose))
      (c.critique c.propose) := himm
  have hs0 : (-1 : Int) < (c.evaluate c.propose (c.critique c.propose)).total_score :=
    lt_of_lt_of_le (by decide) (hnn c.propose)
  by_cases h2 : (c.plan (c.evaluate c.propose (c.critique c.propose))
      (c.critique c.propose)).isEmpty = true
  · rw [hcur, hdr, loopGo_succ_noact c policy m 1 c.propose c.propose (-1) [] h1 h2,
      draftsGo_succ_noact c policy m c.propose h1 h2]
    simp only [if_pos hs0]
    refine ⟨⟨c.propose, by simp, rfl⟩, ?_, le_refl _⟩
    intro d hd
    rw [List.mem_singleton] at hd
    subst hd
    exact le_refl _
  · have hinv : Loop.recompute c c.propose =
        (c.evaluate c.propose (c.critique c.propose)).total_score := rfl
    have ih := loopGo_best_tracks c policy m (1 + 1)
      (c.applyRepair c.propose
        (c.plan (c.evaluate c.propose (c.critique c.propose)) (c.critique c.propose)))
      c.propose ((c.evaluate c.propose (c.critique c.propose)).total_score) hinv
    rw [hcur, hdr, loopGo_succ_cont c policy m 1 c.propose c.propose (-1) [] h1 h2,
      draftsGo_succ_cont c policy m c.propose h1 h2]
    simp only [if_pos hs0]
    rw [loopGo_iterations_acc c policy m (1 + 1)
      (c.applyRepair c.propose
        (c.plan (c.evaluate c.propose (c.critique c.propose)) (c.critique c.propose)))
      c.propose ((c.evaluate c.propose (c.critique c.propose)).total_score)
      ([] ++ [Loop.mkEntry policy 1 (c.critique c.propose)
        (c.evaluate c.propose (c.critique c.propose))
        (c.plan (c.evaluate c.propose (c.critique c.propose)) (c.critique c.propose))])]
    dsimp only
    refine ⟨?_, ?_, ?_⟩
    · refine ⟨(Loop.loopGo c policy m (1 + 1)
        (c.applyRepair c.propose
          (c.plan (c.evaluate c.propose (c.critique c.propose)) (c.critique c.propose)))
        c.propose ((c.evaluate c.propose (c.critique c.propose)).total_score) []).best,
        ?_, rfl⟩
      rcases ih.2.2 with h | h
      · exact List.mem_cons_of_mem _ h
      · rw [h]
        exact List.mem_cons_self _ _
    · intro d hd
      rw [ih.2.1, ih.1]
      rcases List.mem_cons.1 hd with h | h
      · rw [h, hinv]
        exact le_foldl_max (Loop.recompute c) _ _
      · exact mem_le_foldl_max (Loop.recompute c) _ _ d h
    · rw [ih.2.1, ih.1, hinv]
      exact le_foldl_max (Loop.recompute c) _ _

/-- Witness for C1 at the toy components (two iterations, never-accepting
critic): the emitted draft's recomputed score is at least the initial
draft's. -/
theorem C1_witness :
    Loop.recompute Ex.toyC Ex.toyC.propose ≤
      Loop.recompute Ex.toyC (Loop.optimize Ex.toyC Ex.toyP).curriculum :=
  (C1_emitted_is_best_tracked Ex.toyC Ex.toyP (by decide)
    (fun d => Int.natCast_nonneg d)
    (by unfold Loop.immediateAccept; decide)).2.2

/-- C9: the internal-provider pipeline is a pure function of its inputs —
two runs on equal topic specs (same resolver, policy and scope document)
produce identical results, with no hidden state or randomness in the
embedding. -/
theorem C9_pipeline_deterministic (mp : String → List String)
    (sp st : Option String) (tsa tsb : TopicSpec)
    (resolver : NodeBuilder.ResourceResolver) (policy : Loop.ModelPolicy)
    (h : tsa = tsb) :
    Pipeline.run mp sp st tsa resolver policy =
      Pipeline.run mp sp st tsb resolver policy := by
  rw [h]

/-- Witness for C9: the run on `ts1` equals the rerun on `ts1`. -/
theorem C9_witness :
    Pipeline.run Ex.mp0 none none Ex.ts1 Ex.resolver1 Ex.policy1 =
      Pipeline.run Ex.mp0 none none Ex.ts1 Ex.resolver1 Ex.policy1 :=
  C9_pipeline_deterministic Ex.mp0 none none Ex.ts1 Ex.ts1 Ex.resolver1 Ex.policy1 rfl

theorem fdiv_eq_floor (a b : Int) (hb : 0 < b) :
    a.fdiv b = ⌊(a : ℚ) / (b : ℚ)⌋ := by
  rw [Int.fdiv_eq_ediv a hb.le]
  have hbq : (b : ℚ) = ((b.toNat : ℕ) : ℚ) := by
    rw [← Int.toNat_of_nonneg hb.le]
    push_cast
    rw [Int.toNat_of_nonneg hb.le]
  rw [hbq, Rat.floor_intCast_div_natCast, Int.toNat_of_nonneg hb.le]

theorem Frac.trunc_eq_floor (f : Frac) (hn : 0 ≤ f.num) (hd : 0 < f.den) :
    f.trunc = ⌊f.toQ⌋ := by
  unfold Frac.trunc Frac.toQ
  rw [if_pos hn]
  exact fdiv_eq_floor _ _ hd

theorem Frac.toQ_add_eq (a b : Frac) (ha : a.den ≠ 0) (hb : b.den ≠ 0) :
    (a.add b).toQ = a.toQ + b.toQ := by
  unfold Frac.add Frac.toQ
  have ha' : (a.den : ℚ) ≠ 0 := Int.cast_ne_zero.2 ha
  have hb' : (b.den : ℚ) ≠ 0 := Int.cast_ne_zero.2 hb
  push_cast
  field_simp

theorem Frac.toQ_ofInt (n : Int) : (Frac.ofInt n).toQ = (n : ℚ) := by
  unfold Frac.ofInt Frac.toQ
  simp

theorem Frac.addPN (a b : Frac) (han : 0 < a.num) (had : 0 < a.den)
    (hbn : 0 ≤ b.num) (hbd : 0 < b.den) :
    0 < (a.add b).num ∧ 0 < (a.add b).den := by
  unfold Frac.add
  exact ⟨add_pos_of_pos_of_nonneg (mul_pos han hbd) (mul_nonneg hbn had.le),
    mul_pos had hbd⟩

theorem Frac.addNP (a b : Frac) (han : 0 ≤ a.num) (had : 0 < a.den)
    (hbn : 0 < b.num) (hbd : 0 < b.den) :
    0 < (a.add b).num ∧ 0 < (a.add b).den := by
  unfold Frac.add
  exact ⟨add_pos_of_nonneg_of_pos (mul_nonneg han hbd.le) (mul_pos hbn had),
    mul_pos had hbd⟩

theorem Frac.mulNN (a b : Frac) (han : 0 ≤ a.num) (had : 0 < a.den)
    (hbn : 0 ≤ b.num) (hbd : 0 < b.den) :
    0 ≤ (a.mul b).num ∧ 0 < (a.mul b).den := by
  unfold Frac.mul
  exact ⟨mul_nonneg han hbn, mul_pos had hbd⟩

/-- The conditional-boost fold preserves positivity. -/
theorem foldl_condAdd_pos (g : String × Frac → Bool) :
    ∀ (bs : List (String × Frac)) (w : Frac),
      (∀ b ∈ bs, 0 < b.2.num ∧ 0 < b.2.den) →
      0 < w.num ∧ 0 < w.den →
      0 < (bs.foldl (fun w tb => if g tb then Frac.add w tb.2 else w) w).num ∧
        0 < (bs.foldl (fun w tb => if g tb then Frac.add w tb.2 else w) w).den
  | [], w, _, hw => hw
  | b :: rest, w, hbs, hw => by
      rw [List.foldl_cons]
      apply foldl_condAdd_pos g rest
      · exact fun b' hb' => hbs b' (List.mem_cons_of_mem _ hb')
      · by_cases hg : g b = true
        · rw [if_pos hg]
          have hb := hbs b (List.mem_cons_self _ _)
          exact Frac.addPN w b.2 hw.1 hw.2 hb.1.le hb.2
        · rw [if_neg hg]
          exact hw

/-- `_title_weight` always yields a strictly positive fraction. -/
theorem title_weight_pos (i count : Nat) (t : String) :
    0 < (PlanSpec.title_weight i count t).num ∧
      0 < (PlanSpec.title_weight i count t).den := by
  unfold PlanSpec.title_weight
  have hdmax : (0 : Int) < max 1 ((count : Int) - 1) :=
    lt_of_lt_of_le one_pos (le_max_left _ _)
  have hpf : 0 ≤ (Frac.div (Frac.ofInt i) (Frac.ofInt (max 1 ((count : Int) - 1)))).num ∧
      0 < (Frac.div (Frac.ofInt i) (Frac.ofInt (max 1 ((count : Int) - 1)))).den := by
    unfold Frac.div Frac.ofInt
    constructor
    · simpa using Int.natCast_nonneg i
    · simpa using hdmax
  have hmul := Frac.mulNN ⟨2, 5⟩
    (Frac.div (Frac.ofInt i) (Frac.ofInt (max 1 ((count : Int) - 1))))
    (by norm_num) (by norm_num) hpf.1 hpf.2
  have hbase := Frac.addPN (Frac.ofInt 1) _ (by decide) (by decide) hmul.1 hmul.2
  have hfold := foldl_condAdd_pos
    (fun tb => pyContains (pyLower t) tb.1)
    [("integration", ⟨1, 4⟩), ("verification", ⟨1, 4⟩), ("reliability", ⟨1, 5⟩),
     ("trade-off", ⟨3, 20⟩), ("deliverable", ⟨1, 10⟩), ("architecture", ⟨1, 5⟩),
     ("orchestration", ⟨1, 5⟩), ("testing", ⟨1, 5⟩)]
    _ (by decide) hbase
  by_cases hlast : (i : Int) = (count : Int) - 1
  · rw [if_pos hlast]
    exact Frac.addPN _ ⟨3, 20⟩ hfold.1 hfold.2 (by norm_num) (by norm_num)
  · rw [if_neg hlast]
    exact hfold

/-- Value and denominator facts for the weight-sum fold. -/
theorem foldl_add_toQ :
    ∀ (l : List Frac) (acc : Frac), (∀ f ∈ l, f.den ≠ 0) → acc.den ≠ 0 →
      (l.foldl Frac.add acc).toQ = acc.toQ + (l.map Frac.toQ).sum ∧
        (l.foldl Frac.add acc).den ≠ 0
  | [], acc, _, hacc => by simp [hacc]
  | f :: rest, acc, hl, hacc => by
      rw [List.foldl_cons, List.map_cons, List.sum_cons]
      have hf := hl f (List.mem_cons_self _ _)
      have hd : (acc.add f).den ≠ 0 := by
        unfold Frac.add
        exact mul_ne_zero hacc hf
      have ih := foldl_add_toQ rest (acc.add f)
        (fun g hg => hl g (List.mem_cons_of_mem _ hg)) hd
      rw [ih.1, Frac.toQ_add_eq acc f hacc hf]
      exact ⟨by ring, ih.2⟩

/-- The weight-sum fold of a nonempty list of positive fractions is
positive. -/
theorem foldl_add_pos :
    ∀ (l : List Frac) (acc : Frac), (∀ f ∈ l, 0 < f.num ∧ 0 < f.den) →
      0 ≤ acc.num ∧ 0 < acc.den → l ≠ [] →
      0 < (l.foldl Frac.add acc).num ∧ 0 < (l.foldl Frac.add acc).den
  | [], _, _, _, hne => absurd rfl hne
  | f :: rest, acc, hl, hacc, _ => by
      rw [List.foldl_cons]
      have hf := hl f (List.mem_cons_self _ _)
      have hacc' := Frac.addNP acc f hacc.1 hacc.2 hf.1 hf.2
      cases rest with
      | nil => exact hacc'
      | cons g gs =>
          exact foldl_add_pos (g :: gs) (acc.add f)
            (fun x hx => hl x (List.mem_cons_of_mem _ hx))
            ⟨hacc'.1.le, hacc'.2⟩ (by simp)

theorem sum_floor_le (qs : List ℚ) :
    (((qs.map (fun q => ⌊q⌋)).sum : ℤ) : ℚ) ≤ qs.sum := by
  induction qs with
  | nil => simp
  | cons q rest ih =>
      rw [List.map_cons, List.sum_cons, List.sum_cons]
      push_cast
      push_cast at ih
      exact add_le_add (Int.floor_le q) ih

theorem sum_sub_len_le_sum_floor (qs : List ℚ) :
    qs.sum - qs.length ≤ (((qs.map (fun q => ⌊q⌋)).sum : ℤ) : ℚ) := by
  induction qs with
  | nil => simp
  | cons q rest ih =>
      rw [List.map_cons, List.sum_cons, List.sum_cons, List.length_cons]
      push_cast
      push_cast at ih
      have h1 : q - 1 ≤ (⌊q⌋ : ℚ) := le_of_lt (Int.sub_one_lt_floor q)
      linarith

theorem bumpAt_length (acc : List Int) (idx : Nat) :
    (PlanSpec.bumpAt acc idx).length = acc.length := by
  unfold PlanSpec.bumpAt
  exact List.length_set acc idx _

theorem foldl_bumpAt_length :
    ∀ (chosen : List Nat) (l : List Int),
      (chosen.foldl PlanSpec.bumpAt l).length = l.length
  | [], _ => rfl
  | i :: rest, l => by
      rw [List.foldl_cons, foldl_bumpAt_length rest, bumpAt_length]

theorem bumpAt_sum (l : List Int) (i : Nat) (hi : i < l.length) :
    (PlanSpec.bumpAt l i).sum = l.sum + 1 := by
  unfold PlanSpec.bumpAt
  rw [List.sum_set, if_pos hi, List.getD_eq_getElem l 0 hi]
  have hsplit : l.sum = (l.take i).sum + (l.drop i).sum := by
    rw [← List.sum_append, List.take_append_drop]
  have hdrop : l.drop i = l[i] :: l.drop (i + 1) := List.drop_eq_getElem_cons hi
  rw [hsplit, hdrop, List.sum_cons]
  ring

theorem foldl_bumpAt_sum :
    ∀ (chosen : List Nat) (l : List Int), (∀ i ∈ chosen, i < l.length) →
      (chosen.foldl PlanSpec.bumpAt l).sum = l.sum + chosen.length
  | [], l, _ => by simp
  | i :: rest, l, h => by
      rw [List.foldl_cons, foldl_bumpAt_sum rest (PlanSpec.bumpAt l i)
        (fun j hj => by
          rw [bumpAt_length]
          exact h j (List.mem_cons_of_mem _ hj)),
        bumpAt_sum l i (h i (List.mem_cons_self _ _)), List.length_cons]
      push_cast
      ring

theorem sum_map_const_add (a : Int) :
    ∀ l : List Int, (l.map (fun x => a + x)).sum = a * l.length + l.sum
  | [] => by simp
  | x :: rest => by
      rw [List.map_cons, List.sum_cons, List.sum_cons, sum_map_const_add a rest,
        List.length_cons]
      push_cast
      ring

theorem mapIdx_forall {α β : Type} (f : Nat → α → β) (P : β → Prop)
    (h : ∀ i x, P (f i x)) (l : List α) : ∀ b ∈ List.mapIdx f l, P b := by
  rw [List.mapIdx_eq_enum_map]
  intro b hb
  rcases List.mem_map.1 hb with ⟨⟨i, x⟩, _, rfl⟩
  exact h i x

theorem distWeights_pos (titles : List String) :
    ∀ w ∈ PlanSpec.distWeights titles, 0 < w.num ∧ 0 < w.den := by
  unfold PlanSpec.distWeights
  exact mapIdx_forall _ _ (fun i t => title_weight_pos i titles.length t) titles

theorem distWeights_length (titles : List String) :
    (PlanSpec.distWeights titles).length = titles.length := by
  unfold PlanSpec.distWeights
  exact List.length_mapIdx

/-- With at least one title the `or 1.0` branch is dead: the weight sum is
the positive fold itself. -/
theorem distWeightSum_eq (titles : List String) (h : titles ≠ []) :
    PlanSpec.distWeightSum titles =
      (PlanSpec.distWeights titles).foldl Frac.add (Frac.ofInt 0) ∧
    0 < ((PlanSpec.distWeights titles).foldl Frac.add (Frac.ofInt 0)).num ∧
    0 < ((PlanSpec.distWeights titles).foldl Frac.add (Frac.ofInt 0)).den := by
  have hne : PlanSpec.distWeights titles ≠ [] := by
    intro h0
    have := distWeights_length titles
    rw [h0] at this
    exact h (List.length_eq_zero.1 this.symm)
  have hpos := foldl_add_pos (PlanSpec.distWeights titles) (Frac.ofInt 0)
    (distWeights_pos titles) (by constructor <;> decide) hne
  refine ⟨?_, hpos.1, hpos.2⟩
  unfold PlanSpec.distWeightSum
  rw [if_neg ?_]
  unfold Frac.eq Frac.ofInt
  simp only [decide_eq_true_eq, mul_one]
  intro h0
  simp only [zero_mul] at h0
  exact absurd h0 (ne_of_gt hpos.1)

/-- The rational value of a scaled weight share. -/
theorem Frac.toQ_scale (r : Int) (w W : Frac) (hwd : w.den ≠ 0) (hWn : W.num ≠ 0)
    (hWd : W.den ≠ 0) :
    (Frac.mul (Frac.ofInt r) (Frac.div w W)).toQ = (r : ℚ) * (w.toQ / W.toQ) := by
  unfold Frac.mul Frac.div Frac.ofInt Frac.toQ
  have h1 : (w.den : ℚ) ≠ 0 := Int.cast_ne_zero.2 hwd
  have h2 : (W.num : ℚ) ≠ 0 := Int.cast_ne_zero.2 hWn
  have h3 : (W.den : ℚ) ≠ 0 := Int.cast_ne_zero.2 hWd
  push_cast
  field_simp

/-- Positivity of the weight sum. -/
theorem distWeightSum_pos (titles : List String) (h : titles ≠ []) :
    0 < (PlanSpec.distWeightSum titles).num ∧
      0 < (PlanSpec.distWeightSum titles).den := by
  obtain ⟨heq, hn, hd⟩ := distWeightSum_eq titles h
  rw [heq]
  exact ⟨hn, hd⟩

theorem Frac.toQ_pos (f : Frac) (hn : 0 < f.num) (hd : 0 < f.den) : 0 < f.toQ := by
  unfold Frac.toQ
  exact div_pos (by exact_mod_cast hn) (by exact_mod_cast hd)

/-- The rational value of the weight sum is the sum of the weight values. -/
theorem distWeightSum_toQ (titles : List String) (h : titles ≠ []) :
    (PlanSpec.distWeightSum titles).toQ =
      ((PlanSpec.distWeights titles).map Frac.toQ).sum := by
  obtain ⟨heq, _, _⟩ := distWeightSum_eq titles h
  rw [heq]
  have hfold := foldl_add_toQ (PlanSpec.distWeights titles) (Frac.ofInt 0)
    (fun f hf => ne_of_gt (distWeights_pos titles f hf).2) (by decide)
  rw [hfold.1, Frac.toQ_ofInt]
  simp

/-- The increments are the pointwise floors of the exact proportional
shares. -/
theorem distIncrements_eq_floors (r : Int) (titles : List String) (hr : 0 ≤ r)
    (h : titles ≠ []) :
    PlanSpec.distIncrements r titles =
      ((PlanSpec.distWeights titles).map
        (fun w => (r : ℚ) * (w.toQ / (PlanSpec.distWeightSum titles).toQ))).map
        (fun q => ⌊q⌋) := by
  unfold PlanSpec.distIncrements
  rw [List.map_map]
  apply List.map_congr_left
  intro w hw
  simp only [Function.comp_apply]
  have hwp := distWeights_pos titles w hw
  have hWp := distWeightSum_pos titles h
  have hnum : 0 ≤ (Frac.mul (Frac.ofInt r)
      (Frac.div w (PlanSpec.distWeightSum titles))).num := by
    unfold Frac.mul Frac.div Frac.ofInt
    exact mul_nonneg hr (mul_nonneg hwp.1.le hWp.2.le)
  have hden : 0 < (Frac.mul (Frac.ofInt r)
      (Frac.div w (PlanSpec.distWeightSum titles))).den := by
    unfold Frac.mul Frac.div Frac.ofInt
    simpa using mul_pos hwp.2 hWp.1
  rw [Frac.trunc_eq_floor _ hnum hden,
    Frac.toQ_scale r w _ (ne_of_gt hwp.2) (ne_of_gt hWp.1) (ne_of_gt hWp.2)]

/-- The exact shares sum to the remainder. -/
theorem distShares_sum (r : Int) (titles : List String) (h : titles ≠ []) :
    ((PlanSpec.distWeights titles).map
      (fun w => (r : ℚ) * (w.toQ / (PlanSpec.distWeightSum titles).toQ))).sum =
      (r : ℚ) := by
  have hWp := distWeightSum_pos titles h
  have hWQ : (PlanSpec.distWeightSum titles).toQ ≠ 0 :=
    ne_of_gt (Frac.toQ_pos _ hWp.1 hWp.2)
  have hcong : (PlanSpec.distWeights titles).map
      (fun w => (r : ℚ) * (w.toQ / (PlanSpec.distWeightSum titles).toQ)) =
      (PlanSpec.distWeights titles).map
        (fun w => ((r : ℚ) / (PlanSpec.distWeightSum titles).toQ) * Frac.toQ w) :=
    List.map_congr_left (fun w _ => by ring)
  rw [hcong, List.sum_map_mul_left, ← distWeightSum_toQ titles h]
  exact div_mul_cancel₀ _ hWQ

theorem distIncrements_length (r : Int) (titles : List String) :
    (PlanSpec.distIncrements r titles).length = titles.length := by
  unfold PlanSpec.distIncrements
  rw [List.length_map, distWeights_length]

/-- The floor sum never exceeds the remainder, and falls short by less than
the node count. -/
theorem distIncrements_sum_bounds (r : Int) (titles : List String) (hr : 0 ≤ r)
    (h : titles ≠ []) :
    (PlanSpec.distIncrements r titles).sum ≤ r ∧
      r - (titles.length : Int) ≤ (PlanSpec.distIncrements r titles).sum := by
  rw [distIncrements_eq_floors r titles hr h]
  set qs := (PlanSpec.distWeights titles).map
    (fun w => (r : ℚ) * (w.toQ / (PlanSpec.distWeightSum titles).toQ)) with hqs
  have hsum : qs.sum = (r : ℚ) := distShares_sum r titles h
  have hlen : qs.length = titles.length := by
    rw [hqs, List.length_map, distWeights_length]
  constructor
  · have hb := sum_floor_le qs
    rw [hsum] at hb
    exact_mod_cast hb
  · have hb := sum_sub_len_le_sum_floor qs
    rw [hsum, hlen] at hb
    exact_mod_cast hb

/-- Every index in the repayment order is a valid title index. -/
theorem mem_distOrder (r : Int) (titles : List String) (i : Nat)
    (hi : i ∈ PlanSpec.distOrder r titles) : i < titles.length := by
  unfold PlanSpec.distOrder at hi
  simp only [mem_pySorted, List.mem_range] at hi
  exact hi

theorem distOrder_length (r : Int) (titles : List String) :
    (PlanSpec.distOrder r titles).length = titles.length := by
  unfold PlanSpec.distOrder
  simp only [pySorted_length, List.length_range]

theorem distMinimum_nonneg (total : Int) (count : Nat) :
    0 ≤ PlanSpec.distMinimum total count := by
  unfold PlanSpec.distMinimum
  by_cases hle : (count : Int) ≤ total
  · rw [if_pos hle]
    have h0 : (0 : Int) ≤ total := le_trans (Int.natCast_nonneg count) hle
    exact le_min (by norm_num) (Int.fdiv_nonneg h0 (Int.natCast_nonneg count))
  · rw [if_neg hle]

theorem distMinimum_mul_le (total : Int) (count : Nat)
    (hc : 0 < (count : Int)) (hle : (count : Int) ≤ total) :
    PlanSpec.distMinimum total count * count ≤ total := by
  unfold PlanSpec.distMinimum
  rw [if_pos hle]
  calc min 20 (total.fdiv count) * (count : Int)
      ≤ total.fdiv count * count :=
        mul_le_mul_of_nonneg_right (min_le_right _ _) hc.le
    _ ≤ total := by
        rw [Int.fdiv_eq_ediv total hc.le]
        exact Int.ediv_mul_le total (ne_of_gt hc)

/-- The floor allocation plus the clamped remainder reproduce `max 0 total`. -/
theorem distMin_plus_rem (total : Int) (count : Nat) (hc : 0 < (count : Int)) :
    PlanSpec.distMinimum total count * count +
      max 0 (total - PlanSpec.distMinimum total count * count) = max 0 total := by
  by_cases hle : (count : Int) ≤ total
  · have h1 := distMinimum_mul_le total count hc hle
    have h2 : (0 : Int) ≤ total := le_trans hc.le hle
    generalize PlanSpec.distMinimum total count * (count : Int) = P at h1 ⊢
    omega
  · have h0 : PlanSpec.distMinimum total count = 0 := by
      unfold PlanSpec.distMinimum
      rw [if_neg hle]
    rw [h0]
    simp

/-- Sum of the post-repayment minute list: the repayment loop pays back the
truncation shortfall exactly, so the body of `distribute_minutes` sums to
`minimum * count + remainder`. -/
theorem distFinal_sum (rem m : Int) (titles : List String)
    (hr : 0 ≤ rem) (h : titles ≠ []) :
    ((if (PlanSpec.distIncrements rem titles).foldl (· + ·) 0 < rem then
        ((PlanSpec.distOrder rem titles).take
            ((rem - (PlanSpec.distIncrements rem titles).foldl (· + ·) 0).toNat)).foldl
          PlanSpec.bumpAt (PlanSpec.distIncrements rem titles)
      else PlanSpec.distIncrements rem titles).map
        (fun extra => m + extra)).sum = m * titles.length + rem := by
  rw [← List.sum_eq_foldl]
  obtain ⟨hb1, hb2⟩ := distIncrements_sum_bounds rem titles hr h
  have hil := distIncrements_length rem titles
  by_cases hlt : (PlanSpec.distIncrements rem titles).sum < rem
  · rw [if_pos hlt]
    set chosen := (PlanSpec.distOrder rem titles).take
      ((rem - (PlanSpec.distIncrements rem titles).sum).toNat) with hch
    have hmem : ∀ i ∈ chosen, i < (PlanSpec.distIncrements rem titles).length := by
      intro i hi
      rw [hch] at hi
      rw [hil]
      exact mem_distOrder rem titles i (List.take_subset _ _ hi)
    have hchlen : chosen.length =
        (rem - (PlanSpec.distIncrements rem titles).sum).toNat := by
      rw [hch, List.length_take, distOrder_length]
      omega
    rw [sum_map_const_add, foldl_bumpAt_sum chosen _ hmem, foldl_bumpAt_length,
      hil, hchlen]
    have hpay : (PlanSpec.distIncrements rem titles).sum +
        (((rem - (PlanSpec.distIncrements rem titles).sum).toNat : Int)) = rem := by
      omega
    rw [hpay]
  · rw [if_neg hlt]
    rw [sum_map_const_add, hil]
    have hs : (PlanSpec.distIncrements rem titles).sum = rem := by omega
    rw [hs]

/-- Over a nonempty title list, `distribute_minutes` conserves the clamped
total: the allocated minutes sum to `max 0 total`. -/
theorem distribute_minutes_sum (total : Int) (titles : List String)
    (h : titles ≠ []) :
    (PlanSpec.distribute_minutes total titles).sum = max 0 total := by
  have hcount : ¬ titles.length = 0 := fun h0 => h (List.length_eq_zero.1 h0)
  have hcpos : (0 : Int) < titles.length := by
    exact_mod_cast Nat.pos_of_ne_zero hcount
  simp only [PlanSpec.distribute_minutes]
  rw [if_neg hcount,
    distFinal_sum
      (max 0 (total - PlanSpec.distMinimum total titles.length * titles.length))
      (PlanSpec.distMinimum total titles.length) titles (le_max_left _ _) h]
  exact distMin_plus_rem total titles.length hcpos

/-- C4: the claimed identity
`sum(minutes) = round(((total_hours_min + total_hours_max) / 2) * 60)` fails
on a topic spec whose hour range is inverted: `target_minutes` first clamps
`max_hours` up to `min_hours`, so the spec built from `tsInverted`
(10-hour minimum, 0-hour maximum) allocates 600 minutes, not
`round(((10 + 0) / 2) * 60) = 300`. -/
theorem C4_counterexample :
    (PlanSpec.build_generation_spec Ex.mp0 none none Ex.tsInverted).minutes.sum ≠
      (Frac.mul
        (Frac.div
          (Frac.add Ex.tsInverted.constraints.total_hours_min
            Ex.tsInverted.constraints.total_hours_max)
          (Frac.ofInt 2))
        (Frac.ofInt 60)).pyRound := by
  decide

/-- C4, amended: for every generation spec built by `build_generation_spec`
whose title list is nonempty, the per-node minutes sum exactly to
`max 0 (round(((total_hours_min + max(total_hours_min, total_hours_max)) / 2) * 60))`
— the distribution conserves the rounded total computed from the clamped
hour range (the floor-plus-proportional-remainder scheme with shortfall
repayment loses and creates no minute). -/
theorem C4_minutes_conservation (mp : String → List String)
    (p t : Option String) (ts : TopicSpec)
    (h : (PlanSpec.build_generation_spec mp p t ts).titles ≠ []) :
    (PlanSpec.build_generation_spec mp p t ts).minutes.sum =
      max 0 ((Frac.mul
        (Frac.div
          (Frac.add ts.constraints.total_hours_min
            (if Frac.lt ts.constraints.total_hours_max
                ts.constraints.total_hours_min
             then ts.constraints.total_hours_min
             else ts.constraints.total_hours_max))
          (Frac.ofInt 2))
        (Frac.ofInt 60)).pyRound) := by
  have hm : (PlanSpec.build_generation_spec mp p t ts).minutes =
      PlanSpec.target_minutes ts
        ((PlanSpec.build_generation_spec mp p t ts).titles) := rfl
  rw [hm]
  simp only [PlanSpec.target_minutes]
  exact distribute_minutes_sum _ _ h

/-- Witness for the amended C4 theorem at the concrete topic spec `ts1`. -/
theorem C4_witness :
    (PlanSpec.build_generation_spec Ex.mp0 none none Ex.ts1).titles ≠ [] ∧
    (PlanSpec.build_generation_spec Ex.mp0 none none Ex.ts1).minutes.sum =
      max 0 ((Frac.mul
        (Frac.div
          (Frac.add Ex.ts1.constraints.total_hours_min
            (if Frac.lt Ex.ts1.constraints.total_hours_max
                Ex.ts1.constraints.total_hours_min
             then Ex.ts1.constraints.total_hours_min
             else Ex.ts1.constraints.total_hours_max))
          (Frac.ofInt 2))
        (Frac.ofInt 60)).pyRound) :=
  ⟨by decide, C4_minutes_conservation Ex.mp0 none none Ex.ts1 (by decide)⟩

/-- `insertLe` inserts exactly one copy. -/
theorem insertLe_perm (le : α → α → Bool) (x : α) :
    ∀ l : List α, (insertLe le x l).Perm (x :: l)
  | [] => List.Perm.refl _
  | y :: ys => by
      unfold insertLe
      by_cases h : le y x = true
      · rw [if_pos h]
        exact ((insertLe_perm le x ys).cons y).trans (List.Perm.swap x y ys)
      · rw [if_neg h]

/-- The insertion sort permutes its input. -/
theorem pySorted_perm (le : α → α → Bool) :
    ∀ l : List α, (pySorted le l).Perm l
  | [] => List.Perm.refl _
  | x :: xs =>
      (insertLe_perm le x (pySorted le xs)).trans ((pySorted_perm le xs).cons x)

/-- `contains` on strings is membership. -/
theorem contains_eq_mem (l : List String) (x : String) :
    l.contains x = decide (x ∈ l) := by
  by_cases h : x ∈ l <;> simp [h, List.elem_iff]

/-- Removing one satisfying element of a duplicate-free list from a filter
shrinks its length by one. -/
theorem filter_remove_one :
    ∀ (l : List String), l.Nodup → ∀ x ∈ l, ∀ (p : String → Bool), p x = true →
      (l.filter (fun u => p u && !(u = x : Bool))).length + 1 = (l.filter p).length
  | [], _, x, hx, _, _ => absurd hx (List.not_mem_nil x)
  | y :: ys, hnd, x, hx, p, hpx => by
      rw [List.nodup_cons] at hnd
      rcases List.mem_cons.1 hx with rfl | hx'
      · rw [List.filter_cons, List.filter_cons]
        have hy : (p x && !(x = x : Bool)) = false := by simp
        rw [hy, if_neg Bool.false_ne_true, if_pos hpx, List.length_cons]
        have : ys.filter (fun u => p u && !(u = x : Bool)) = ys.filter p :=
          List.filter_congr (fun u hu => by
            have : u ≠ x := fun h => hnd.1 (h ▸ hu)
            simp [this])
        rw [this]
      · rw [List.filter_cons, List.filter_cons]
        have hyx : y ≠ x := fun h => hnd.1 (h ▸ hx')
        have h1 : (p y && !(y = x : Bool)) = p y := by simp [hyx]
        rw [h1]
        by_cases hpy : p y = true
        · rw [if_pos hpy, if_pos hpy]
          simp only [List.length_cons]
          rw [← filter_remove_one ys hnd.2 x hx' p hpx]
        · rw [if_neg hpy, if_neg hpy]
          exact filter_remove_one ys hnd.2 x hx' p hpx

/-- A filter over elements untouched by the predicate change is unchanged. -/
theorem filter_congr_not_mem (l : List String) (x : String) (hx : x ∉ l)
    (p : String → Bool) :
    l.filter (fun u => p u && !(u = x : Bool)) = l.filter p :=
  List.filter_congr (fun u hu => by
    have : u ≠ x := fun h => hx (h ▸ hu)
    simp [this])

/-- Keys of an in-place update: unchanged when the key is present, appended
when new. -/
theorem assocUpd_fst {α : Type} (k : String) (v : α) :
    ∀ l : List (String × α),
      (assocUpd k v l).map Prod.fst =
        if k ∈ l.map Prod.fst then l.map Prod.fst else l.map Prod.fst ++ [k]
  | [] => by simp [assocUpd]
  | (k', v') :: rest => by
      unfold assocUpd
      by_cases h : k' = k
      · rw [if_pos h]
        have hm : k ∈ ((k', v') :: rest).map Prod.fst := by
          rw [List.map_cons]
          exact List.mem_cons.2 (Or.inl h.symm)
        rw [if_pos hm, List.map_cons, List.map_cons, h]
      · rw [if_neg h, List.map_cons, List.map_cons, assocUpd_fst k v rest]
        by_cases hm : k ∈ rest.map Prod.fst
        · rw [if_pos hm, if_pos (List.mem_cons_of_mem _ hm)]
        · rw [if_neg hm, if_neg ?_, List.cons_append]
          intro hc
          rcases List.mem_cons.1 hc with h' | h'
          · exact h h'.symm
          · exact hm h'

/-- The fold building `node_map` keeps its keys duplicate-free. -/
theorem node_map_fold_nodup :
    ∀ (nodes : List Dag.DagNode) (acc : List (String × Dag.DagNode)),
      (acc.map Prod.fst).Nodup →
      ((nodes.foldl
        (fun mapping node =>
          match node.id with
          | none => mapping
          | some node_id => assocUpd node_id node mapping) acc).map
        Prod.fst).Nodup
  | [], _, h => h
  | n :: rest, acc, h => by
      rw [List.foldl_cons]
      apply node_map_fold_nodup rest
      cases hid : n.id with
      | none => simpa [hid] using h
      | some nid =>
          simp only [hid]
          rw [assocUpd_fst]
          by_cases hm : nid ∈ acc.map Prod.fst
          · rw [if_pos hm]
            exact h
          · rw [if_neg hm, List.nodup_append]
            refine ⟨h, List.nodup_singleton _, ?_⟩
            intro a ha hb
            rw [List.mem_singleton] at hb
            exact hm (hb ▸ ha)

/-- `node_map` has duplicate-free keys. -/
theorem node_map_keys_nodup (nodes : List Dag.DagNode) :
    ((Dag.node_map nodes).map Prod.fst).Nodup :=
  node_map_fold_nodup nodes [] (by simp)

/-- With duplicate-free keys, lookup of an entry's key returns its value. -/
theorem assocFind_self {α : Type} :
    ∀ (l : List (String × α)), (l.map Prod.fst).Nodup → ∀ p ∈ l,
      assocFind p.1 l = some p.2
  | [], _, p, hp => absurd hp (List.not_mem_nil p)
  | (k', v') :: rest, hnd, p, hp => by
      rw [List.map_cons, List.nodup_cons] at hnd
      unfold assocFind
      rcases List.mem_cons.1 hp with rfl | hp'
      · rw [if_pos rfl]
      · have hne : k' ≠ p.1 := by
          intro h
          apply hnd.1
          rw [h]
          exact List.mem_map.2 ⟨p, hp', rfl⟩
        rw [if_neg hne]
        exact assocFind_self rest hnd.2 p hp'

/-- A present key has a binding. -/
theorem mem_keys_assocFind {α : Type} :
    ∀ (l : List (String × α)) (k : String), k ∈ l.map Prod.fst →
      ∃ v, assocFind k l = some v
  | [], k, h => absurd h (List.not_mem_nil k)
  | (k', v') :: rest, k, h => by
      unfold assocFind
      by_cases he : k' = k
      · exact ⟨v', by rw [if_pos he]⟩
      · rw [List.map_cons] at h
        rcases List.mem_cons.1 h with h1 | h2
        · exact absurd h1.symm he
        · rcases mem_keys_assocFind rest k h2 with ⟨v, hv⟩
          exact ⟨v, by rw [if_neg he]; exact hv⟩

/-- Invariant of the edge-construction fold: the edge list equals the seen
list, stays duplicate-free, and never contains the node's own id. -/
theorem edgeStep_fold_inv (keys : List String) (nid : String) :
    ∀ (raw : List String) (acc : List String × List String),
      acc.1 = acc.2 → acc.2.Nodup → nid ∉ acc.2 →
      (raw.foldl (Dag.edgeStep keys nid) acc).1 =
          (raw.foldl (Dag.edgeStep keys nid) acc).2 ∧
        (raw.foldl (Dag.edgeStep keys nid) acc).2.Nodup ∧
        nid ∉ (raw.foldl (Dag.edgeStep keys nid) acc).2
  | [], acc, h1, h2, h3 => ⟨h1, h2, h3⟩
  | prereq :: rest, acc, h1, h2, h3 => by
      rw [List.foldl_cons]
      apply edgeStep_fold_inv keys nid rest
      all_goals unfold Dag.edgeStep
      all_goals by_cases hp1 : prereq = nid
      case pos => rw [if_pos hp1]; exact h1
      case neg =>
        by_cases hp2 : ¬ keys.contains prereq = true
        · rw [if_neg hp1, if_pos hp2]
          exact h1
        · by_cases hp3 : acc.2.contains prereq = true
          · rw [if_neg hp1, if_neg hp2, if_pos hp3]
            exact h1
          · rw [if_neg hp1, if_neg hp2, if_neg hp3]
            rw [h1]
      case pos => rw [if_pos hp1]; exact h2
      case neg =>
        by_cases hp2 : ¬ keys.contains prereq = true
        · rw [if_neg hp1, if_pos hp2]
          exact h2
        · by_cases hp3 : acc.2.contains prereq = true
          · rw [if_neg hp1, if_neg hp2, if_pos hp3]
            exact h2
          · rw [if_neg hp1, if_neg hp2, if_neg hp3]
            rw [List.nodup_append]
            refine ⟨h2, List.nodup_singleton _, ?_⟩
            intro a ha hb
            rw [List.mem_singleton] at hb
            subst hb
            rw [contains_eq_mem] at hp3
            simp only [decide_eq_true_eq] at hp3
            exact hp3 ha
      case pos => rw [if_pos hp1]; exact h3
      case neg =>
        by_cases hp2 : ¬ keys.contains prereq = true
        · rw [if_neg hp1, if_pos hp2]
          exact h3
        · by_cases hp3 : acc.2.contains prereq = true
          · rw [if_neg hp1, if_neg hp2, if_pos hp3]
            exact h3
          · rw [if_neg hp1, if_neg hp2, if_neg hp3]
            intro hm
            rcases List.mem_append.1 hm with hm1 | hm1
            · exact h3 hm1
            · rw [List.mem_singleton] at hm1
              exact hp1 hm1.symm

/-- The edge list of a node is duplicate-free and excludes the node itself. -/
theorem edgePreds_props (keys : List String) (nid : String) (node : Dag.DagNode) :
    (Dag.edgePreds keys nid node).Nodup ∧ nid ∉ Dag.edgePreds keys nid node := by
  unfold Dag.edgePreds
  cases hp : node.prerequisites with
  | none => simp [hp]
  | some raw =>
      simp only [hp]
      have h := edgeStep_fold_inv keys nid raw ([], []) rfl (List.nodup_nil)
        (List.not_mem_nil nid)
      rw [h.1]
      exact ⟨h.2.1, h.2.2⟩

/-- The per-key predecessor list is duplicate-free and excludes the key. -/
theorem predsOf_props (nodes : List Dag.DagNode) (k : String) :
    (Dag.predsOf nodes k).Nodup ∧ k ∉ Dag.predsOf nodes k := by
  unfold Dag.predsOf
  cases hf : assocFind k (Dag.node_map nodes) with
  | none => simp
  | some node => exact edgePreds_props _ k node

/-- The dependent-collection fold appends, in entry order, the keys whose
edge list contains the probe. -/
theorem depFold (keys : List String) (m : String) :
    ∀ (l : List (String × Dag.DagNode)) (acc : List String),
      l.foldl
        (fun acc p =>
          if (Dag.edgePreds keys p.1 p.2).contains m then acc ++ [p.1] else acc)
        acc =
      acc ++ (l.filter
        (fun p => (Dag.edgePreds keys p.1 p.2).contains m)).map Prod.fst
  | [], acc => by simp
  | p :: rest, acc => by
      rw [List.foldl_cons, List.filter_cons]
      by_cases hc : (Dag.edgePreds keys p.1 p.2).contains m = true
      · rw [if_pos hc, if_pos hc, depFold keys m rest, List.map_cons]
        simp
      · rw [if_neg hc, if_neg hc, depFold keys m rest]

/-- Mapping `fst` over an entry filter equals filtering the keys, when the
entry predicate only looks at the key. -/
theorem filter_map_fst {α : Type} (pe : (String × α) → Bool) (pk : String → Bool) :
    ∀ (l : List (String × α)), (∀ p ∈ l, pe p = pk p.1) →
      (l.filter pe).map Prod.fst = (l.map Prod.fst).filter pk
  | [], _ => rfl
  | p :: rest, h => by
      rw [List.filter_cons, List.map_cons, List.filter_cons,
        h p (List.mem_cons_self _ _)]
      by_cases hc : pk p.1 = true
      · rw [if_pos hc, if_pos hc, List.map_cons,
          filter_map_fst pe pk rest (fun q hq => h q (List.mem_cons_of_mem _ hq))]
      · rw [if_neg hc, if_neg hc,
          filter_map_fst pe pk rest (fun q hq => h q (List.mem_cons_of_mem _ hq))]

/-- The dependents map of `_graph_from_nodes` lists, in ascending entry
order, the keys whose predecessor list contains the probe. -/
theorem dependents_eq (nodes : List Dag.DagNode) (m : String) :
    (Dag.graph_from_nodes nodes).2.2 m =
      ((Dag.node_map nodes).map Prod.fst).filter
        (fun d => (Dag.predsOf nodes d).contains m) := by
  have h0 : (Dag.graph_from_nodes nodes).2.2 m =
      (Dag.node_map nodes).foldl
        (fun acc p =>
          if (Dag.edgePreds ((Dag.node_map nodes).map Prod.fst) p.1 p.2).contains m
          then acc ++ [p.1] else acc) [] := rfl
  rw [h0, depFold, List.nil_append]
  apply filter_map_fst
  intro p hp
  have hpe : Dag.predsOf nodes p.1 =
      Dag.edgePreds ((Dag.node_map nodes).map Prod.fst) p.1 p.2 := by
    unfold Dag.predsOf
    rw [assocFind_self (Dag.node_map nodes) (node_map_keys_nodup nodes) p hp]
  rw [hpe]

/-- The indegree map of `_graph_from_nodes` is the predecessor-list length. -/
theorem indegree_eq (nodes : List Dag.DagNode) (k : String) :
    (Dag.graph_from_nodes nodes).2.1 k = ((Dag.predsOf nodes k).length : Int) := by
  have h0 : (Dag.graph_from_nodes nodes).2.1 k =
      (match assocFind k (Dag.node_map nodes) with
       | none => (0 : Int)
       | some node =>
          ((Dag.edgePreds ((Dag.node_map nodes).map Prod.fst) k node).length : Int)) :=
    rfl
  rw [h0]
  unfold Dag.predsOf
  cases hf : assocFind k (Dag.node_map nodes) with
  | none => simp
  | some node => simp

/-- Net effect of folding `kahnStep` over a duplicate-free dependent list:
each listed indegree drops by one, and exactly the dependents whose old
indegree was one are enqueued, in list order. -/
theorem kahnFold_spec :
    ∀ (ds : List String), ds.Nodup → ∀ (ind : String → Int) (q0 : List String),
      (∀ k, (ds.foldl Dag.kahnStep (ind, q0)).1 k =
        if k ∈ ds then ind k - 1 else ind k) ∧
      (ds.foldl Dag.kahnStep (ind, q0)).2 =
        q0 ++ ds.filter (fun d => ind d - 1 = 0)
  | [], _, ind, q0 => ⟨fun k => by simp, by simp⟩
  | d :: rest, hnd, ind, q0 => by
      rw [List.nodup_cons] at hnd
      rw [List.foldl_cons]
      by_cases hc : ind d - 1 = 0
      · have h1 : Dag.kahnStep (ind, q0) d =
            (fun k => if k = d then ind d - 1 else ind k, q0 ++ [d]) := by
          unfold Dag.kahnStep
          rw [if_pos hc]
        rw [h1]
        obtain ⟨ih1, ih2⟩ := kahnFold_spec rest hnd.2
          (fun k => if k = d then ind d - 1 else ind k) (q0 ++ [d])
        constructor
        · intro k
          rw [ih1 k]
          by_cases hkd : k = d
          · subst hkd
            rw [if_neg (fun h => hnd.1 h), if_pos rfl,
              if_pos (List.mem_cons_self _ _)]
          · by_cases hkr : k ∈ rest
            · rw [if_pos hkr, if_neg hkd, if_pos (List.mem_cons_of_mem _ hkr)]
            · rw [if_neg hkr, if_neg hkd,
                if_neg (fun h => (List.mem_cons.1 h).elim hkd hkr)]
        · rw [ih2, List.filter_cons]
          have hd : (decide (ind d - 1 = 0)) = true := decide_eq_true hc
          rw [hd, if_pos rfl]
          have hfc : rest.filter
              (fun x => (if x = d then ind d - 1 else ind x) - 1 = 0) =
              rest.filter (fun x => ind x - 1 = 0) :=
            List.filter_congr (fun x hx => by
              have hxd : x ≠ d := fun h => hnd.1 (h ▸ hx)
              simp [hxd])
          rw [hfc]
          simp
      · have h1 : Dag.kahnStep (ind, q0) d =
            (fun k => if k = d then ind d - 1 else ind k, q0) := by
          unfold Dag.kahnStep
          rw [if_neg hc]
        rw [h1]
        obtain ⟨ih1, ih2⟩ := kahnFold_spec rest hnd.2
          (fun k => if k = d then ind d - 1 else ind k) q0
        constructor
        · intro k
          rw [ih1 k]
          by_cases hkd : k = d
          · subst hkd
            rw [if_neg (fun h => hnd.1 h), if_pos rfl,
              if_pos (List.mem_cons_self _ _)]
          · by_cases hkr : k ∈ rest
            · rw [if_pos hkr, if_neg hkd, if_pos (List.mem_cons_of_mem _ hkr)]
            · rw [if_neg hkr, if_neg hkd,
                if_neg (fun h => (List.mem_cons.1 h).elim hkd hkr)]
        · rw [ih2, List.filter_cons]
          have hd : (decide (ind d - 1 = 0)) = false := decide_eq_false hc
          rw [hd]
          have hfc : rest.filter
              (fun x => (if x = d then ind d - 1 else ind x) - 1 = 0) =
              rest.filter (fun x => ind x - 1 = 0) :=
            List.filter_congr (fun x hx => by
              have hxd : x ≠ d := fun h => hnd.1 (h ▸ hx)
              simp [hxd])
          rw [hfc]
          simp

/-- One unfolding of the Kahn loop on a nonempty queue. -/
theorem kahnLoop_cons (deps : String → List String) (fuel : Nat)
    (ind : String → Int) (current : String) (queue ordered : List String) :
    Dag.kahnLoop deps (fuel + 1) ind (current :: queue) ordered =
      Dag.kahnLoop deps fuel
        ((pySorted pyStrLe (deps current)).foldl Dag.kahnStep (ind, [])).1
        (queue ++ ((pySorted pyStrLe (deps current)).foldl Dag.kahnStep (ind, [])).2)
        (ordered ++ [current]) := rfl

/-- Soundness invariant of the Kahn loop: when the indegree map counts the
unprocessed predecessors of every unprocessed key, the queue holds only
fully-resolved unprocessed keys, and the processed-plus-queued ids are
duplicate-free keys, then the loop's output is a duplicate-free list of keys
extending the processed prefix. -/
theorem kahn_sound (keys : List String) (preds : String → List String)
    (deps : String → List String) (hkn : keys.Nodup)
    (hpn : ∀ k, (preds k).Nodup) (hself : ∀ k, k ∉ preds k)
    (hdeps : ∀ m, deps m = keys.filter (fun d => (preds d).contains m)) :
    ∀ (fuel : Nat) (indeg : String → Int) (queue ordered : List String),
      (ordered ++ queue).Nodup →
      (∀ k ∈ ordered ++ queue, k ∈ keys) →
      (∀ k ∈ keys, k ∉ ordered → indeg k =
        (((preds k).filter (fun u => !(ordered.contains u))).length : Int)) →
      (∀ k ∈ queue, ∀ u ∈ preds k, u ∈ ordered) →
      (∀ k ∈ ordered, ∀ u ∈ preds k, u ∈ ordered) →
      (Dag.kahnLoop deps fuel indeg queue ordered).Nodup ∧
        (∀ k ∈ Dag.kahnLoop deps fuel indeg queue ordered, k ∈ keys) ∧
        ∃ rest, Dag.kahnLoop deps fuel indeg queue ordered = ordered ++ rest
  | 0, indeg, queue, ordered, h1, h2, _, _, _ =>
      ⟨(List.sublist_append_left ordered queue).nodup h1,
       fun k hk => h2 k (List.mem_append_left queue hk),
       ⟨[], (List.append_nil ordered).symm⟩⟩
  | fuel + 1, indeg, [], ordered, h1, h2, _, _, _ =>
      ⟨(List.sublist_append_left ordered []).nodup h1,
       fun k hk => h2 k (List.mem_append_left [] hk),
       ⟨[], (List.append_nil ordered).symm⟩⟩
  | fuel + 1, indeg, current :: qrest, ordered, h1, h2, h3, h4, h5 => by
      rw [kahnLoop_cons]
      have hdsperm := pySorted_perm pyStrLe (deps current)
      have hdsnd : (pySorted pyStrLe (deps current)).Nodup := by
        rw [hdsperm.nodup_iff, hdeps]
        exact hkn.filter _
      have hdsmem : ∀ d, d ∈ pySorted pyStrLe (deps current) ↔
          d ∈ keys ∧ current ∈ preds d := by
        intro d
        rw [hdsperm.mem_iff, hdeps, List.mem_filter, contains_eq_mem,
          decide_eq_true_eq]
      obtain ⟨hind, hq⟩ := kahnFold_spec (pySorted pyStrLe (deps current)) hdsnd
        indeg []
      rw [List.nil_append] at hq
      rw [hq]
      have hcur_keys : current ∈ keys :=
        h2 current (List.mem_append_right ordered (List.mem_cons_self _ _))
      rw [List.nodup_append] at h1
      obtain ⟨hno, hncq, hdisj⟩ := h1
      rw [List.nodup_cons] at hncq
      have hco : current ∉ ordered := fun h => hdisj h (List.mem_cons_self _ _)
      have hcur_preds : ∀ u ∈ preds current, u ∈ ordered :=
        h4 current (List.mem_cons_self _ _)
      -- facts about every newly enqueued id
      have hnewq : ∀ d ∈ (pySorted pyStrLe (deps current)).filter
          (fun d => indeg d - 1 = 0),
          d ∈ keys ∧ current ∈ preds d ∧ d ∉ ordered ∧ d ∉ qrest ∧ d ≠ current ∧
          (∀ u ∈ preds d, u ∈ ordered ++ [current]) := by
        intro d hd
        rw [List.mem_filter] at hd
        obtain ⟨hdds, hdz⟩ := hd
        rw [decide_eq_true_eq] at hdz
        obtain ⟨hdk, hdp⟩ := (hdsmem d).1 hdds
        have hdo : d ∉ ordered := fun h => hco (h5 d h current hdp)
        have hdq : d ∉ qrest := fun h =>
          hco (h4 d (List.mem_cons_of_mem _ h) current hdp)
        have hdc : d ≠ current := fun h => hself current (h ▸ hdp)
        refine ⟨hdk, hdp, hdo, hdq, hdc, ?_⟩
        have hlen := h3 d hdk hdo
        have hlen1 : ((preds d).filter (fun u => !(ordered.contains u))).length = 1 := by
          omega
        rcases List.length_eq_one.1 hlen1 with ⟨a, ha⟩
        have hcf : current ∈ (preds d).filter (fun u => !(ordered.contains u)) := by
          rw [List.mem_filter, contains_eq_mem]
          exact ⟨hdp, by simp [hco]⟩
        rw [ha, List.mem_singleton] at hcf
        intro u hu
        by_cases huo : u ∈ ordered
        · exact List.mem_append_left _ huo
        · have huf : u ∈ (preds d).filter (fun u => !(ordered.contains u)) := by
            rw [List.mem_filter, contains_eq_mem]
            exact ⟨hu, by simp [huo]⟩
          rw [ha, List.mem_singleton] at huf
          rw [huf, ← hcf]
          exact List.mem_append_right _ (List.mem_singleton.2 rfl)
      -- recursive call
      have hrec := kahn_sound keys preds deps hkn hpn hself hdeps fuel
        ((pySorted pyStrLe (deps current)).foldl Dag.kahnStep (indeg, [])).1
        (qrest ++ (pySorted pyStrLe (deps current)).filter
          (fun d => indeg d - 1 = 0))
        (ordered ++ [current]) ?_ ?_ ?_ ?_ ?_
      · obtain ⟨ha, hb, rest', hc⟩ := hrec
        refine ⟨ha, hb, [current] ++ rest', ?_⟩
        rw [hc, List.append_assoc]
      -- I1: nodup
      · rw [← List.append_assoc, List.nodup_append]
        refine ⟨?_, List.Nodup.filter _ hdsnd, ?_⟩
        · rw [← List.append_cons, List.nodup_append]
          exact ⟨hno, List.nodup_cons.2 ⟨hncq.1, hncq.2⟩, hdisj⟩
        · intro a ha hb
          obtain ⟨_, _, hao, haq, hac, _⟩ := hnewq a hb
          rcases List.mem_append.1 ha with ha1 | ha1
          · rcases List.mem_append.1 ha1 with ha2 | ha2
            · exact hao ha2
            · exact hac (List.mem_singleton.1 ha2)
          · exact haq ha1
      -- I2: membership in keys
      · intro k hk
        rcases List.mem_append.1 hk with hk1 | hk1
        · rcases List.mem_append.1 hk1 with hk2 | hk2
          · exact h2 k (List.mem_append_left _ hk2)
          · rw [List.mem_singleton] at hk2
            exact hk2 ▸ hcur_keys
        · rcases List.mem_append.1 hk1 with hk2 | hk2
          · exact h2 k (List.mem_append_right _ (List.mem_cons_of_mem _ hk2))
          · exact (hnewq k hk2).1
      -- I3: indegree counts unprocessed predecessors
      · intro k hkk hko
        have hko1 : k ∉ ordered := fun h => hko (List.mem_append_left _ h)
        have hkc : k ≠ current := fun h =>
          hko (List.mem_append_right _ (List.mem_singleton.2 h))
        rw [hind k]
        have hfc : (preds k).filter (fun u => !((ordered ++ [current]).contains u)) =
            (preds k).filter
              (fun u => (!(ordered.contains u)) && !(u = current : Bool)) := by
          apply List.filter_congr
          intro u _
          rw [contains_eq_mem, contains_eq_mem]
          by_cases hu1 : u ∈ ordered
          · simp [hu1]
          · by_cases hu2 : u = current
            · simp [hu1, hu2]
            · simp [hu1, hu2]
        rw [hfc]
        by_cases hkds : k ∈ pySorted pyStrLe (deps current)
        · rw [if_pos hkds]
          have hcpk : current ∈ preds k := ((hdsmem k).1 hkds).2
          have hpc : (fun u => !(ordered.contains u)) current = true := by
            show (!(ordered.contains current)) = true
            rw [contains_eq_mem]
            simp [hco]
          have hrm := filter_remove_one (preds k) (hpn k) current hcpk
            (fun u => !(ordered.contains u)) hpc
          simp only [] at hrm
          rw [h3 k hkk hko1]
          omega
        · rw [if_neg hkds]
          have hcpk : current ∉ preds k := fun h => hkds ((hdsmem k).2 ⟨hkk, h⟩)
          rw [filter_congr_not_mem (preds k) current hcpk, h3 k hkk hko1]
      -- I4: queue members fully resolved
      · intro k hk
        rcases List.mem_append.1 hk with hk1 | hk1
        · intro u hu
          exact List.mem_append_left _ (h4 k (List.mem_cons_of_mem _ hk1) u hu)
        · exact (hnewq k hk1).2.2.2.2.2
      -- I5: processed prefix closed under predecessors
      · intro k hk
        rcases List.mem_append.1 hk with hk1 | hk1
        · intro u hu
          exact List.mem_append_left _ (h5 k hk1 u hu)
        · rw [List.mem_singleton] at hk1
          subst hk1
          intro u hu
          exact List.mem_append_left _ (hcur_preds u hu)

/-- The Kahn pass emits a duplicate-free list of node-map keys. -/
theorem kahnOrdered_sound (nodes : List Dag.DagNode) :
    (Dag.kahnOrdered nodes).Nodup ∧
      ∀ k ∈ Dag.kahnOrdered nodes, k ∈ (Dag.node_map nodes).map Prod.fst := by
  have h0 : Dag.kahnOrdered nodes =
      Dag.kahnLoop (Dag.graph_from_nodes nodes).2.2
        (((Dag.node_map nodes).map Prod.fst).length + 1)
        (Dag.graph_from_nodes nodes).2.1
        (pySorted pyStrLe (((Dag.node_map nodes).map Prod.fst).filter
          (fun k => (Dag.graph_from_nodes nodes).2.1 k = 0))) [] := rfl
  have hqperm := pySorted_perm pyStrLe
    (((Dag.node_map nodes).map Prod.fst).filter
      (fun k => (Dag.graph_from_nodes nodes).2.1 k = 0))
  have hqmem : ∀ k, k ∈ pySorted pyStrLe
      (((Dag.node_map nodes).map Prod.fst).filter
        (fun k => (Dag.graph_from_nodes nodes).2.1 k = 0)) →
      k ∈ (Dag.node_map nodes).map Prod.fst ∧
        (Dag.graph_from_nodes nodes).2.1 k = 0 := by
    intro k hk
    rw [hqperm.mem_iff, List.mem_filter, decide_eq_true_eq] at hk
    exact hk
  have hsound := kahn_sound ((Dag.node_map nodes).map Prod.fst)
    (Dag.predsOf nodes) (Dag.graph_from_nodes nodes).2.2
    (node_map_keys_nodup nodes)
    (fun k => (predsOf_props nodes k).1)
    (fun k => (predsOf_props nodes k).2)
    (fun m => dependents_eq nodes m)
    (((Dag.node_map nodes).map Prod.fst).length + 1)
    (Dag.graph_from_nodes nodes).2.1
    (pySorted pyStrLe (((Dag.node_map nodes).map Prod.fst).filter
      (fun k => (Dag.graph_from_nodes nodes).2.1 k = 0))) []
    (by
      rw [List.nil_append, hqperm.nodup_iff]
      exact (node_map_keys_nodup nodes).filter _)
    (by
      intro k hk
      rw [List.nil_append] at hk
      exact (hqmem k hk).1)
    (by
      intro k hk _
      rw [indegree_eq]
      congr 1
      have : ∀ (l : List String),
          l.filter (fun u => !(([] : List String).contains u)) = l := by
        intro l
        apply List.filter_congr ?_ |>.trans (List.filter_true l)
        intro u _
        simp
      rw [this]
    )
    (by
      intro k hk u hu
      have hz := (hqmem k hk).2
      rw [indegree_eq] at hz
      have : (Dag.predsOf nodes k).length = 0 := by omega
      rw [List.length_eq_zero.1 this] at hu
      exact absurd hu (List.not_mem_nil u))
    (by
      intro k hk
      exact absurd hk (List.not_mem_nil k))
  rw [h0]
  exact ⟨hsound.1, hsound.2.1⟩

/-- `topological_order` (with its default fallback) always returns a
permutation of the node-map keys. -/
theorem topological_order_perm (nodes : List Dag.DagNode) :
    (Dag.topological_order nodes).Perm ((Dag.node_map nodes).map Prod.fst) := by
  simp only [Dag.topological_order]
  by_cases hc : (Dag.kahnOrdered nodes).length = (Dag.node_map nodes).length
  · rw [if_pos hc]
    obtain ⟨hnd, hsub⟩ := kahnOrdered_sound nodes
    have hsp := List.subperm_of_subset hnd (fun k hk => hsub k hk)
    apply hsp.perm_of_length_le
    have hl : ((Dag.node_map nodes).map Prod.fst).length =
        (Dag.node_map nodes).length := List.length_map _ _
    omega
  · rw [if_neg hc, if_neg (by simp)]
    exact pySorted_perm pyStrLe _

/-- C5: the claimed order is refuted on two inputs.  On the cyclic graph
`cycNodes` the code returns `["A", "B", "C"]` — the ascending-id sort of ALL
node ids — instead of preserving the resolved prefix `["B"]` and appending
the cycle as the claim states (`["B", "A", "C"]`).  On the acyclic graph
`tieNodes` the code's FIFO queue yields `["A", "B", "X", "C"]` although
`"C" < "X"` were simultaneously available, so ties are not broken by
ascending id (the claim's priority-queue model yields `["A", "B", "C", "X"]`). -/
theorem C5_counterexample :
    Dag.topological_order Ex.cycNodes ≠ Dag.topological_order_spec Ex.cycNodes ∧
    Dag.topological_order Ex.tieNodes ≠ Dag.topological_order_spec Ex.tieNodes := by
  constructor
  · decide
  · decide

/-- C5, amended: `topological_order` runs Kahn's algorithm with a
first-in-first-out queue (seeded with the zero-indegree ids in ascending
order, dependents scanned in ascending order), so simultaneously available
ids emerge in enqueue order, not global ascending id; when the pass resolves
every node its order is returned, and otherwise (a cycle) the resolved
prefix is discarded and ALL node ids are returned in ascending order.  In
every case the result is a permutation of the deduplicated node ids. -/
theorem C5_order_is_fifo_kahn_or_sorted_all (nodes : List Dag.DagNode) :
    (Dag.topological_order nodes).Perm ((Dag.node_map nodes).map Prod.fst) ∧
    ((Dag.kahnOrdered nodes).length = (Dag.node_map nodes).length →
      Dag.topological_order nodes = Dag.kahnOrdered nodes) ∧
    ((Dag.kahnOrdered nodes).length ≠ (Dag.node_map nodes).length →
      Dag.topological_order nodes =
        pySorted pyStrLe ((Dag.node_map nodes).map Prod.fst)) := by
  refine ⟨topological_order_perm nodes, ?_, ?_⟩
  · intro hc
    simp only [Dag.topological_order]
    rw [if_pos hc]
  · intro hc
    simp only [Dag.topological_order]
    rw [if_neg hc, if_neg (by simp)]

/-- Witness for the amended C5 theorem at the tie-breaking input. -/
theorem C5_witness :
    (Dag.topological_order Ex.tieNodes).Perm
      ((Dag.node_map Ex.tieNodes).map Prod.fst) ∧
    ((Dag.kahnOrdered Ex.tieNodes).length = (Dag.node_map Ex.tieNodes).length →
      Dag.topological_order Ex.tieNodes = Dag.kahnOrdered Ex.tieNodes) ∧
    ((Dag.kahnOrdered Ex.tieNodes).length ≠ (Dag.node_map Ex.tieNodes).length →
      Dag.topological_order Ex.tieNodes =
        pySorted pyStrLe ((Dag.node_map Ex.tieNodes).map Prod.fst)) :=
  C5_order_is_fifo_kahn_or_sorted_all Ex.tieNodes

/-- The decimal digit characters decode back to the rendered value. -/
theorem decode_digitsRevAux : ∀ (fuel n : Nat), n < fuel →
    decodeLE (digitsRevAux fuel n) = n
  | 0, n, h => absurd h (Nat.not_lt_zero n)
  | fuel + 1, n, h => by
      unfold digitsRevAux
      by_cases h10 : n < 10
      · rw [if_pos h10]
        simp only [decodeLE]
        interval_cases n <;> decide
      · rw [if_neg h10]
        simp only [decodeLE]
        rw [decode_digitsRevAux fuel (n / 10) (by omega)]
        have hm : digitVal (digitCh n) = n % 10 := by
          unfold digitCh digitVal
          have h9 : n % 10 < 10 := Nat.mod_lt _ (by norm_num)
          generalize n % 10 = m at h9 ⊢
          interval_cases m <;> decide
        omega

/-- Python decimal rendering is injective. -/
theorem pyDecimal_inj (a b : Nat) (h : pyDecimal a = pyDecimal b) : a = b := by
  have ha := decode_digitsRevAux (a + 1) a (by omega)
  have hb := decode_digitsRevAux (b + 1) b (by omega)
  unfold pyDecimal at h
  have hl : (digitsRevAux (a + 1) a).reverse = (digitsRevAux (b + 1) b).reverse :=
    congrArg String.data h
  have hl2 : digitsRevAux (a + 1) a = digitsRevAux (b + 1) b := by
    have h2 := congrArg List.reverse hl
    simpa using h2
  rw [← ha, ← hb, hl2]

/-- The proposer's id sequence `N1..Nk` is duplicate-free. -/
theorem proposer_ids_nodup (k : Nat) :
    ((List.range k).map (fun i => "N" ++ pyDecimal (i + 1))).Nodup := by
  apply List.Nodup.map_on ?_ (List.nodup_range k)
  intro x _ y _ hxy
  have hdata := congrArg String.data hxy
  rw [String.data_append, String.data_append] at hdata
  have hd2 := List.append_cancel_left hdata
  have hstr : pyDecimal (x + 1) = pyDecimal (y + 1) := congrArg String.mk hd2
  have := pyDecimal_inj _ _ hstr
  omega

/-- A Python prefix/suffix slice only keeps original elements. -/
theorem mem_pySliceTo {β : Type} (n : Int) (l : List β) (x : β)
    (hx : x ∈ PlanSpec.pySliceTo n l) : x ∈ l := by
  unfold PlanSpec.pySliceTo at hx
  by_cases h : (0 : Int) ≤ n
  · rw [if_pos h] at hx
    exact List.take_subset _ _ hx
  · rw [if_neg h] at hx
    exact List.take_subset _ _ hx

/-- The dedup fold only emits accumulator or input elements. -/
theorem mem_dedupFold {β : Type} [DecidableEq β] (x : β) :
    ∀ (l : List β) (acc : List β),
      x ∈ l.foldl
        (fun (acc : List β) y => if acc.contains y then acc else acc ++ [y]) acc →
      x ∈ acc ∨ x ∈ l
  | [], _, h => Or.inl h
  | y :: rest, acc, h => by
      rw [List.foldl_cons] at h
      by_cases hc : acc.contains y = true
      · rw [if_pos hc] at h
        rcases mem_dedupFold x rest acc h with h1 | h1
        · exact Or.inl h1
        · exact Or.inr (List.mem_cons_of_mem _ h1)
      · rw [if_neg hc] at h
        rcases mem_dedupFold x rest (acc ++ [y]) h with h1 | h1
        · rcases List.mem_append.1 h1 with h2 | h2
          · exact Or.inl h2
          · exact Or.inr (List.mem_cons.2 (Or.inl (List.mem_singleton.1 h2)))
        · exact Or.inr (List.mem_cons_of_mem _ h1)

/-- `dedupKeepFirst` only keeps input elements. -/
theorem mem_dedupKeepFirst {β : Type} [DecidableEq β] (x : β) (l : List β)
    (h : x ∈ dedupKeepFirst l) : x ∈ l := by
  unfold dedupKeepFirst at h
  rcases mem_dedupFold x l [] h with h1 | h1
  · exact absurd h1 (List.not_mem_nil x)
  · exact h1

/-- Every prerequisite id `node_prerequisites` emits names a strictly earlier
node: it is `"N" ++ m` for some `1 ≤ m ≤ index`. -/
theorem node_prereq_mem (index : Nat) (total maxp : Int) (p : String)
    (hp : p ∈ NodeBuilder.node_prerequisites index total maxp) :
    ∃ m : Nat, 1 ≤ m ∧ m ≤ index ∧ p = "N" ++ pyDecimal m := by
  unfold NodeBuilder.node_prerequisites at hp
  by_cases h0 : index = 0
  · rw [if_pos h0] at hp
    exact absurd hp (List.not_mem_nil p)
  · rw [if_neg h0] at hp
    have h1 : 1 ≤ index := Nat.pos_of_ne_zero h0
    have hp3 := mem_dedupKeepFirst p _ (mem_pySliceTo _ _ p hp)
    by_cases hc2 : 3 ≤ maxp ∧ 5 ≤ index ∧
        NodeBuilder.stage_for_index index total = .validation
    · rw [if_pos hc2] at hp3
      rcases List.mem_append.1 hp3 with hp4 | hp4
      · by_cases hc1 : 2 ≤ maxp ∧ 3 ≤ index ∧
            (NodeBuilder.stage_for_index index total = .integration ∨
             NodeBuilder.stage_for_index index total = .validation)
        · rw [if_pos hc1] at hp4
          rcases List.mem_append.1 hp4 with hp5 | hp5
          · exact ⟨index, h1, le_refl index, (List.mem_singleton.1 hp5)⟩
          · exact ⟨index - 1, by omega, by omega, (List.mem_singleton.1 hp5)⟩
        · rw [if_neg hc1] at hp4
          exact ⟨index, h1, le_refl index, (List.mem_singleton.1 hp4)⟩
      · exact ⟨index - 3, by omega, by omega, (List.mem_singleton.1 hp4)⟩
    · rw [if_neg hc2] at hp3
      by_cases hc1 : 2 ≤ maxp ∧ 3 ≤ index ∧
          (NodeBuilder.stage_for_index index total = .integration ∨
           NodeBuilder.stage_for_index index total = .validation)
      · rw [if_pos hc1] at hp3
        rcases List.mem_append.1 hp3 with hp5 | hp5
        · exact ⟨index, h1, le_refl index, (List.mem_singleton.1 hp5)⟩
        · exact ⟨index - 1, by omega, by omega, (List.mem_singleton.1 hp5)⟩
      · rw [if_neg hc1] at hp3
        exact ⟨index, h1, le_refl index, (List.mem_singleton.1 hp3)⟩

/-- Updating an absent key appends the binding. -/
theorem assocUpd_not_mem {β : Type} (k : String) (v : β) :
    ∀ (l : List (String × β)), k ∉ l.map Prod.fst →
      assocUpd k v l = l ++ [(k, v)]
  | [], _ => rfl
  | (k', v') :: rest, h => by
      rw [List.map_cons] at h
      have hne : ¬ k' = k := fun he =>
        h (List.mem_cons.2 (Or.inl he.symm))
      unfold assocUpd
      rw [if_neg hne, assocUpd_not_mem k v rest (fun hm => h (List.mem_cons_of_mem _ hm)),
        List.cons_append]

/-- `node_map` over nodes with distinct present ids is the ordered entry
list. -/
theorem node_map_fold_of_map {β : Type} (f : β → Dag.DagNode) (g : β → String)
    (hf : ∀ a, (f a).id = some (g a)) :
    ∀ (l : List β) (acc : List (String × Dag.DagNode)),
      (acc.map Prod.fst ++ l.map g).Nodup →
      (l.map f).foldl
        (fun mapping node =>
          match node.id with
          | none => mapping
          | some node_id => assocUpd node_id node mapping) acc =
      acc ++ l.map (fun a => (g a, f a))
  | [], acc, _ => by simp
  | a :: rest, acc, h => by
      rw [List.map_cons, List.foldl_cons]
      have hstep : (match (f a).id with
          | none => acc
          | some node_id => assocUpd node_id (f a) acc) =
          acc ++ [(g a, f a)] := by
        rw [hf a]
        apply assocUpd_not_mem
        intro hm
        rw [List.map_cons, List.nodup_append] at h
        exact h.2.2 hm (List.mem_cons_self _ _)
      rw [hstep, node_map_fold_of_map f g hf rest (acc ++ [(g a, f a)]) ?_]
      · rw [List.map_cons, List.append_assoc, List.singleton_append]
      · have h2 : (acc ++ [(g a, f a)]).map Prod.fst ++ rest.map g =
            acc.map Prod.fst ++ g a :: rest.map g := by
          rw [List.map_append, List.append_assoc]
          rfl
        rw [h2, List.map_cons] at *
        exact h

/-- The id and prerequisite fields of the internal-provider draft nodes:
index `i` yields id `"N(i+1)"` with the deterministic prerequisite list. -/
theorem propose_fold_pairs (spec : PlanSpec.GenerationSpec)
    (resolver : NodeBuilder.ResourceResolver) :
    ∀ (idxs : List Nat) (acc : List Node × List String),
      ((idxs.foldl (Proposer.buildStep spec resolver) acc).1).map
        (fun n => (n.id, n.prerequisites)) =
      acc.1.map (fun n => (n.id, n.prerequisites)) ++
        idxs.map (fun i => ("N" ++ pyDecimal (i + 1),
          NodeBuilder.node_prerequisites i spec.target_nodes
            spec.max_prerequisites_per_node))
  | [], acc => by simp
  | i :: rest, acc => by
      rw [List.foldl_cons, List.map_cons,
        propose_fold_pairs spec resolver rest (Proposer.buildStep spec resolver acc i)]
      have h1 : (Proposer.buildStep spec resolver acc i).1.map
          (fun n => (n.id, n.prerequisites)) =
          acc.1.map (fun n => (n.id, n.prerequisites)) ++
            [("N" ++ pyDecimal (i + 1),
              NodeBuilder.node_prerequisites i spec.target_nodes
                spec.max_prerequisites_per_node)] := by
        have h0 : (Proposer.buildStep spec resolver acc i).1 =
            acc.1 ++ [NodeBuilder.build_node i spec resolver
              (pySorted pyStrLe acc.2)] := rfl
        rw [h0, List.map_append]
        rfl
      rw [h1, List.append_assoc, List.singleton_append]

/-- The pair view (id, prerequisites) of the internal draft's nodes. -/
theorem propose_pairs (spec : PlanSpec.GenerationSpec)
    (resolver : NodeBuilder.ResourceResolver) :
    (Proposer.propose spec resolver).nodes.map (fun n => (n.id, n.prerequisites)) =
      (List.range spec.target_nodes.toNat).map
        (fun i => ("N" ++ pyDecimal (i + 1),
          NodeBuilder.node_prerequisites i spec.target_nodes
            spec.max_prerequisites_per_node)) := by
  have h0 : (Proposer.propose spec resolver).nodes =
      ((List.range spec.target_nodes.toNat).foldl
        (Proposer.buildStep spec resolver) ([], [])).1 := rfl
  rw [h0, propose_fold_pairs]
  simp

/-- The internal draft's id list is `N1..Nk`. -/
theorem propose_ids (spec : PlanSpec.GenerationSpec)
    (resolver : NodeBuilder.ResourceResolver) :
    (Proposer.propose spec resolver).nodes.map Node.id =
      (List.range spec.target_nodes.toNat).map
        (fun i => "N" ++ pyDecimal (i + 1)) := by
  have h := congrArg (List.map Prod.fst) (propose_pairs spec resolver)
  rw [List.map_map, List.map_map] at h
  exact h

/-- The internal draft has exactly the targeted node count. -/
theorem propose_length (spec : PlanSpec.GenerationSpec)
    (resolver : NodeBuilder.ResourceResolver) :
    (Proposer.propose spec resolver).nodes.length = spec.target_nodes.toNat := by
  have h := congrArg List.length (propose_pairs spec resolver)
  rw [List.length_map, List.length_map, List.length_range] at h
  exact h

/-- Pointwise id and prerequisite fields of the internal draft. -/
theorem propose_get (spec : PlanSpec.GenerationSpec)
    (resolver : NodeBuilder.ResourceResolver) :
    ∀ i (hi : i < (Proposer.propose spec resolver).nodes.length),
      ((Proposer.propose spec resolver).nodes.get ⟨i, hi⟩).id =
          "N" ++ pyDecimal (i + 1) ∧
        ((Proposer.propose spec resolver).nodes.get ⟨i, hi⟩).prerequisites =
          NodeBuilder.node_prerequisites i spec.target_nodes
            spec.max_prerequisites_per_node := by
  intro i hi
  have hp := propose_pairs spec resolver
  have hfin : i < ((Proposer.propose spec resolver).nodes.map
      (fun n => (n.id, n.prerequisites))).length := by
    rw [List.length_map]
    exact hi
  have h1 := List.get_of_eq hp ⟨i, hfin⟩
  rw [List.get_map, List.get_map, List.get_range] at h1
  exact ⟨congrArg Prod.fst h1, congrArg Prod.snd h1⟩

/-- C3: every internal-provider draft has ids exactly `N1..Nk` (k = node
count) with no duplicates, every prerequisite of the node at index `i` is
the id of a strictly earlier node, and `topological_order` over the node
mappings returns as many ids as there are nodes, without duplicates. -/
theorem C3_proposer_dag_invariants (spec : PlanSpec.GenerationSpec)
    (resolver : NodeBuilder.ResourceResolver) :
    ((Proposer.propose spec resolver).nodes.map Node.id =
      (List.range (Proposer.propose spec resolver).nodes.length).map
        (fun i => "N" ++ pyDecimal (i + 1))) ∧
    ((Proposer.propose spec resolver).nodes.map Node.id).Nodup ∧
    (∀ i, (hi : i < (Proposer.propose spec resolver).nodes.length) →
      ∀ p ∈ ((Proposer.propose spec resolver).nodes.get ⟨i, hi⟩).prerequisites,
        ∃ j, j < i ∧ ∃ (hj : j < (Proposer.propose spec resolver).nodes.length),
          ((Proposer.propose spec resolver).nodes.get ⟨j, hj⟩).id = p) ∧
    (Dag.topological_order ((Proposer.propose spec resolver).nodes.map
        (fun n => Dag.DagNode.mk (some n.id) (some n.prerequisites)))).length =
      (Proposer.propose spec resolver).nodes.length ∧
    (Dag.topological_order ((Proposer.propose spec resolver).nodes.map
        (fun n => Dag.DagNode.mk (some n.id) (some n.prerequisites)))).Nodup := by
  have hids := propose_ids spec resolver
  have hlen := propose_length spec resolver
  have hnd : ((Proposer.propose spec resolver).nodes.map Node.id).Nodup := by
    rw [hids]
    exact proposer_ids_nodup _
  have hkeys : (Dag.node_map ((Proposer.propose spec resolver).nodes.map
      (fun n => Dag.DagNode.mk (some n.id) (some n.prerequisites)))).map Prod.fst =
      (Proposer.propose spec resolver).nodes.map Node.id := by
    have h := node_map_fold_of_map
      (fun n => Dag.DagNode.mk (some n.id) (some n.prerequisites)) Node.id
      (fun a => rfl) (Proposer.propose spec resolver).nodes []
      (by simpa using hnd)
    have h2 : Dag.node_map ((Proposer.propose spec resolver).nodes.map
        (fun n => Dag.DagNode.mk (some n.id) (some n.prerequisites))) =
        (Proposer.propose spec resolver).nodes.map
          (fun a => (a.id, Dag.DagNode.mk (some a.id) (some a.prerequisites))) :=
      h.trans (List.nil_append _)
    rw [h2, List.map_map]
    rfl
  refine ⟨by rw [hids, hlen], hnd, ?_, ?_, ?_⟩
  · intro i hi p hp
    obtain ⟨_, hpre_i⟩ := propose_get spec resolver i hi
    rw [hpre_i] at hp
    obtain ⟨m, hm1, hm2, hm3⟩ := node_prereq_mem _ _ _ p hp
    refine ⟨m - 1, by omega, by omega, ?_⟩
    obtain ⟨hid_j, _⟩ := propose_get spec resolver (m - 1) (by omega)
    rw [hid_j, hm3]
    have hm' : m - 1 + 1 = m := by omega
    rw [hm']
  · have hperm := topological_order_perm
      ((Proposer.propose spec resolver).nodes.map
        (fun n => Dag.DagNode.mk (some n.id) (some n.prerequisites)))
    rw [hperm.length_eq, hkeys, List.length_map]
  · have hperm := topological_order_perm
      ((Proposer.propose spec resolver).nodes.map
        (fun n => Dag.DagNode.mk (some n.id) (some n.prerequisites)))
    exact (hperm.nodup_iff).2 (by rw [hkeys]; exact hnd)

/-- Witness for C3 at the concrete generation spec and resolver. -/
theorem C3_witness :
    ((Proposer.propose Ex.specC6 Ex.resolver1).nodes.map Node.id =
      (List.range (Proposer.propose Ex.specC6 Ex.resolver1).nodes.length).map
        (fun i => "N" ++ pyDecimal (i + 1))) ∧
    ((Proposer.propose Ex.specC6 Ex.resolver1).nodes.map Node.id).Nodup ∧
    (∀ i, (hi : i < (Proposer.propose Ex.specC6 Ex.resolver1).nodes.length) →
      ∀ p ∈ ((Proposer.propose Ex.specC6 Ex.resolver1).nodes.get
          ⟨i, hi⟩).prerequisites,
        ∃ j, j < i ∧
          ∃ (hj : j < (Proposer.propose Ex.specC6 Ex.resolver1).nodes.length),
            ((Proposer.propose Ex.specC6 Ex.resolver1).nodes.get ⟨j, hj⟩).id = p) ∧
    (Dag.topological_order ((Proposer.propose Ex.specC6 Ex.resolver1).nodes.map
        (fun n => Dag.DagNode.mk (some n.id) (some n.prerequisites)))).length =
      (Proposer.propose Ex.specC6 Ex.resolver1).nodes.length ∧
    (Dag.topological_order ((Proposer.propose Ex.specC6 Ex.resolver1).nodes.map
        (fun n => Dag.DagNode.mk (some n.id) (some n.prerequisites)))).Nodup :=
  C3_proposer_dag_invariants Ex.specC6 Ex.resolver1
